import Mathlib

/-!
Verification of the ingestion-job backend (`src/api/jobs.py`, `src/api/gemini_fs.py`,
`src/api/prompts.py`) against its natural-language specification.

The Python modules are shallowly embedded:
* `prompts.render_prompt` becomes a pure function over strings;
  Python's `str.replace` (left-to-right, non-overlapping, greedy first match)
  is re-implemented as `replaceAll` on character lists.
* the relational store (tables `ingestion_jobs`, `file_stores`,
  `file_store_documents`, `ingestion_job_events`) becomes an explicit `DB`
  state record; every `UPDATE`/`INSERT` issued through `_set_job_status` and
  `_log_event` is additionally recorded in an append-only `trace`, which is
  exactly the sequence of rows/row-updates the code persists, in order.
* wall-clock time becomes a `clock : Nat` field of the state; document
  processing advances it by an environment-chosen duration.
* the network pipeline of one document (download, resumable upload, import,
  operation polling) is an oracle `Env`: each step either returns a value or
  raises an error string, matching the `RuntimeError`s of the Python code.
-/

namespace PitchPages

/-! ### `prompts.py` — string-replacement templating -/

/-- `startsWith pat l` decides whether `pat` is an initial segment of `l`
(`str.startswith`, used to locate a `str.replace` match). -/
def startsWith : List Char → List Char → Bool
  | [], _ => true
  | _ :: _, [] => false
  | p :: ps, c :: cs => p = c && startsWith ps cs

/-- Python `str.replace`: scan left to right, replace each non-overlapping
occurrence of `pat` by `rep`, never rescanning the replacement text.
The Python semantics for an empty pattern (insert everywhere) is not needed:
`render_prompt` only ever passes patterns of the form `"\x7b\x7b" ++ key ++ "\x7d\x7d"`,
which are nonempty, so the empty pattern is mapped to the identity. -/
def replaceAll (pat rep : List Char) : List Char → List Char
  | [] => []
  | c :: cs =>
    if h : pat ≠ [] ∧ startsWith pat (c :: cs) = true then
      rep ++ replaceAll pat rep ((c :: cs).drop pat.length)
    else
      c :: replaceAll pat rep cs
termination_by l => l.length
decreasing_by
  · simp only [List.length_drop, List.length_cons]
    have hp : 0 < pat.length := List.length_pos.mpr h.1
    omega
  · simp

/-- `out.replace(pat, rep)` lifted to `String`. -/
def pyReplace (s pat rep : String) : String :=
  String.mk (replaceAll pat.data rep.data s.data)

/-- The `"\x7b\x7b" ++ key ++ "\x7d\x7d"` placeholder pattern built by
`render_prompt`'s f-string. -/
def braced (key : String) : String :=
  "\x7b\x7b" ++ key ++ "\x7d\x7d"

/-- `prompts.render_prompt`: fold `str.replace` over the context entries in
order (Python dicts iterate in insertion order, so the context is an
association list); `value or ""` maps a `None` value to the empty string. -/
def render_prompt (template : String) (context : List (String × Option String)) : String :=
  context.foldl (fun out kv => pyReplace out (braced kv.1) (kv.2.getD "")) template

/-! #### The claim's segmentwise reading of templating

The specification describes `render_prompt` as a pure function over named
placeholders: in an arbitrary template, every occurrence of a placeholder
whose key is bound in the context is replaced by that key's value (`None`
read as the empty string), and every placeholder whose key is unbound is left
verbatim.  To quantify over arbitrary templates, a template is presented as a
list of segments — literal text or one placeholder — and the specified
segmentwise output (`specRenderTok`, written from the claim) is compared with
what the source's fold of `str.replace` produces on the joined template. -/

/-- One template segment: literal text, or the placeholder of one key. -/
inductive Tok where
  | lit (s : String)
  | ph (key : String)
deriving DecidableEq, Repr

/-- The text of one segment. -/
def tokStr : Tok → String
  | .lit s => s
  | .ph key => braced key

/-- The template presented by a list of segments. -/
def joinTokens : List Tok → String
  | [] => ""
  | t :: rest => tokStr t ++ joinTokens rest

/-- The claim's specified rendering of one segment: a placeholder bound in the
context becomes the bound value with `None` read as `""`; an unbound
placeholder is left verbatim; literal text is untouched. -/
def specRenderTok (context : List (String × Option String)) : Tok → Tok
  | .lit s => .lit s
  | .ph key =>
    match context.lookup key with
    | some v => .lit (v.getD "")
    | none => .ph key

/-- Segmentwise substitution of one context entry. -/
def substTok (key rep : String) : Tok → Tok
  | .lit s => .lit s
  | .ph k2 => if k2 = key then .lit rep else .ph k2

/-- `s` opens no placeholder: no left brace occurs in it. -/
def noLB (s : String) : Bool := s.data.all (fun c => c != '\x7b')

/-- No brace at all occurs in `s` (well-formed placeholder keys). -/
def braceFree (s : String) : Bool :=
  s.data.all (fun c => c != '\x7b' && c != '\x7d')

/-- Well-formed segment: literal text opens no placeholder; keys are
brace-free. -/
def tokOk : Tok → Bool
  | .lit s => noLB s
  | .ph key => braceFree key

/-- Well-formed context: brace-free keys, and replacement texts that open no
placeholder (so one entry's value cannot fabricate another entry's pattern). -/
def ctxOk (context : List (String × Option String)) : Bool :=
  context.all (fun kv => braceFree kv.1 && noLB (kv.2.getD ""))

/-! ### Data model (`db_schema.py` tables used by the job engine) -/

/-- `job_status` enum. -/
inductive Status where
  | queued
  | running
  | succeeded
  | failed
deriving DecidableEq, Repr

/-- One `ingestion_jobs` row (the columns the engine reads and writes).
UUIDs are modelled as `Nat` keys. -/
structure Job where
  status : Status
  file_store_id : Nat
  progress : Nat
  total : Nat
  error : Option String
deriving DecidableEq, Repr

/-- One `file_stores` row (the columns the engine reads). -/
structure FileStore where
  id : Nat
  gemini_store_name : String
deriving DecidableEq, Repr

/-- One `file_store_documents` bridge row.  The table's primary key is
`(file_store_id, document_id)`, so those pairs are distinct across rows. -/
structure MemRow where
  file_store_id : Nat
  document_id : Nat
  added_at : Nat
deriving DecidableEq, Repr

/-- A JSON scalar as stored in the events' `data` column. -/
inductive JVal where
  | s (v : String)
  | n (v : Nat)
deriving DecidableEq, Repr

/-- One `ingestion_job_events` row (minus the auto-increment id, which is the
position in the trace). -/
structure Event where
  level : String
  message : String
  data : List (String × JVal)
deriving DecidableEq, Repr

/-- The fields of one `_set_job_status` UPDATE: `status` is always written,
`error` and `progress` only when supplied. -/
structure JobWrite where
  status : Status
  error : Option String
  progress : Option Nat
deriving DecidableEq, Repr

/-- One persisted effect, in persistence order: an event INSERT or a job-row
UPDATE, stamped with the clock at which it was issued. -/
inductive Entry where
  | ev (job_id : Nat) (ts : Nat) (e : Event)
  | wr (job_id : Nat) (ts : Nat) (w : JobWrite)
deriving DecidableEq, Repr

/-- The world state: the relational tables plus the wall clock.
`trace` is the append-only history of every event INSERT and status UPDATE. -/
structure DB where
  jobs : List (Nat × Job)
  file_stores : List FileStore
  memberships : List MemRow
  trace : List Entry
  clock : Nat
deriving DecidableEq, Repr

/-- `SELECT * FROM ingestion_jobs WHERE id = %s` (`db.fetch_one`). -/
def fetch_job (db : DB) (job_id : Nat) : Option Job :=
  (db.jobs.find? (fun p => p.1 == job_id)).map (fun p => p.2)

/-- `SELECT * FROM file_stores WHERE id = %s`. -/
def fetch_file_store (db : DB) (fsid : Nat) : Option FileStore :=
  db.file_stores.find? (fun s => s.id == fsid)

/-- `jobs._log_event`: INSERT one row into `ingestion_job_events`. -/
def log_event (db : DB) (job_id : Nat) (message level : String)
    (data : List (String × JVal)) : DB :=
  { db with trace := db.trace ++ [Entry.ev job_id db.clock ⟨level, message, data⟩] }

/-- The effect of one `_set_job_status` UPDATE on a job row: `status` is
always set, `error` and `progress` only when the optional argument was
supplied (`total` and the other columns are untouched). -/
def applyWrite (j : Job) (status : Status) (error : Option String)
    (progress : Option Nat) : Job :=
  { j with
    status := status
    error := match error with | some e => some e | none => j.error
    progress := progress.getD j.progress }

/-- `jobs._set_job_status`: a partial-field UPDATE of the job row, recorded
in the trace. -/
def set_job_status (db : DB) (job_id : Nat) (status : Status)
    (error : Option String) (progress : Option Nat) : DB :=
  { db with
    jobs := db.jobs.map (fun p =>
      if p.1 == job_id then (p.1, applyWrite p.2 status error progress) else p)
    trace := db.trace ++ [Entry.wr job_id db.clock ⟨status, error, progress⟩] }

/-- `UPDATE ingestion_jobs SET total = %s WHERE id = %s` (line 96 of
`jobs.py`; issued directly through `db.execute`, not `_set_job_status`). -/
def set_total (db : DB) (job_id : Nat) (total : Nat) : DB :=
  { db with
    jobs := db.jobs.map (fun p =>
      if p.1 == job_id then (p.1, { p.2 with total := total }) else p) }

/-- `SELECT COUNT(*) FROM file_store_documents WHERE file_store_id = %s`. -/
def count_membership (db : DB) (fsid : Nat) : Nat :=
  (db.memberships.filter (fun r => r.file_store_id == fsid)).length

/-- `ORDER BY fsd.added_at ASC, d.id ASC`: the lexicographic order on
`(added_at, document_id)`. -/
def rle (a b : MemRow) : Prop :=
  a.added_at < b.added_at ∨ (a.added_at = b.added_at ∧ a.document_id ≤ b.document_id)

instance : DecidableRel rle := fun a b => by unfold rle; infer_instance

instance : IsTotal MemRow rle := ⟨by intro a b; unfold rle; omega⟩

instance : IsTrans MemRow rle := ⟨by intro a b c; unfold rle; omega⟩

/-- The sorted view produced by the `ORDER BY` clause. -/
def sortRows (rows : List MemRow) : List MemRow :=
  List.insertionSort rle rows

/-- `jobs._fetch_documents_for_job`: join the job row to its store's
membership rows (the FK from `file_store_documents.document_id` to
`documents.id` makes the join to `documents` lossless), order them by
`(added_at, document_id)`, then apply `OFFSET`/`LIMIT` and project the
document ids. -/
def fetch_documents_for_job (db : DB) (job_id : Nat) (offset limit : Nat) :
    List Nat :=
  match fetch_job db job_id with
  | none => []
  | some j =>
    ((((sortRows (db.memberships.filter
        (fun r => r.file_store_id == j.file_store_id))).drop offset).take
      limit).map (fun r => r.document_id))

/-- The full processing order of a job's documents: every membership row of
its store, sorted.  `fetch_documents_for_job` returns `OFFSET`/`LIMIT`
windows of this list. -/
def jobDocOrder (db : DB) (job_id : Nat) : List Nat :=
  match fetch_job db job_id with
  | none => []
  | some j =>
    (sortRows (db.memberships.filter
        (fun r => r.file_store_id == j.file_store_id))).map
      (fun r => r.document_id)

/-! ### The external pipeline as an oracle

One document's pipeline steps (`_download_document_bytes`,
`gemini_fs.resumable_upload_file`, `gemini_fs.import_file_into_store`,
`gemini_fs.poll_operation`) talk to the network.  Each is modelled as an
oracle keyed by the document id (the call's arguments are determined by the
document row and the store's fixed configuration): it either returns a value
or raises an error string, exactly the `RuntimeError`s of the Python code. -/

/-- The JSON of a completed long-running operation, as consumed by the
engine: `done`, and the optional `error` field.  A Python-falsy `error`
value (absent, `None`, empty) is modelled as `none`, since
`if op.get("error")` tests truthiness. -/
structure OpResult where
  done : Bool
  error : Option String
deriving DecidableEq, Repr

/-- The oracle for one document's pipeline, plus `dur`, the wall-clock
seconds one full (successful) processing of the document takes. -/
structure Env where
  download : Nat → Except String Unit
  upload : Nat → Except String String
  opImport : Nat → Except String String
  poll : Nat → Except String OpResult
  dur : Nat → Nat

def docData (d : Nat) : List (String × JVal) := [("document_id", JVal.n d)]

/-- The body of the `try:` block of `run_ingestion_job` for one document
`d`, up to and including the `indexed_ok` event: emits the step events in
order and stops at the first step that raises, returning the error text. -/
def tryProcessDoc (env : Env) (db : DB) (job_id d : Nat) : DB × Option String :=
  let db1 := log_event db job_id "downloading_from_storage" "info" (docData d)
  match env.download d with
  | .error e => (db1, some e)
  | .ok _ =>
    let db2 := log_event db1 job_id "uploading_to_gemini_files_api" "info" (docData d)
    match env.upload d with
    | .error e => (db2, some e)
    | .ok file_name =>
      let db3 := log_event db2 job_id "importing_into_file_search_store" "info" (docData d)
      match env.opImport d with
      | .error e => (db3, some e)
      | .ok op_name =>
        let db4 := log_event db3 job_id "polling_operation" "info"
          (docData d ++ [("operation", JVal.s op_name)])
        match env.poll d with
        | .error e => (db4, some e)
        | .ok op =>
          match op.error with
          | some e => (db4, some e)
          | none =>
            (log_event db4 job_id "indexed_ok" "info"
              (docData d ++ [("file_name", JVal.s file_name)]), none)

/-- The events `tryProcessDoc` emits, as a pure function of the oracle. -/
def docEvents (env : Env) (d : Nat) : List Event :=
  let dl : Event := ⟨"info", "downloading_from_storage", docData d⟩
  match env.download d with
  | .error _ => [dl]
  | .ok _ =>
    let up : Event := ⟨"info", "uploading_to_gemini_files_api", docData d⟩
    match env.upload d with
    | .error _ => [dl, up]
    | .ok file_name =>
      let im : Event := ⟨"info", "importing_into_file_search_store", docData d⟩
      match env.opImport d with
      | .error _ => [dl, up, im]
      | .ok op_name =>
        let pl : Event := ⟨"info", "polling_operation",
          docData d ++ [("operation", JVal.s op_name)]⟩
        match env.poll d with
        | .error _ => [dl, up, im, pl]
        | .ok op =>
          match op.error with
          | some _ => [dl, up, im, pl]
          | none =>
            [dl, up, im, pl,
              ⟨"info", "indexed_ok", docData d ++ [("file_name", JVal.s file_name)]⟩]

/-- The outcome of one document's `try:` block: `none` on success, the
raised error text otherwise. -/
def docResult (env : Env) (d : Nat) : Option String :=
  match env.download d with
  | .error e => some e
  | .ok _ =>
    match env.upload d with
    | .error e => some e
    | .ok _ =>
      match env.opImport d with
      | .error e => some e
      | .ok _ =>
        match env.poll d with
        | .error e => some e
        | .ok op =>
          match op.error with
          | some e => some e
          | none => none

/-- Append a batch of events at the current clock. -/
def appendEv (db : DB) (job_id : Nat) (evs : List Event) : DB :=
  { db with trace := db.trace ++ evs.map (Entry.ev job_id db.clock) }

/-- The result of the inner `for doc in docs:` loop. -/
inductive BatchResult where
  | aborted (db : DB)
  | ran (db : DB) (progress processed : Nat) (broke : Bool)
deriving Repr

/-- The inner `for doc in docs:` loop of `run_ingestion_job` (lines
105-140): before each document check the deadline (`broke := true` records
the `break`); process the document; on success increment `progress` and
`processed` and persist `progress` immediately via `_set_job_status`; on
any exception emit `indexed_failed`, set the job `failed`, emit
`job_failed` and return (`aborted`).  A successful document advances the
clock by its duration. -/
def processBatch (env : Env) (job_id deadline : Nat) :
    List Nat → DB → Nat → Nat → BatchResult
  | [], db, progress, processed => .ran db progress processed false
  | d :: rest, db, progress, processed =>
    if deadline ≤ db.clock then .ran db progress processed true
    else
      match tryProcessDoc env db job_id d with
      | (db1, some e) =>
        let db2 := log_event db1 job_id "indexed_failed" "error"
          (docData d ++ [("error", JVal.s e)])
        let db3 := set_job_status db2 job_id .failed (some e) none
        let db4 := log_event db3 job_id "job_failed" "error" [("error", JVal.s e)]
        .aborted db4
      | (db1, none) =>
        let db2 := set_job_status db1 job_id .running none (some (progress + 1))
        let db3 := { db2 with clock := db2.clock + env.dur d }
        processBatch env job_id deadline rest db3 (progress + 1) (processed + 1)

/-- The result of the outer `while` loop. -/
inductive LoopResult where
  | aborted (db : DB)
  | finished (db : DB) (progress processed : Nat)
deriving Repr

/-- The outer `while time.time() < deadline and progress < total:` loop
(lines 101-140).  The loop is modelled with a fuel bound: every iteration
that neither exits nor aborts strictly increases `progress`, so
`(total - progress) + 1` dominates the iteration count (see
`runLoop_fuel_irrelevant`).  An inner deadline `break` exits the loop
directly: the clock never decreases, so the `while` condition would be
false at the re-check. -/
def runLoop (env : Env) (job_id batch_size total deadline : Nat) :
    Nat → DB → Nat → Nat → LoopResult
  | 0, db, progress, processed => .finished db progress processed
  | fuel + 1, db, progress, processed =>
    if db.clock < deadline ∧ progress < total then
      match fetch_documents_for_job db job_id progress
          (min batch_size (total - progress)) with
      | [] => .finished db progress processed
      | d :: rest =>
        match processBatch env job_id deadline (d :: rest) db progress processed with
        | .aborted db1 => .aborted db1
        | .ran db1 progress1 processed1 true => .finished db1 progress1 processed1
        | .ran db1 progress1 processed1 false =>
          runLoop env job_id batch_size total deadline fuel db1 progress1 processed1
    else .finished db progress processed

/-- Lines 142-148 of `jobs.py`: after the loop, persist `succeeded` (and
emit `job_succeeded`) when `progress >= total`, else persist `running` with
the current progress; then re-read and return the job row.  An abort inside
the loop already persisted `failed` and returns the re-read row directly. -/
def afterLoop (job_id total : Nat) : LoopResult → DB × Option Job
  | .aborted dbE => (dbE, fetch_job dbE job_id)
  | .finished dbE p1 pr1 =>
    if total ≤ p1 then
      let dbF := set_job_status dbE job_id Status.succeeded none (some p1)
      let dbG := log_event dbF job_id "job_succeeded" "info" [("processed", JVal.n pr1)]
      (dbG, fetch_job dbG job_id)
    else
      let dbF := set_job_status dbE job_id Status.running none (some p1)
      (dbF, fetch_job dbF job_id)

/-- `jobs.run_ingestion_job`.  `Except.error` models the function raising
across the trigger boundary (`raise RuntimeError("Job not found")`); the
status/event store itself is total in this model, so store faults do not
occur.  `total` is recomputed (and persisted) only when the stored value is
zero, mirroring lines 84-96. -/
def run_ingestion_job (env : Env) (db : DB) (job_id time_budget_s batch_size : Nat) :
    Except String (DB × Option Job) :=
  match fetch_job db job_id with
  | none => .error "Job not found"
  | some job =>
    if job.status = Status.succeeded ∨ job.status = Status.failed then
      .ok (db, some job)
    else
      let dbA := set_job_status db job_id Status.running none none
      let dbB := log_event dbA job_id "job_started" "info" []
      match fetch_file_store dbB job.file_store_id with
      | none =>
        let dbC := set_job_status dbB job_id Status.failed (some "File store not found") none
        let dbD := log_event dbC job_id "job_failed" "error"
          [("error", JVal.s "File store not found")]
        .ok (dbD, fetch_job dbD job_id)
      | some fs =>
        let dbC := log_event dbB job_id "gemini_store_ready" "info"
          [("gemini_store_name", JVal.s fs.gemini_store_name)]
        let total := if job.total = 0 then count_membership dbC job.file_store_id
          else job.total
        let dbD := if job.total = 0
          then set_total dbC job_id (count_membership dbC job.file_store_id) else dbC
        .ok (afterLoop job_id total
          (runLoop env job_id batch_size total (dbD.clock + time_budget_s)
            ((total - job.progress) + 1) dbD job.progress 0))

/-- The state after the unconditional pre-loop writes of a non-terminal run
whose file store resolves: the `running` status write, `job_started`, and
`gemini_store_ready`. -/
def preDB (db : DB) (job_id : Nat) (fs : FileStore) : DB :=
  log_event (log_event (set_job_status db job_id Status.running none none)
    job_id "job_started" "info" []) job_id "gemini_store_ready" "info"
    [("gemini_store_name", JVal.s fs.gemini_store_name)]

/-- The state after the store-missing failure path (lines 77-80). -/
def failDB (db : DB) (job_id : Nat) : DB :=
  log_event (set_job_status (log_event (set_job_status db job_id Status.running none none)
    job_id "job_started" "info" []) job_id Status.failed (some "File store not found") none)
    job_id "job_failed" "error" [("error", JVal.s "File store not found")]

/-- One trigger invocation as seen by the store: let `wait` seconds pass,
call `run_ingestion_job`, keep the resulting state (a raise leaves the
store untouched). -/
def runStep (env : Env) (job_id time_budget_s batch_size wait : Nat) (db : DB) : DB :=
  let db1 := { db with clock := db.clock + wait }
  match run_ingestion_job env db1 job_id time_budget_s batch_size with
  | .ok (db2, _) => db2
  | .error _ => db1

/-- Repeated trigger invocations with arbitrary gaps between them. -/
def runSeq (env : Env) (job_id time_budget_s batch_size : Nat)
    (waits : List Nat) (db : DB) : DB :=
  waits.foldl (fun db w => runStep env job_id time_budget_s batch_size w db) db

/-! ### `gemini_fs.poll_operation` -/

/-- The timeout `RuntimeError` of `poll_operation` (the Python message
interpolates `max_wait_s` and the last response; only its identity as a
raised error matters here). -/
def pollTimeoutMsg : String := "Operation did not complete"

/-- The `while time.time() < deadline:` loop of `poll_operation`:
`respAt t` is the remote's `operations.get` response at time `t` (an
`error` models a non-2xx status, which raises); a `done` response is
returned as-is; otherwise sleep `poll_every_s` and retry.  Fuel bounds the
iteration count; with `0 < poll_every_s` a fuel of `max_wait_s + 1` is
never exhausted, and the fuel-out result coincides with the timeout raise. -/
def pollLoop (respAt : Nat → Except String OpResult) (deadline poll_every_s : Nat) :
    Nat → Nat → Except String OpResult
  | _, 0 => .error pollTimeoutMsg
  | clock, fuel + 1 =>
    if clock < deadline then
      match respAt clock with
      | .error e => .error e
      | .ok last =>
        if last.done then .ok last
        else pollLoop respAt deadline poll_every_s (clock + poll_every_s) fuel
    else .error pollTimeoutMsg

/-- `gemini_fs.poll_operation(op_name, max_wait_s, poll_every_s)` started at
time `clock`: `deadline = time.time() + max_wait_s`. -/
def poll_operation (respAt : Nat → Except String OpResult)
    (clock max_wait_s poll_every_s : Nat) : Except String OpResult :=
  pollLoop respAt (clock + max_wait_s) poll_every_s clock (max_wait_s + 1)

/-! ### Trace observables -/

/-- Is this entry a job-row UPDATE? -/
def isWr : Entry → Bool
  | .wr _ _ _ => true
  | .ev _ _ _ => false

/-- The `progress` field of an UPDATE entry, when it was supplied. -/
def wrProg : Entry → Option Nat
  | .wr _ _ w => w.progress
  | .ev _ _ _ => none

/-- The `status` field of an UPDATE entry. -/
def wrStat : Entry → Option Status
  | .wr _ _ w => some w.status
  | .ev _ _ _ => none

/-- Is this entry an `indexed_ok` event? -/
def isOkEv : Entry → Bool
  | .ev _ _ e => e.message == "indexed_ok"
  | .wr _ _ _ => false

/-- Is this entry the UPDATE `status='running', progress=q` (no error)? -/
def isRunWrite (job_id q : Nat) : Entry → Bool
  | .wr j _ w => j == job_id && w.status == Status.running
      && w.error == none && w.progress == some q
  | .ev _ _ _ => false

/-- The `document_id` carried in an event's `data`, if any. -/
def evDocId : Entry → Option Nat
  | .ev _ _ e =>
    match e.data.lookup "document_id" with
    | some (JVal.n d) => some d
    | _ => none
  | .wr _ _ _ => none

/-- The message of an event entry. -/
def evMsg : Entry → Option String
  | .ev _ _ e => some e.message
  | .wr _ _ _ => none

/-- The sequence of persisted `progress` values in a trace segment. -/
def progValues (tr : List Entry) : List Nat := tr.filterMap wrProg

/-- The sequence of persisted `status` values in a trace segment. -/
def wrStatuses (tr : List Entry) : List Status := tr.filterMap wrStat

/-- How far along the lifecycle a status is; both terminal states rank 2. -/
def statusRank : Status → Nat
  | .queued => 0
  | .running => 1
  | .succeeded => 2
  | .failed => 2

/-- Terminal statuses. -/
def isTerminal (s : Status) : Bool :=
  s == Status.succeeded || s == Status.failed

/-- No job-row UPDATE follows an UPDATE to a terminal status. -/
def noWriteAfterTerminal : List Entry → Bool
  | [] => true
  | .wr _ _ w :: rest =>
    (!(isTerminal w.status) || rest.all (fun x => !(isWr x)))
      && noWriteAfterTerminal rest
  | .ev _ _ _ :: rest => noWriteAfterTerminal rest

/-- Scan a trace segment from a starting progress count `p`: each
`indexed_ok` event must be immediately followed by the UPDATE
`status='running', progress=p+1`, and the count steps to `p+1`.  Returns
the final count, or `none` if some `indexed_ok` is not so followed. -/
def parseOk (job_id : Nat) : Nat → List Entry → Option Nat
  | p, [] => some p
  | p, x :: rest =>
    if isOkEv x then
      match rest with
      | [] => none
      | y :: rest2 =>
        if isRunWrite job_id (p + 1) y then parseOk job_id (p + 1) rest2 else none
    else parseOk job_id p rest

/-- The stored progress of a job row (`0` when the row is absent). -/
def jobProgress (db : DB) (job_id : Nat) : Nat :=
  ((fetch_job db job_id).map Job.progress).getD 0

/-- The stored status rank of a job row (`0` when the row is absent). -/
def jobRank (db : DB) (job_id : Nat) : Nat :=
  ((fetch_job db job_id).map (fun j => statusRank j.status)).getD 0

/-- The trace entries appended after `db`, assuming `db.trace` is a prefix. -/
def newTrace (db db2 : DB) : List Entry := db2.trace.drop db.trace.length

/-- The state carried by either inner-loop outcome. -/
def dbOf : BatchResult → DB
  | .aborted db => db
  | .ran db _ _ _ => db

/-- The state carried by either outer-loop outcome. -/
def dbOfLoop : LoopResult → DB
  | .aborted db => db
  | .finished db _ _ => db

/-- What every store operation of the engine preserves: the membership and
store tables, presence of job rows, their `total` column, and the existing
trace (only appended to). -/
def frameOf (db db2 : DB) : Prop :=
  db2.memberships = db.memberships ∧
  db2.file_stores = db.file_stores ∧
  (∀ k, (fetch_job db2 k).isSome = (fetch_job db k).isSome) ∧
  (∀ k, (fetch_job db2 k).map Job.total = (fetch_job db k).map Job.total) ∧
  db.trace <+: db2.trace

/-- Timestamp of a trace entry. -/
def entryTs : Entry → Nat
  | .ev _ ts _ => ts
  | .wr _ ts _ => ts

/-- The ranks of the persisted statuses in a trace segment. -/
def statusRanks (tr : List Entry) : List Nat :=
  tr.filterMap (fun e => (wrStat e).map statusRank)

/-- Total processing duration of a document list. -/
def sumDur (env : Env) (docs : List Nat) : Nat := (docs.map env.dur).sum

/-! ### A pure mirror of the loops

`processBatch` and `runLoop` thread the whole store state.  For reasoning,
each is mirrored by a pure recursion over `(clock, progress, processed)`
that returns the appended trace and the final counters; bridge theorems
(`processBatch_eq_sim`, `runLoop_eq_sim`) prove the mirror exact.  The
job-row updates are recovered from the trace itself by replaying its
UPDATE entries (`applyTrace`). -/

/-- Replay one trace entry against the jobs table: UPDATE entries update
their row, event entries do nothing. -/
def applyWr (jobs : List (Nat × Job)) : Entry → List (Nat × Job)
  | .wr j _ w => jobs.map (fun q =>
      if q.1 == j then (q.1, applyWrite q.2 w.status w.error w.progress) else q)
  | .ev _ _ _ => jobs

/-- Replay a trace segment against the jobs table. -/
def applyTrace (jobs : List (Nat × Job)) (tr : List Entry) : List (Nat × Job) :=
  tr.foldl applyWr jobs

/-- Replay a trace segment against one job row. -/
def rowApply (k : Nat) (tr : List Entry) (x : Job) : Job :=
  tr.foldl (fun x e =>
    match e with
    | .wr j _ w => if j == k then applyWrite x w.status w.error w.progress else x
    | .ev _ _ _ => x) x

/-- The state reached from `db` after appending the trace segment `tr` and
moving the clock to `c`. -/
def mkDB (db : DB) (tr : List Entry) (c : Nat) : DB :=
  { jobs := applyTrace db.jobs tr
    file_stores := db.file_stores
    memberships := db.memberships
    trace := db.trace ++ tr
    clock := c }

/-- The observable outcome of a loop segment: appended trace, final clock
and counters, the abort error if a document failed, and whether the inner
loop hit the deadline. -/
structure BatchOut where
  tr : List Entry
  clock : Nat
  progress : Nat
  processed : Nat
  err : Option String
  broke : Bool
deriving Repr

/-- Pure mirror of `processBatch`. -/
def batchSim (env : Env) (job_id deadline : Nat) :
    List Nat → Nat → Nat → Nat → BatchOut
  | [], c, p, pr => ⟨[], c, p, pr, none, false⟩
  | d :: rest, c, p, pr =>
    if deadline ≤ c then ⟨[], c, p, pr, none, true⟩
    else
      match docResult env d with
      | some e =>
        ⟨(docEvents env d).map (Entry.ev job_id c) ++
          [Entry.ev job_id c ⟨"error", "indexed_failed", docData d ++ [("error", JVal.s e)]⟩,
           Entry.wr job_id c ⟨Status.failed, some e, none⟩,
           Entry.ev job_id c ⟨"error", "job_failed", [("error", JVal.s e)]⟩],
          c, p, pr, some e, false⟩
      | none =>
        let o := batchSim env job_id deadline rest (c + env.dur d) (p + 1) (pr + 1)
        ⟨(docEvents env d).map (Entry.ev job_id c) ++
          (Entry.wr job_id c ⟨Status.running, none, some (p + 1)⟩ :: o.tr),
          o.clock, o.progress, o.processed, o.err, o.broke⟩

/-- Pure mirror of `runLoop`, over a fixed document order `order`. -/
def loopSim (env : Env) (job_id batch_size total deadline : Nat) (order : List Nat) :
    Nat → Nat → Nat → Nat → BatchOut
  | 0, c, p, pr => ⟨[], c, p, pr, none, false⟩
  | fuel + 1, c, p, pr =>
    if c < deadline ∧ p < total then
      match (order.drop p).take (min batch_size (total - p)) with
      | [] => ⟨[], c, p, pr, none, false⟩
      | d :: rest =>
        let o := batchSim env job_id deadline (d :: rest) c p pr
        match o.err with
        | some _ => o
        | none =>
          if o.broke then o
          else
            let o2 := loopSim env job_id batch_size total deadline order fuel
              o.clock o.progress o.processed
            ⟨o.tr ++ o2.tr, o2.clock, o2.progress, o2.processed, o2.err, o2.broke⟩
    else ⟨[], c, p, pr, none, false⟩

/-! ### Concrete fixtures used by witnesses and counterexamples -/

/-- A pipeline oracle where every step succeeds and each document takes one
second. -/
def envAllOk : Env :=
  ⟨fun _ => .ok (), fun _ => .ok "files/abc", fun _ => .ok "operations/xyz",
    fun _ => .ok ⟨true, none⟩, fun _ => 1⟩

/-- Like `envAllOk` but document 10 fails to download. -/
def envFailDoc10 : Env :=
  { envAllOk with download := fun d => if d = 10 then .error "boom" else .ok () }

/-- Like `envAllOk` but every import operation completes carrying an error. -/
def envOpErr : Env :=
  { envAllOk with poll := fun _ => .ok ⟨true, some "op failed"⟩ }

/-- A fresh queued job over store 1. -/
def jobFresh : Job := ⟨Status.queued, 1, 0, 0, none⟩

/-- A store with two member documents; document 11 was added before 10. -/
def dbTwoDocs : DB :=
  { jobs := [(0, jobFresh)]
    file_stores := [⟨1, "fileSearchStores/s"⟩]
    memberships := [⟨1, 10, 5⟩, ⟨1, 11, 3⟩]
    trace := []
    clock := 100 }

/-- The same world with the job already succeeded. -/
def dbTerminal : DB := { dbTwoDocs with jobs := [(0, ⟨Status.succeeded, 1, 7, 7, none⟩)] }

/-- A running job whose stored `total` (5) exceeds the remaining membership
count (1), and whose `progress` (3) is already past every membership row. -/
def dbStalled : DB :=
  { dbTwoDocs with
    jobs := [(0, ⟨Status.running, 1, 3, 5, none⟩)]
    memberships := [⟨1, 10, 5⟩] }

/-- A world with no job rows at all. -/
def dbEmptyJobs : DB := ⟨[], [], [], [], 0⟩

/-- `dbTwoDocs` with the membership rows listed in the other order: the
same membership set. -/
def dbTwoDocsPerm : DB := { dbTwoDocs with memberships := [⟨1, 11, 3⟩, ⟨1, 10, 5⟩] }

/-- The running job row of `dbStalled`. -/
def jobW10 : Job := ⟨Status.running, 1, 3, 5, none⟩

/-- The file store row shared by the fixtures. -/
def fsW : FileStore := ⟨1, "fileSearchStores/s"⟩

/-- The state produced by a full successful run over `dbTwoDocs`. -/
def db7out : DB :=
  match run_ingestion_job envAllOk dbTwoDocs 0 20 5 with
  | .ok (d, _) => d
  | .error _ => dbTwoDocs

/-- The record returned by a full successful run over `dbTwoDocs`. -/
def j7out : Option Job :=
  match run_ingestion_job envAllOk dbTwoDocs 0 20 5 with
  | .ok (_, r) => r
  | .error _ => none

/-- A remote operation that is pending until time 56, then completes
carrying an error field. -/
def respW : Nat → Except String OpResult :=
  fun t => if t < 56 then .ok ⟨false, none⟩ else .ok ⟨true, some "operr"⟩

/-- The `total` a run works with: the stored value, or the membership count
when the stored value is zero (lines 84-96). -/
def totalOf (db : DB) (job : Job) : Nat :=
  if job.total = 0 then count_membership db job.file_store_id else job.total

/-- The job row as it stands when the loop starts: status `running` from the
pre-loop write, `total` resolved lazily; `progress` and `error` untouched. -/
def jStart (db : DB) (job : Job) : Job :=
  { job with status := Status.running, total := totalOf db job }

/-- The store state at loop entry: the pre-loop writes, plus the `total`
UPDATE when the stored total was zero. -/
def dbDOf (db : DB) (job_id : Nat) (job : Job) (fs : FileStore) : DB :=
  if job.total = 0
    then set_total (preDB db job_id fs) job_id (count_membership db job.file_store_id)
    else preDB db job_id fs

/-- The three pre-loop trace entries of a store-resolving run, all stamped
at the invocation clock. -/
def preTrace (db : DB) (job_id : Nat) (fs : FileStore) : List Entry :=
  [Entry.wr job_id db.clock ⟨Status.running, none, none⟩,
   Entry.ev job_id db.clock ⟨"info", "job_started", []⟩,
   Entry.ev job_id db.clock ⟨"info", "gemini_store_ready",
     [("gemini_store_name", JVal.s fs.gemini_store_name)]⟩]

/-- The pure mirror of the whole loop of one run: document order, deadline,
fuel and starting counters as `run_ingestion_job` sets them up. -/
def simOut (env : Env) (db : DB) (job_id time_budget_s batch_size : Nat)
    (job : Job) : BatchOut :=
  loopSim env job_id batch_size (totalOf db job) (db.clock + time_budget_s)
    (jobDocOrder db job_id) ((totalOf db job - job.progress) + 1)
    db.clock job.progress 0

/-- The job record returned by a full successful run over `dbTwoDocs`. -/
def jRunOut : Job :=
  match run_ingestion_job envAllOk dbTwoDocs 0 20 5 with
  | .ok (_, some j) => j
  | _ => jobFresh

/-! ## Theorems -/

theorem startsWith_self : ∀ l : List Char, startsWith l l = true
  | [] => rfl
  | c :: cs => by simp [startsWith, startsWith_self cs]

theorem replaceAll_nil (pat rep : List Char) : replaceAll pat rep [] = [] := by
  simp [replaceAll]

theorem startsWith_append : ∀ l rest : List Char, startsWith l (l ++ rest) = true
  | [], _ => rfl
  | c :: cs, rest => by simp [startsWith, List.cons_append, startsWith_append cs rest]

/-- A match at the head of the scanned text is taken and consumed whole. -/
theorem replaceAll_head (pat rep rest : List Char) (hpat : pat ≠ []) :
    replaceAll pat rep (pat ++ rest) = rep ++ replaceAll pat rep rest := by
  obtain ⟨c, cs, rfl⟩ := List.exists_cons_of_ne_nil hpat
  rw [List.cons_append, replaceAll]
  rw [dif_pos ⟨hpat, startsWith_append (c :: cs) rest⟩]
  congr 1
  have hdrop : List.drop (c :: cs).length (c :: (cs ++ rest)) = rest := by
    simp [List.drop_succ_cons, List.drop_left]
  rw [hdrop]

/-- A nonempty pattern matched against its own text yields the replacement. -/
theorem replaceAll_self (pat rep : List Char) (hpat : pat ≠ []) :
    replaceAll pat rep pat = rep := by
  have := replaceAll_head pat rep [] hpat
  simpa [replaceAll_nil] using this

theorem braced_data (key : String) :
    (braced key).data = '\x7b' :: '\x7b' :: (key.data ++ ['\x7d', '\x7d']) := by
  simp [braced]

theorem braced_ne_nil (key : String) : (braced key).data ≠ [] := by
  simp [braced_data]

/-- A template consisting of exactly one defined placeholder renders to the
placeholder's value, with `None` rendered as the empty string. -/
theorem render_prompt_single (key : String) (v : Option String) :
    render_prompt (braced key) [(key, v)] = v.getD "" := by
  show pyReplace (braced key) (braced key) (v.getD "") = v.getD ""
  unfold pyReplace
  rw [replaceAll_self _ _ (braced_ne_nil key)]

/-- An empty context leaves the template untouched: placeholders with no
context entry are left verbatim in the output. -/
theorem render_prompt_empty_context (template : String) :
    render_prompt template [] = template := rfl

theorem fetch_documents_eq_window (db : DB) (job_id offset limit : Nat) :
    fetch_documents_for_job db job_id offset limit =
      ((jobDocOrder db job_id).drop offset).take limit := by
  unfold fetch_documents_for_job jobDocOrder
  cases fetch_job db job_id with
  | none => simp
  | some j => simp [List.map_take, List.map_drop]

theorem tryProcessDoc_eq (env : Env) (db : DB) (job_id d : Nat) :
    tryProcessDoc env db job_id d =
      (appendEv db job_id (docEvents env d), docResult env d) := by
  unfold tryProcessDoc docEvents docResult appendEv log_event
  cases env.download d with
  | error e => simp
  | ok u =>
    cases env.upload d with
    | error e => simp
    | ok fn =>
      cases env.opImport d with
      | error e => simp
      | ok opn =>
        cases env.poll d with
        | error e => simp
        | ok op =>
          cases hop : op.error with
          | some e => simp [hop]
          | none => simp [hop]

/-! ### Row-lookup lemmas -/

theorem find_update (l : List (Nat × Job)) (j k : Nat) (f : Job → Job) :
    ((l.map (fun p => if p.1 == j then (p.1, f p.2) else p)).find?
        (fun p => p.1 == k)).map Prod.snd =
      if k = j then (((l.find? (fun p => p.1 == k)).map Prod.snd).map f)
      else (l.find? (fun p => p.1 == k)).map Prod.snd := by
  rw [List.find?_map]
  have hpred : ((fun p : Nat × Job => p.1 == k) ∘
      (fun p : Nat × Job => if p.1 == j then (p.1, f p.2) else p)) =
      (fun p : Nat × Job => p.1 == k) := by
    funext q
    by_cases h : q.1 = j <;> simp [h]
  rw [hpred]
  cases hfind : l.find? (fun p => p.1 == k) with
  | none => by_cases hkj : k = j <;> simp [hkj]
  | some q =>
    have hq : q.1 = k := by
      have := List.find?_some hfind
      simpa using this
    by_cases hkj : k = j
    · have hqj : q.1 = j := by rw [hq, hkj]
      simp [hkj, hqj]
    · have hqj : ¬ q.1 = j := by rw [hq]; exact hkj
      simp [hkj, hqj]

theorem fetch_job_set_job_status (db : DB) (j : Nat) (st : Status)
    (er : Option String) (pr : Option Nat) (k : Nat) :
    fetch_job (set_job_status db j st er pr) k =
      if k = j then (fetch_job db k).map (fun x => applyWrite x st er pr)
      else fetch_job db k := by
  unfold fetch_job set_job_status
  have := find_update db.jobs j k (fun x => applyWrite x st er pr)
  simpa using this

theorem fetch_job_set_total (db : DB) (j total k : Nat) :
    fetch_job (set_total db j total) k =
      if k = j then (fetch_job db k).map (fun x => { x with total := total })
      else fetch_job db k := by
  unfold fetch_job set_total
  have := find_update db.jobs j k (fun x => { x with total := total })
  simpa using this

theorem fetch_job_log_event (db : DB) (j : Nat) (m l : String)
    (dt : List (String × JVal)) (k : Nat) :
    fetch_job (log_event db j m l dt) k = fetch_job db k := rfl

theorem fetch_job_appendEv (db : DB) (j : Nat) (evs : List Event) (k : Nat) :
    fetch_job (appendEv db j evs) k = fetch_job db k := rfl

theorem fetch_job_clock (db : DB) (c k : Nat) :
    fetch_job { db with clock := c } k = fetch_job db k := rfl

/-! ### Frame lemmas: what the engine's store writes preserve -/

theorem frameOf_refl (db : DB) : frameOf db db :=
  ⟨rfl, rfl, fun _ => rfl, fun _ => rfl, List.prefix_refl _⟩

theorem frameOf_trans {db1 db2 db3 : DB} (h12 : frameOf db1 db2)
    (h23 : frameOf db2 db3) : frameOf db1 db3 := by
  obtain ⟨m12, f12, s12, t12, p12⟩ := h12
  obtain ⟨m23, f23, s23, t23, p23⟩ := h23
  exact ⟨m23.trans m12, f23.trans f12, fun k => (s23 k).trans (s12 k),
    fun k => (t23 k).trans (t12 k), p12.trans p23⟩

theorem frameOf_log_event (db : DB) (j : Nat) (m l : String)
    (dt : List (String × JVal)) : frameOf db (log_event db j m l dt) :=
  ⟨rfl, rfl, fun _ => rfl, fun _ => rfl, List.prefix_append _ _⟩

theorem frameOf_appendEv (db : DB) (j : Nat) (evs : List Event) :
    frameOf db (appendEv db j evs) :=
  ⟨rfl, rfl, fun _ => rfl, fun _ => rfl, List.prefix_append _ _⟩

theorem frameOf_clock (db : DB) (c : Nat) : frameOf db { db with clock := c } :=
  ⟨rfl, rfl, fun _ => rfl, fun _ => rfl, List.prefix_refl _⟩

theorem frameOf_set_job_status (db : DB) (j : Nat) (st : Status)
    (er : Option String) (pr : Option Nat) :
    frameOf db (set_job_status db j st er pr) := by
  refine ⟨rfl, rfl, fun k => ?_, fun k => ?_, List.prefix_append _ _⟩
  · rw [fetch_job_set_job_status]
    split <;> simp
  · rw [fetch_job_set_job_status]
    split
    · cases fetch_job db k <;> simp [applyWrite]
    · rfl

theorem frameOf_set_total_same (db : DB) (j total : Nat)
    (hsame : (fetch_job db j).map Job.total = some total ∨ fetch_job db j = none) :
    frameOf db (set_total db j total) := by
  refine ⟨rfl, rfl, fun k => ?_, fun k => ?_, List.prefix_refl _⟩
  · rw [fetch_job_set_total]
    split <;> simp
  · rw [fetch_job_set_total]
    split
    · rename_i hk
      subst hk
      rcases hsame with h | h
      · cases hf : fetch_job db k with
        | none => simp [hf]
        | some x =>
          rw [hf] at h
          simp at h
          simp [hf, h]
      · simp [h]
    · rfl

theorem frameOf_log_event2 {db db2 : DB} {j : Nat} {m l : String}
    {dt : List (String × JVal)} (h : frameOf db db2) :
    frameOf db (log_event db2 j m l dt) :=
  frameOf_trans h (frameOf_log_event db2 j m l dt)

theorem frameOf_appendEv2 {db db2 : DB} {j : Nat} {evs : List Event}
    (h : frameOf db db2) : frameOf db (appendEv db2 j evs) :=
  frameOf_trans h (frameOf_appendEv db2 j evs)

theorem frameOf_set_job_status2 {db db2 : DB} {j : Nat} {st : Status}
    {er : Option String} {pr : Option Nat} (h : frameOf db db2) :
    frameOf db (set_job_status db2 j st er pr) :=
  frameOf_trans h (frameOf_set_job_status db2 j st er pr)

theorem frameOf_clock2 {db db2 : DB} {c : Nat} (h : frameOf db db2) :
    frameOf db { db2 with clock := c } :=
  frameOf_trans h (frameOf_clock db2 c)

theorem processBatch_frame (env : Env) (job_id deadline : Nat) :
    ∀ (docs : List Nat) (db : DB) (p pr : Nat),
      frameOf db (dbOf (processBatch env job_id deadline docs db p pr))
  | [], db, p, pr => frameOf_refl db
  | d :: rest, db, p, pr => by
    rw [processBatch]
    split
    · exact frameOf_refl db
    · rw [tryProcessDoc_eq]
      cases hdr : docResult env d with
      | some e =>
        exact frameOf_log_event2 (frameOf_set_job_status2
          (frameOf_log_event2 (frameOf_appendEv2 (frameOf_refl db))))
      | none =>
        exact frameOf_trans
          (frameOf_clock2 (frameOf_set_job_status2 (frameOf_appendEv2 (frameOf_refl db))))
          (processBatch_frame env job_id deadline rest _ (p + 1) (pr + 1))

theorem runLoop_frame (env : Env) (job_id batch_size total deadline : Nat) :
    ∀ (fuel : Nat) (db : DB) (p pr : Nat),
      frameOf db (dbOfLoop (runLoop env job_id batch_size total deadline fuel db p pr))
  | 0, db, p, pr => frameOf_refl db
  | fuel + 1, db, p, pr => by
    rw [runLoop]
    split
    · cases hdocs : fetch_documents_for_job db job_id p (min batch_size (total - p)) with
      | nil => exact frameOf_refl db
      | cons d rest =>
        dsimp only
        have hpb := processBatch_frame env job_id deadline (d :: rest) db p pr
        cases hres : processBatch env job_id deadline (d :: rest) db p pr with
        | aborted db1 =>
          rw [hres] at hpb
          exact hpb
        | ran db1 p1 pr1 broke =>
          rw [hres] at hpb
          cases broke with
          | true => exact hpb
          | false =>
            exact frameOf_trans hpb
              (runLoop_frame env job_id batch_size total deadline fuel db1 p1 pr1)
    · exact frameOf_refl db

/-! ### Shape lemmas: reduced forms of `run_ingestion_job` -/

theorem fetch_job_preDB (db : DB) (job_id : Nat) (fs : FileStore) (k : Nat) :
    fetch_job (preDB db job_id fs) k =
      if k = job_id then
        (fetch_job db k).map (fun x => applyWrite x Status.running none none)
      else fetch_job db k := by
  unfold preDB
  rw [fetch_job_log_event, fetch_job_log_event, fetch_job_set_job_status]

theorem fetch_job_failDB (db : DB) (job_id k : Nat) :
    fetch_job (failDB db job_id) k =
      if k = job_id then
        (fetch_job db k).map (fun x =>
          applyWrite (applyWrite x Status.running none none)
            Status.failed (some "File store not found") none)
      else fetch_job db k := by
  unfold failDB
  rw [fetch_job_log_event, fetch_job_set_job_status, fetch_job_log_event,
    fetch_job_set_job_status]
  split
  · cases fetch_job db k <;> simp
  · rfl

/-- A non-terminal job whose file store is missing: the run fails the job
and returns the re-read row. -/
theorem run_shape_nostore (env : Env) (db : DB) (job_id time_budget_s batch_size : Nat)
    (job : Job) (hfind : fetch_job db job_id = some job)
    (hnt : ¬(job.status = Status.succeeded ∨ job.status = Status.failed))
    (hfs : fetch_file_store db job.file_store_id = none) :
    run_ingestion_job env db job_id time_budget_s batch_size =
      .ok (failDB db job_id, fetch_job (failDB db job_id) job_id) := by
  unfold run_ingestion_job
  simp only [hfind]
  rw [if_neg hnt]
  have hfs2 : fetch_file_store (log_event (set_job_status db job_id Status.running none none)
      job_id "job_started" "info" []) job.file_store_id = none := hfs
  simp only [hfs2]
  rfl

/-- A non-terminal job whose file store resolves: the run is the loop
bracketed by the pre-loop writes and the post-loop persistence, with
`total` taken lazily. -/
theorem run_shape (env : Env) (db : DB) (job_id time_budget_s batch_size : Nat)
    (job : Job) (fs : FileStore) (total : Nat) (dbD : DB)
    (hfind : fetch_job db job_id = some job)
    (hnt : ¬(job.status = Status.succeeded ∨ job.status = Status.failed))
    (hfs : fetch_file_store db job.file_store_id = some fs)
    (htotal : total = if job.total = 0 then count_membership db job.file_store_id
      else job.total)
    (hdbD : dbD = if job.total = 0
      then set_total (preDB db job_id fs) job_id (count_membership db job.file_store_id)
      else preDB db job_id fs) :
    run_ingestion_job env db job_id time_budget_s batch_size =
      Except.ok (afterLoop job_id total
        (runLoop env job_id batch_size total (db.clock + time_budget_s)
          ((total - job.progress) + 1) dbD job.progress 0)) := by
  subst htotal hdbD
  unfold run_ingestion_job
  simp only [hfind]
  rw [if_neg hnt]
  have hfs2 : fetch_file_store (log_event (set_job_status db job_id Status.running none none)
      job_id "job_started" "info" []) job.file_store_id = some fs := hfs
  simp only [hfs2]
  by_cases htz : job.total = 0
  · simp only [if_pos htz]
    rfl
  · simp only [if_neg htz]
    rfl

/-- Whatever the loop outcome, `afterLoop` returns a pair whose second
component is the (present) job row. -/
theorem afterLoop_some (job_id total : Nat) (res : LoopResult)
    (h : (fetch_job (dbOfLoop res) job_id).isSome = true) :
    ∃ db2 j2, afterLoop job_id total res = (db2, some j2) := by
  cases res with
  | aborted dbE =>
    simp only [dbOfLoop] at h
    obtain ⟨j2, hj2⟩ := Option.isSome_iff_exists.mp h
    exact ⟨dbE, j2, by simp only [afterLoop]; rw [hj2]⟩
  | finished dbE p1 pr1 =>
    simp only [dbOfLoop] at h
    by_cases hle : total ≤ p1
    · have hs : (fetch_job (log_event (set_job_status dbE job_id Status.succeeded none (some p1))
          job_id "job_succeeded" "info" [("processed", JVal.n pr1)]) job_id).isSome = true := by
        rw [fetch_job_log_event, fetch_job_set_job_status]
        simp [h]
      obtain ⟨j2, hj2⟩ := Option.isSome_iff_exists.mp hs
      exact ⟨_, j2, by simp only [afterLoop]; rw [if_pos hle, hj2]⟩
    · have hs : (fetch_job (set_job_status dbE job_id Status.running none (some p1))
          job_id).isSome = true := by
        rw [fetch_job_set_job_status]
        simp [h]
      obtain ⟨j2, hj2⟩ := Option.isSome_iff_exists.mp hs
      exact ⟨_, j2, by simp only [afterLoop]; rw [if_neg hle, hj2]⟩

/-! ### Claim theorems: C3, C6, C9 -/

/-- C3: invoking `run_ingestion_job` on a job whose status is already
`succeeded` or `failed` is a no-op: it returns the input state and the job
record completely unchanged — no status write, no event append, and the
result does not depend on the pipeline oracle, so no indexing-service or
object-store call is consumed. -/
theorem C3_terminal_noop (env : Env) (db : DB) (job_id time_budget_s batch_size : Nat)
    (job : Job) (hfind : fetch_job db job_id = some job)
    (hterm : job.status = Status.succeeded ∨ job.status = Status.failed) :
    run_ingestion_job env db job_id time_budget_s batch_size = .ok (db, some job) := by
  unfold run_ingestion_job
  rw [hfind]
  simp only [if_pos hterm]

theorem C3_witness :
    fetch_job dbTerminal 0 = some ⟨Status.succeeded, 1, 7, 7, none⟩ ∧
    run_ingestion_job envAllOk dbTerminal 0 20 5 =
      .ok (dbTerminal, some ⟨Status.succeeded, 1, 7, 7, none⟩) :=
  ⟨rfl, C3_terminal_noop envAllOk dbTerminal 0 20 5 ⟨Status.succeeded, 1, 7, 7, none⟩
    rfl (Or.inl rfl)⟩

/-- C6 (counterexample): the claim quantifies over every invocation, but an
invocation whose job id has no row raises `RuntimeError("Job not found")`
across the trigger boundary — and that raise is not a fault of the
status/event store (which answered normally with "no row"). -/
theorem C6_counterexample :
    run_ingestion_job envAllOk dbEmptyJobs 0 20 5 = .error "Job not found" := rfl

/-- C6 (amended): for every invocation whose job id exists,
`run_ingestion_job` returns a job record and never raises — document
pipeline failures are reported only through the returned record and the
event log.  (The status/event store is total in this model; its faults are
the claim's acknowledged exception.) -/
theorem C6_always_returns (env : Env) (db : DB) (job_id time_budget_s batch_size : Nat)
    (h : (fetch_job db job_id).isSome = true) :
    ∃ db2 j2, run_ingestion_job env db job_id time_budget_s batch_size =
      Except.ok (db2, some j2) := by
  obtain ⟨job, hfind⟩ := Option.isSome_iff_exists.mp h
  by_cases hterm : job.status = Status.succeeded ∨ job.status = Status.failed
  · exact ⟨db, job, by unfold run_ingestion_job; simp only [hfind]; rw [if_pos hterm]⟩
  · cases hfs : fetch_file_store db job.file_store_id with
    | none =>
      rw [run_shape_nostore env db job_id time_budget_s batch_size job hfind hterm hfs]
      have hsome : (fetch_job (failDB db job_id) job_id).isSome = true := by
        rw [fetch_job_failDB]
        simp [hfind]
      obtain ⟨j2, hj2⟩ := Option.isSome_iff_exists.mp hsome
      exact ⟨failDB db job_id, j2, by rw [hj2]⟩
    | some fs =>
      rw [run_shape env db job_id time_budget_s batch_size job fs _ _ hfind hterm hfs rfl rfl]
      have hDsome : (fetch_job (if job.total = 0
          then set_total (preDB db job_id fs) job_id (count_membership db job.file_store_id)
          else preDB db job_id fs) job_id).isSome = true := by
        by_cases htz : job.total = 0
        · rw [if_pos htz, fetch_job_set_total, fetch_job_preDB]
          simp [hfind]
        · rw [if_neg htz, fetch_job_preDB]
          simp [hfind]
      have hframe := runLoop_frame env job_id batch_size
        (if job.total = 0 then count_membership db job.file_store_id else job.total)
        (db.clock + time_budget_s)
        (((if job.total = 0 then count_membership db job.file_store_id else job.total)
          - job.progress) + 1)
        (if job.total = 0
          then set_total (preDB db job_id fs) job_id (count_membership db job.file_store_id)
          else preDB db job_id fs) job.progress 0
      obtain ⟨db2, j2, haf⟩ := afterLoop_some job_id _ _ ((hframe.2.2.1 job_id).trans hDsome)
      exact ⟨db2, j2, by rw [haf]⟩

theorem C6_always_returns_witness :
    (fetch_job dbTwoDocs 0).isSome = true ∧
    ∃ db2 j2, run_ingestion_job envAllOk dbTwoDocs 0 20 5 = Except.ok (db2, some j2) :=
  ⟨rfl, C6_always_returns envAllOk dbTwoDocs 0 20 5 rfl⟩

/-! ### Lemmas for C7, C10: totals, stalls -/

/-- The post-loop writes never touch the `total` column. -/
theorem afterLoop_total (job_id total : Nat) (res : LoopResult) (k : Nat) :
    (fetch_job (afterLoop job_id total res).1 k).map Job.total =
      (fetch_job (dbOfLoop res) k).map Job.total := by
  cases res with
  | aborted dbE => rfl
  | finished dbE p1 pr1 =>
    by_cases hle : total ≤ p1 <;>
      simp only [afterLoop, dbOfLoop, if_pos, if_neg, hle, if_true, if_false,
        fetch_job_log_event, fetch_job_set_job_status] <;>
      split <;> (try rfl) <;> (cases fetch_job dbE k <;> simp [applyWrite])

/-- When the current offset is at or past the store's membership count, the
batch fetch is empty. -/
theorem fetch_documents_past_end (db : DB) (job_id offset limit : Nat) (job : Job)
    (hfind : fetch_job db job_id = some job)
    (h : count_membership db job.file_store_id ≤ offset) :
    fetch_documents_for_job db job_id offset limit = [] := by
  unfold fetch_documents_for_job
  simp only [hfind]
  have hlen : (sortRows (db.memberships.filter
      (fun r => r.file_store_id == job.file_store_id))).length ≤ offset := by
    unfold sortRows
    rw [(List.perm_insertionSort rle _).length_eq]
    exact h
  rw [List.drop_eq_nil_of_le hlen]
  simp

/-- The outer loop exits at once when its first fetch is empty (or the
condition fails). -/
theorem runLoop_stall (env : Env) (job_id batch_size total deadline fuel : Nat)
    (db : DB) (p pr : Nat)
    (hfe : fetch_documents_for_job db job_id p (min batch_size (total - p)) = []) :
    runLoop env job_id batch_size total deadline fuel db p pr = .finished db p pr := by
  cases fuel with
  | zero => rfl
  | succ fuel =>
    rw [runLoop]
    split
    · simp only [hfe]
    · rfl

/-- One run of a non-terminal job whose batch fetch from the current
progress is empty while `progress < total`: the loop exits immediately and
the job is persisted `running` with unchanged progress. -/
theorem run_stall (env : Env) (db : DB) (job_id time_budget_s batch_size : Nat)
    (job : Job) (fs : FileStore)
    (hfind : fetch_job db job_id = some job)
    (hnt : ¬(job.status = Status.succeeded ∨ job.status = Status.failed))
    (hstore : fetch_file_store db job.file_store_id = some fs)
    (hcnt : count_membership db job.file_store_id ≤ job.progress)
    (hlt : job.progress < job.total) :
    run_ingestion_job env db job_id time_budget_s batch_size =
      .ok (set_job_status (preDB db job_id fs) job_id Status.running none (some job.progress),
        some { job with status := Status.running }) := by
  have htnz : ¬ job.total = 0 := by omega
  have hsh := run_shape env db job_id time_budget_s batch_size job fs job.total
    (preDB db job_id fs) hfind hnt hstore (by rw [if_neg htnz]) (by rw [if_neg htnz])
  have hfindD : fetch_job (preDB db job_id fs) job_id =
      some { job with status := Status.running } := by
    rw [fetch_job_preDB, if_pos rfl, hfind]
    rfl
  have hfe : fetch_documents_for_job (preDB db job_id fs) job_id job.progress
      (min batch_size (job.total - job.progress)) = [] :=
    fetch_documents_past_end _ _ _ _ _ hfindD hcnt
  rw [runLoop_stall env job_id batch_size job.total (db.clock + time_budget_s) _
    (preDB db job_id fs) job.progress 0 hfe] at hsh
  rw [hsh]
  simp only [afterLoop, if_neg (show ¬ job.total ≤ job.progress by omega)]
  rw [fetch_job_set_job_status, if_pos rfl, hfindD]
  rfl

/-- One invocation (`runStep`) under the same hypotheses: the resulting row
is `running` with unchanged progress, and the membership and store tables
are untouched. -/
theorem runStep_stall (env : Env) (db : DB) (job_id time_budget_s batch_size wait : Nat)
    (job : Job) (fs : FileStore)
    (hfind : fetch_job db job_id = some job)
    (hnt : ¬(job.status = Status.succeeded ∨ job.status = Status.failed))
    (hstore : fetch_file_store db job.file_store_id = some fs)
    (hcnt : count_membership db job.file_store_id ≤ job.progress)
    (hlt : job.progress < job.total) :
    fetch_job (runStep env job_id time_budget_s batch_size wait db) job_id =
      some { job with status := Status.running } ∧
    (runStep env job_id time_budget_s batch_size wait db).memberships = db.memberships ∧
    (runStep env job_id time_budget_s batch_size wait db).file_stores = db.file_stores := by
  have hrun := run_stall env { db with clock := db.clock + wait } job_id
    time_budget_s batch_size job fs hfind hnt hstore hcnt hlt
  unfold runStep
  simp only [hrun]
  refine ⟨?_, rfl, rfl⟩
  rw [fetch_job_set_job_status, if_pos rfl, fetch_job_preDB, if_pos rfl]
  have hf : fetch_job { db with clock := db.clock + wait } job_id = some job := hfind
  rw [hf]
  rfl

theorem status_not_terminal (s : Status)
    (h : ¬(s = Status.succeeded ∨ s = Status.failed)) : isTerminal s = false := by
  cases s <;> simp_all [isTerminal]

/-- C7: `total` is computed from the membership count only when the stored
value is zero, and the computed count is persisted; a nonzero stored
`total` is never recomputed or overwritten by a run, whatever the current
membership is. -/
theorem C7_lazy_total (env : Env) (db : DB) (job_id time_budget_s batch_size : Nat)
    (job : Job) (db2 : DB) (r : Option Job)
    (hfind : fetch_job db job_id = some job)
    (hrun : run_ingestion_job env db job_id time_budget_s batch_size = .ok (db2, r)) :
    (job.total ≠ 0 → (fetch_job db2 job_id).map Job.total = some job.total) ∧
    (job.total = 0 → ¬(job.status = Status.succeeded ∨ job.status = Status.failed) →
      (fetch_file_store db job.file_store_id).isSome = true →
      (fetch_job db2 job_id).map Job.total =
        some (count_membership db job.file_store_id)) := by
  by_cases hterm : job.status = Status.succeeded ∨ job.status = Status.failed
  · have hsh : run_ingestion_job env db job_id time_budget_s batch_size =
        .ok (db, some job) := by
      unfold run_ingestion_job
      simp only [hfind]
      rw [if_pos hterm]
    rw [hsh] at hrun
    have hdb2 : db = db2 := congrArg Prod.fst (Except.ok.inj hrun)
    constructor
    · intro _
      rw [← hdb2, hfind]
      rfl
    · intro _ hnt _
      exact absurd hterm hnt
  · cases hfs : fetch_file_store db job.file_store_id with
    | none =>
      rw [run_shape_nostore env db job_id time_budget_s batch_size job hfind hterm hfs] at hrun
      have hdb2 : failDB db job_id = db2 := congrArg Prod.fst (Except.ok.inj hrun)
      have htot : (fetch_job db2 job_id).map Job.total = some job.total := by
        rw [← hdb2, fetch_job_failDB, if_pos rfl, hfind]
        rfl
      constructor
      · intro _
        exact htot
      · intro _ _ hs
        simp at hs
    | some fs =>
      rw [run_shape env db job_id time_budget_s batch_size job fs _ _ hfind hterm hfs
        rfl rfl] at hrun
      have hdb2 : (afterLoop job_id
          (if job.total = 0 then count_membership db job.file_store_id else job.total)
          (runLoop env job_id batch_size
            (if job.total = 0 then count_membership db job.file_store_id else job.total)
            (db.clock + time_budget_s)
            (((if job.total = 0 then count_membership db job.file_store_id else job.total)
              - job.progress) + 1)
            (if job.total = 0
              then set_total (preDB db job_id fs) job_id
                (count_membership db job.file_store_id)
              else preDB db job_id fs) job.progress 0)).1 = db2 :=
        congrArg Prod.fst (Except.ok.inj hrun)
      have hframe := runLoop_frame env job_id batch_size
        (if job.total = 0 then count_membership db job.file_store_id else job.total)
        (db.clock + time_budget_s)
        (((if job.total = 0 then count_membership db job.file_store_id else job.total)
          - job.progress) + 1)
        (if job.total = 0
          then set_total (preDB db job_id fs) job_id (count_membership db job.file_store_id)
          else preDB db job_id fs) job.progress 0
      have hchain : (fetch_job db2 job_id).map Job.total =
          (fetch_job (if job.total = 0
            then set_total (preDB db job_id fs) job_id (count_membership db job.file_store_id)
            else preDB db job_id fs) job_id).map Job.total := by
        rw [← hdb2, afterLoop_total]
        exact hframe.2.2.2.1 job_id
      constructor
      · intro htnz
        rw [hchain, if_neg htnz, fetch_job_preDB, if_pos rfl, hfind]
        rfl
      · intro htz _ _
        rw [hchain, if_pos htz, fetch_job_set_total, if_pos rfl, fetch_job_preDB,
          if_pos rfl, hfind]
        rfl

/-- C10: while `progress < total`, an empty batch fetch (membership count at
or below the current progress) makes every invocation exit the loop and
persist `running` with unchanged progress — the job never fails, never
succeeds, and stays at the same progress under arbitrarily repeated
invocations. -/
theorem C10_empty_fetch_stalls (env : Env) (db : DB) (job_id time_budget_s batch_size : Nat)
    (job : Job) (fs : FileStore)
    (hfind : fetch_job db job_id = some job)
    (hnt : ¬(job.status = Status.succeeded ∨ job.status = Status.failed))
    (hstore : fetch_file_store db job.file_store_id = some fs)
    (hcnt : count_membership db job.file_store_id ≤ job.progress)
    (hlt : job.progress < job.total) :
    (∀ wait, fetch_job (runStep env job_id time_budget_s batch_size wait db) job_id =
      some { job with status := Status.running }) ∧
    (∀ waits, (fetch_job (runSeq env job_id time_budget_s batch_size waits db) job_id).map
      (fun j => (isTerminal j.status, j.progress)) = some (false, job.progress)) := by
  constructor
  · intro wait
    exact (runStep_stall env db job_id time_budget_s batch_size wait job fs
      hfind hnt hstore hcnt hlt).1
  · intro waits
    induction waits generalizing db job with
    | nil =>
      have hterm := status_not_terminal job.status hnt
      simp [runSeq, hfind, hterm]
    | cons w ws ih =>
      have hstep := runStep_stall env db job_id time_budget_s batch_size w job fs
        hfind hnt hstore hcnt hlt
      have hrs : runSeq env job_id time_budget_s batch_size (w :: ws) db =
          runSeq env job_id time_budget_s batch_size ws
            (runStep env job_id time_budget_s batch_size w db) := rfl
      rw [hrs]
      have := ih (runStep env job_id time_budget_s batch_size w db)
        { job with status := Status.running } hstep.1
        (by simp) (by unfold fetch_file_store; rw [hstep.2.2]; exact hstore)
        (by unfold count_membership; rw [hstep.2.1]; exact hcnt) hlt
      simpa using this

/-- C9 (counterexample): the claim says a placeholder with no context entry
renders as the empty string; the code leaves it verbatim: rendering the
lone undefined placeholder with an empty context returns the placeholder
text itself, which is not the empty string. -/
theorem C9_counterexample :
    render_prompt (braced "name") [] = braced "name" ∧ braced "name" ≠ "" :=
  ⟨rfl, by decide⟩

/-! ### Lemmas and claim for C4: deterministic processing order -/

theorem sortRows_perm (rows : List MemRow) : List.Perm (sortRows rows) rows :=
  List.perm_insertionSort rle rows

theorem sortRows_sorted (rows : List MemRow) : List.Sorted rle (sortRows rows) :=
  List.sorted_insertionSort rle rows

theorem rle_antisymm_doc (a b : MemRow) (h1 : rle a b) (h2 : rle b a) :
    a.document_id = b.document_id := by
  unfold rle at h1 h2
  omega

/-- Two sorted lists over the same multiset of rows with pairwise-distinct
document ids are equal: the `ORDER BY` result is determined by the
membership set.  (Distinct document ids within one store's rows follow
from the `(file_store_id, document_id)` primary key.) -/
theorem sorted_nodup_eq (l₁ l₂ : List MemRow) (hperm : List.Perm l₁ l₂)
    (hnd : l₁.Pairwise (fun a b => a.document_id ≠ b.document_id))
    (hs₁ : List.Sorted rle l₁) (hs₂ : List.Sorted rle l₂) : l₁ = l₂ := by
  haveI : IsAntisymm MemRow (fun a b => rle a b ∧ a.document_id ≠ b.document_id) := ⟨by
    intro a b hab hba
    exact absurd (rle_antisymm_doc a b hab.1 hba.1) hab.2⟩
  have hnd₂ : l₂.Pairwise (fun a b => a.document_id ≠ b.document_id) :=
    (hperm.pairwise_iff (fun h => h.symm)).mp hnd
  exact List.eq_of_perm_of_sorted hperm
    (List.pairwise_and_iff.mpr ⟨hs₁, hnd⟩) (List.pairwise_and_iff.mpr ⟨hs₂, hnd₂⟩)

theorem sortRows_eq_of_perm (l₁ l₂ : List MemRow) (hperm : List.Perm l₁ l₂)
    (hnd : l₁.Pairwise (fun a b => a.document_id ≠ b.document_id)) :
    sortRows l₁ = sortRows l₂ := by
  apply sorted_nodup_eq _ _ ((sortRows_perm l₁).trans (hperm.trans (sortRows_perm l₂).symm))
  · exact ((sortRows_perm l₁).pairwise_iff (fun h => h.symm)).mpr hnd
  · exact sortRows_sorted l₁
  · exact sortRows_sorted l₂

/-- C4: every batch fetch is the `OFFSET`/`LIMIT` window of the job's full
document order; that order is sorted by `(added_at, document_id)`; and for
a fixed membership set (any permutation of the same rows, with document
ids distinct within the store as the primary key guarantees) the order —
hence every window, in particular the one starting at the current
`progress` — is identical across invocations. -/
theorem C4_deterministic_order (db db2 : DB) (job_id offset limit : Nat) (job job2 : Job)
    (hfind : fetch_job db job_id = some job)
    (hfind2 : fetch_job db2 job_id = some job2)
    (hfs : job2.file_store_id = job.file_store_id)
    (hnd : (db.memberships.filter (fun r => r.file_store_id == job.file_store_id)).Pairwise
      (fun a b => a.document_id ≠ b.document_id))
    (hperm : List.Perm (db.memberships.filter (fun r => r.file_store_id == job.file_store_id))
      (db2.memberships.filter (fun r => r.file_store_id == job2.file_store_id))) :
    fetch_documents_for_job db job_id offset limit =
      ((jobDocOrder db job_id).drop offset).take limit ∧
    List.Sorted rle (sortRows (db.memberships.filter
      (fun r => r.file_store_id == job.file_store_id))) ∧
    jobDocOrder db2 job_id = jobDocOrder db job_id ∧
    fetch_documents_for_job db2 job_id offset limit =
      fetch_documents_for_job db job_id offset limit := by
  have horder : jobDocOrder db2 job_id = jobDocOrder db job_id := by
    unfold jobDocOrder
    simp only [hfind, hfind2]
    rw [hfs] at hperm ⊢
    rw [← sortRows_eq_of_perm _ _ hperm hnd]
  refine ⟨fetch_documents_eq_window db job_id offset limit, sortRows_sorted _, horder, ?_⟩
  rw [fetch_documents_eq_window, fetch_documents_eq_window, horder]

theorem C4_witness :
    fetch_job dbTwoDocs 0 = some jobFresh ∧
    fetch_job dbTwoDocsPerm 0 = some jobFresh ∧
    (dbTwoDocs.memberships.filter
      (fun r => r.file_store_id == jobFresh.file_store_id)).Pairwise
      (fun a b => a.document_id ≠ b.document_id) ∧
    List.Perm (dbTwoDocs.memberships.filter (fun r => r.file_store_id == jobFresh.file_store_id))
      (dbTwoDocsPerm.memberships.filter (fun r => r.file_store_id == jobFresh.file_store_id)) ∧
    (fetch_documents_for_job dbTwoDocs 0 1 4 =
        ((jobDocOrder dbTwoDocs 0).drop 1).take 4 ∧
      List.Sorted rle (sortRows (dbTwoDocs.memberships.filter
        (fun r => r.file_store_id == jobFresh.file_store_id))) ∧
      jobDocOrder dbTwoDocsPerm 0 = jobDocOrder dbTwoDocs 0 ∧
      fetch_documents_for_job dbTwoDocsPerm 0 1 4 =
        fetch_documents_for_job dbTwoDocs 0 1 4) :=
  ⟨rfl, rfl, by decide, by decide,
    C4_deterministic_order dbTwoDocs dbTwoDocsPerm 0 1 4 jobFresh jobFresh
      rfl rfl rfl (by decide) (by decide)⟩

theorem C7_witness :
    fetch_job dbTwoDocs 0 = some jobFresh ∧
    run_ingestion_job envAllOk dbTwoDocs 0 20 5 = .ok (db7out, j7out) ∧
    ((jobFresh.total ≠ 0 → (fetch_job db7out 0).map Job.total = some jobFresh.total) ∧
     (jobFresh.total = 0 →
      ¬(jobFresh.status = Status.succeeded ∨ jobFresh.status = Status.failed) →
      (fetch_file_store dbTwoDocs jobFresh.file_store_id).isSome = true →
      (fetch_job db7out 0).map Job.total =
        some (count_membership dbTwoDocs jobFresh.file_store_id))) :=
  ⟨rfl, rfl,
    C7_lazy_total envAllOk dbTwoDocs 0 20 5 jobFresh db7out j7out rfl rfl⟩

theorem C10_witness :
    fetch_job dbStalled 0 = some jobW10 ∧
    fetch_file_store dbStalled jobW10.file_store_id = some fsW ∧
    ¬(jobW10.status = Status.succeeded ∨ jobW10.status = Status.failed) ∧
    count_membership dbStalled jobW10.file_store_id ≤ jobW10.progress ∧
    jobW10.progress < jobW10.total ∧
    ((∀ wait, fetch_job (runStep envAllOk 0 20 5 wait dbStalled) 0 =
        some { jobW10 with status := Status.running }) ∧
     (∀ waits, (fetch_job (runSeq envAllOk 0 20 5 waits dbStalled) 0).map
        (fun j => (isTerminal j.status, j.progress)) = some (false, jobW10.progress))) :=
  ⟨rfl, rfl, by decide, by decide, by decide,
    C10_empty_fetch_stalls envAllOk dbStalled 0 20 5 jobW10 fsW rfl (by decide) rfl
      (by decide) (by decide)⟩

/-! ### Lemmas and claim for C8: operation polling -/

theorem pollLoop_timeout (respAt : Nat → Except String OpResult) (deadline p : Nat) :
    ∀ (fuel clock : Nat),
      (∀ i, clock + i * p < deadline →
        ∃ r, respAt (clock + i * p) = .ok r ∧ r.done = false) →
      pollLoop respAt deadline p clock fuel = .error pollTimeoutMsg
  | 0, clock, _ => rfl
  | fuel + 1, clock, h => by
    rw [pollLoop]
    split
    · rename_i hlt
      obtain ⟨r, hr, hd⟩ := h 0 (by simpa using hlt)
      have hr0 : respAt clock = .ok r := by simpa using hr
      simp only [hr0]
      rw [if_neg (by simp [hd])]
      refine pollLoop_timeout respAt deadline p fuel (clock + p) (fun i hi => ?_)
      have hs : clock + p + i * p = clock + (i + 1) * p := by
        rw [Nat.succ_mul]
        omega
      rw [hs]
      exact h (i + 1) (by rw [← hs]; exact hi)
    · rfl

theorem pollLoop_done (respAt : Nat → Except String OpResult) (deadline p : Nat)
    (res : OpResult) :
    ∀ (i fuel clock : Nat), i < fuel →
      (∀ j, j < i → ∃ r, respAt (clock + j * p) = .ok r ∧ r.done = false) →
      respAt (clock + i * p) = .ok res → res.done = true →
      clock + i * p < deadline →
      pollLoop respAt deadline p clock fuel = .ok res := by
  intro i
  induction i with
  | zero =>
    intro fuel clock hfuel hj hr hdone hlt
    cases fuel with
    | zero => omega
    | succ f =>
      rw [pollLoop, if_pos (by simpa using hlt)]
      have hr0 : respAt clock = .ok res := by simpa using hr
      simp only [hr0]
      rw [if_pos hdone]
  | succ i ih =>
    intro fuel clock hfuel hj hr hdone hlt
    cases fuel with
    | zero => omega
    | succ f =>
      have hle : clock ≤ clock + (i + 1) * p := Nat.le_add_right _ _
      rw [pollLoop, if_pos (lt_of_le_of_lt hle hlt)]
      obtain ⟨r, hr0, hd0⟩ := hj 0 (by omega)
      have hr0c : respAt clock = .ok r := by simpa using hr0
      simp only [hr0c]
      rw [if_neg (by simp [hd0])]
      have hs : ∀ j : Nat, clock + p + j * p = clock + (j + 1) * p := fun j => by
        rw [Nat.succ_mul]
        omega
      refine ih f (clock + p) (by omega) (fun j hji => ?_) ?_ hdone ?_
      · rw [hs j]
        exact hj (j + 1) (by omega)
      · rw [hs i]
        exact hr
      · rw [hs i]
        exact hlt

/-- C8: `poll_operation` issues a status request every `poll_every_s`
seconds (at `clock + i * poll_every_s`); if every in-budget poll reports
not-done, the `max_wait` elapses and it raises the timeout error; the
first `done` response inside the budget is returned to the caller as-is,
even when it carries an `error` field; and it is the job engine that then
raises that operation error as job-fatal, failing the job with it. -/
theorem C8_poll_operation (respAt : Nat → Except String OpResult)
    (clock max_wait_s poll_every_s : Nat) (hp : 0 < poll_every_s) :
    ((∀ i, clock + i * poll_every_s < clock + max_wait_s →
        ∃ r, respAt (clock + i * poll_every_s) = .ok r ∧ r.done = false) →
      poll_operation respAt clock max_wait_s poll_every_s = .error pollTimeoutMsg) ∧
    (∀ i res,
      (∀ j, j < i → ∃ r, respAt (clock + j * poll_every_s) = .ok r ∧ r.done = false) →
      respAt (clock + i * poll_every_s) = .ok res → res.done = true →
      i * poll_every_s < max_wait_s →
      poll_operation respAt clock max_wait_s poll_every_s = .ok res) ∧
    (∀ (env : Env) (db : DB) (job_id deadline d p pr : Nat) (op : OpResult)
      (e fn opn : String),
      env.download d = .ok () → env.upload d = .ok fn → env.opImport d = .ok opn →
      env.poll d = .ok op → op.error = some e → db.clock < deadline →
      ∃ db2, processBatch env job_id deadline [d] db p pr = .aborted db2 ∧
        fetch_job db2 job_id =
          (fetch_job db job_id).map (fun x => applyWrite x Status.failed (some e) none)) := by
  refine ⟨?_, ?_, ?_⟩
  · intro h
    exact pollLoop_timeout respAt (clock + max_wait_s) poll_every_s (max_wait_s + 1) clock h
  · intro i res hj hr hdone hbudget
    have hi : i < max_wait_s + 1 := by
      have : i * 1 ≤ i * poll_every_s := Nat.mul_le_mul_left i hp
      omega
    exact pollLoop_done respAt (clock + max_wait_s) poll_every_s res i (max_wait_s + 1)
      clock hi hj hr hdone (by omega)
  · intro env db job_id deadline d p pr op e fn opn hdl hup him hpo hoe hclock
    have hdr : docResult env d = some e := by
      unfold docResult
      simp only [hdl, hup, him, hpo, hoe]
    rw [processBatch, if_neg (by omega : ¬ deadline ≤ db.clock), tryProcessDoc_eq, hdr]
    refine ⟨_, rfl, ?_⟩
    rw [fetch_job_log_event, fetch_job_set_job_status, if_pos rfl, fetch_job_log_event,
      fetch_job_appendEv]

theorem C8_witness :
    0 < 3 ∧
    (((∀ i, 50 + i * 3 < 50 + 9 →
        ∃ r, respW (50 + i * 3) = .ok r ∧ r.done = false) →
      poll_operation respW 50 9 3 = .error pollTimeoutMsg) ∧
    (∀ i res,
      (∀ j, j < i → ∃ r, respW (50 + j * 3) = .ok r ∧ r.done = false) →
      respW (50 + i * 3) = .ok res → res.done = true →
      i * 3 < 9 →
      poll_operation respW 50 9 3 = .ok res) ∧
    (∀ (env : Env) (db : DB) (job_id deadline d p pr : Nat) (op : OpResult)
      (e fn opn : String),
      env.download d = .ok () → env.upload d = .ok fn → env.opImport d = .ok opn →
      env.poll d = .ok op → op.error = some e → db.clock < deadline →
      ∃ db2, processBatch env job_id deadline [d] db p pr = .aborted db2 ∧
        fetch_job db2 job_id =
          (fetch_job db job_id).map (fun x => applyWrite x Status.failed (some e) none))) :=
  ⟨by decide, C8_poll_operation respW 50 9 3 (by decide)⟩

/-! ### The bridge: the loops equal their pure mirrors -/

theorem applyTrace_append (jobs : List (Nat × Job)) (l1 l2 : List Entry) :
    applyTrace jobs (l1 ++ l2) = applyTrace (applyTrace jobs l1) l2 :=
  List.foldl_append _ _ _ _

theorem applyTrace_evs (jobs : List (Nat × Job)) (j c : Nat) (evs : List Event) :
    applyTrace jobs (evs.map (Entry.ev j c)) = jobs := by
  induction evs with
  | nil => rfl
  | cons e evs ih => simpa [applyTrace, applyWr] using ih

theorem rowApply_nil (k : Nat) (x : Job) : rowApply k [] x = x := rfl

theorem rowApply_append (k : Nat) (l1 l2 : List Entry) (x : Job) :
    rowApply k (l1 ++ l2) x = rowApply k l2 (rowApply k l1 x) :=
  List.foldl_append _ _ _ _

theorem applyTrace_cons (jobs : List (Nat × Job)) (e : Entry) (tr : List Entry) :
    applyTrace jobs (e :: tr) = applyTrace (applyWr jobs e) tr := rfl

theorem applyTrace_nil (jobs : List (Nat × Job)) : applyTrace jobs [] = jobs := rfl

theorem find_applyTrace (k : Nat) : ∀ (tr : List Entry) (jobs : List (Nat × Job)),
    ((applyTrace jobs tr).find? (fun p => p.1 == k)).map Prod.snd =
      ((jobs.find? (fun p => p.1 == k)).map Prod.snd).map (rowApply k tr)
  | [], jobs => by
    cases h : (jobs.find? (fun p => p.1 == k)).map Prod.snd <;> simp [applyTrace, rowApply, h]
  | e :: tr, jobs => by
    rw [applyTrace_cons, find_applyTrace k tr (applyWr jobs e)]
    cases e with
    | ev j ts ev =>
      have h1 : applyWr jobs (Entry.ev j ts ev) = jobs := rfl
      rw [h1]
      cases h : (jobs.find? (fun p => p.1 == k)).map Prod.snd <;> simp [rowApply, h]
    | wr j ts w =>
      have h1 : applyWr jobs (Entry.wr j ts w) = jobs.map (fun q =>
          if q.1 == j then (q.1, applyWrite q.2 w.status w.error w.progress) else q) := rfl
      rw [h1, find_update jobs j k (fun x => applyWrite x w.status w.error w.progress)]
      by_cases hk : k = j
      · subst hk
        cases h : (jobs.find? (fun p => p.1 == k)).map Prod.snd with
        | none => simp [h]
        | some x =>
          have hstep : rowApply k (Entry.wr k ts w :: tr) x =
              rowApply k tr (applyWrite x w.status w.error w.progress) := by
            unfold rowApply
            rw [List.foldl_cons]
            congr 1
            simp
          simp [h, hstep]
      · cases h : (jobs.find? (fun p => p.1 == k)).map Prod.snd with
        | none => simp [hk, h]
        | some x =>
          have hjk : ¬ j = k := fun hh => hk hh.symm
          have hstep : rowApply k (Entry.wr j ts w :: tr) x = rowApply k tr x := by
            unfold rowApply
            rw [List.foldl_cons]
            congr 1
            simp [hjk]
          simp [hk, h, hstep]

theorem fetch_job_mkDB (db : DB) (tr : List Entry) (c k : Nat) :
    fetch_job (mkDB db tr c) k = (fetch_job db k).map (rowApply k tr) := by
  unfold mkDB fetch_job
  exact find_applyTrace k tr db.jobs

theorem mkDB_nil (db : DB) : mkDB db [] db.clock = db := by
  simp [mkDB, applyTrace]

theorem processBatch_eq_sim (env : Env) (job_id deadline : Nat) :
    ∀ (docs : List Nat) (db : DB) (p pr : Nat),
      processBatch env job_id deadline docs db p pr =
        (match (batchSim env job_id deadline docs db.clock p pr).err with
        | some _ => BatchResult.aborted
            (mkDB db (batchSim env job_id deadline docs db.clock p pr).tr
              (batchSim env job_id deadline docs db.clock p pr).clock)
        | none => BatchResult.ran
            (mkDB db (batchSim env job_id deadline docs db.clock p pr).tr
              (batchSim env job_id deadline docs db.clock p pr).clock)
            (batchSim env job_id deadline docs db.clock p pr).progress
            (batchSim env job_id deadline docs db.clock p pr).processed
            (batchSim env job_id deadline docs db.clock p pr).broke)
  | [], db, p, pr => by
    simp only [processBatch, batchSim]
    rw [mkDB_nil]
  | d :: rest, db, p, pr => by
    rw [processBatch, batchSim]
    by_cases hdl : deadline ≤ db.clock
    · rw [if_pos hdl, if_pos hdl]
      simp only [mkDB_nil]
    · rw [if_neg hdl, if_neg hdl, tryProcessDoc_eq]
      cases hdr : docResult env d with
      | some e =>
        simp only [hdr]
        congr 1
        simp only [mkDB, log_event, set_job_status, appendEv, applyTrace_append,
          applyTrace_evs, applyTrace_cons]
        simp [applyTrace, applyWr, List.append_assoc]
      | none =>
        simp only [hdr]
        have hdb3 : ({ set_job_status (appendEv db job_id (docEvents env d)) job_id
            Status.running none (some (p + 1)) with
              clock := (set_job_status (appendEv db job_id (docEvents env d)) job_id
                Status.running none (some (p + 1))).clock + env.dur d } : DB) =
            mkDB db ((docEvents env d).map (Entry.ev job_id db.clock) ++
              [Entry.wr job_id db.clock ⟨Status.running, none, some (p + 1)⟩])
              (db.clock + env.dur d) := by
          simp only [mkDB, set_job_status, appendEv, applyTrace_append, applyTrace_evs,
            applyTrace_cons]
          simp [applyTrace, applyWr, List.append_assoc]
        rw [hdb3, processBatch_eq_sim env job_id deadline rest _ (p + 1) (pr + 1)]
        have hclock : (mkDB db ((docEvents env d).map (Entry.ev job_id db.clock) ++
            [Entry.wr job_id db.clock ⟨Status.running, none, some (p + 1)⟩])
            (db.clock + env.dur d)).clock = db.clock + env.dur d := rfl
        rw [hclock]
        cases ho2 : (batchSim env job_id deadline rest (db.clock + env.dur d)
            (p + 1) (pr + 1)).err with
        | some e2 =>
          simp only [ho2]
          congr 1
          simp only [mkDB, set_job_status, appendEv, applyTrace_append, applyTrace_evs,
            applyTrace_cons, applyTrace_nil]
          simp [applyWr, List.append_assoc]
        | none =>
          simp only [ho2]
          congr 1
          simp only [mkDB, set_job_status, appendEv, applyTrace_append, applyTrace_evs,
            applyTrace_cons, applyTrace_nil]
          simp [applyWr, List.append_assoc]

theorem mkDB_mkDB (db : DB) (tr1 : List Entry) (c1 : Nat) (tr2 : List Entry) (c2 : Nat) :
    mkDB (mkDB db tr1 c1) tr2 c2 = mkDB db (tr1 ++ tr2) c2 := by
  simp [mkDB, applyTrace_append, List.append_assoc]

theorem rowApply_cons (k : Nat) (e : Entry) (tr : List Entry) (x : Job) :
    rowApply k (e :: tr) x = rowApply k tr
      (match e with
      | .wr j _ w => if j == k then applyWrite x w.status w.error w.progress else x
      | .ev _ _ _ => x) := rfl

theorem rowApply_file_store_id (k : Nat) : ∀ (tr : List Entry) (x : Job),
    (rowApply k tr x).file_store_id = x.file_store_id
  | [], _ => rfl
  | e :: tr, x => by
    rw [rowApply_cons, rowApply_file_store_id k tr]
    cases e with
    | ev => rfl
    | wr j ts w =>
      by_cases hj : j = k
      · simp [hj, applyWrite]
      · simp [hj]

theorem rowApply_total (k : Nat) : ∀ (tr : List Entry) (x : Job),
    (rowApply k tr x).total = x.total
  | [], _ => rfl
  | e :: tr, x => by
    rw [rowApply_cons, rowApply_total k tr]
    cases e with
    | ev => rfl
    | wr j ts w =>
      by_cases hj : j = k
      · simp [hj, applyWrite]
      · simp [hj]

/-- With the job row present and its store fixed, the batch fetch is the
`OFFSET`/`LIMIT` window of the fixed document order. -/
theorem fetch_documents_congr (db : DB) (job_id : Nat) (j : Job) (fsid : Nat)
    (M : List MemRow) (order : List Nat) (offset limit : Nat)
    (hfind : fetch_job db job_id = some j) (hfs : j.file_store_id = fsid)
    (hmem : db.memberships = M)
    (horder : order = (sortRows (M.filter (fun r => r.file_store_id == fsid))).map
      (fun r => r.document_id)) :
    fetch_documents_for_job db job_id offset limit = (order.drop offset).take limit := by
  unfold fetch_documents_for_job
  simp only [hfind]
  rw [hmem, hfs, horder, List.map_take, List.map_drop]

theorem runLoop_eq_sim (env : Env) (job_id batch_size total deadline fsid : Nat)
    (M : List MemRow) (order : List Nat)
    (horder : order = (sortRows (M.filter (fun r => r.file_store_id == fsid))).map
      (fun r => r.document_id)) :
    ∀ (fuel : Nat) (db : DB) (p pr : Nat) (j : Job),
      fetch_job db job_id = some j → j.file_store_id = fsid → db.memberships = M →
      runLoop env job_id batch_size total deadline fuel db p pr =
        (match (loopSim env job_id batch_size total deadline order fuel db.clock p pr).err with
        | some _ => LoopResult.aborted
            (mkDB db (loopSim env job_id batch_size total deadline order fuel db.clock p pr).tr
              (loopSim env job_id batch_size total deadline order fuel db.clock p pr).clock)
        | none => LoopResult.finished
            (mkDB db (loopSim env job_id batch_size total deadline order fuel db.clock p pr).tr
              (loopSim env job_id batch_size total deadline order fuel db.clock p pr).clock)
            (loopSim env job_id batch_size total deadline order fuel db.clock p pr).progress
            (loopSim env job_id batch_size total deadline order fuel db.clock p pr).processed)
  | 0, db, p, pr, j => by
    intro _ _ _
    simp only [runLoop, loopSim]
    rw [mkDB_nil]
  | fuel + 1, db, p, pr, j => by
    intro hfind hfs hmem
    rw [runLoop, loopSim]
    by_cases hc : db.clock < deadline ∧ p < total
    · rw [if_pos hc, if_pos hc]
      rw [fetch_documents_congr db job_id j fsid M order p
        (min batch_size (total - p)) hfind hfs hmem horder]
      cases hdocs : (order.drop p).take (min batch_size (total - p)) with
      | nil =>
        dsimp only
        rw [mkDB_nil]
      | cons d rest =>
        dsimp only
        rw [processBatch_eq_sim env job_id deadline (d :: rest) db p pr]
        cases ho : (batchSim env job_id deadline (d :: rest) db.clock p pr).err with
        | some e => simp only [ho]
        | none =>
          simp only [ho]
          cases hbroke : (batchSim env job_id deadline (d :: rest) db.clock p pr).broke with
          | true =>
            rw [if_pos rfl]
            simp only [ho]
          | false =>
            rw [if_neg Bool.false_ne_true]
            dsimp only
            have hfind1 : fetch_job (mkDB db
                (batchSim env job_id deadline (d :: rest) db.clock p pr).tr
                (batchSim env job_id deadline (d :: rest) db.clock p pr).clock) job_id =
                some (rowApply job_id
                  (batchSim env job_id deadline (d :: rest) db.clock p pr).tr j) := by
              rw [fetch_job_mkDB, hfind]
              rfl
            have hfs1 : (rowApply job_id
                (batchSim env job_id deadline (d :: rest) db.clock p pr).tr j).file_store_id
                = fsid := by
              rw [rowApply_file_store_id]
              exact hfs
            have hclk : (mkDB db (batchSim env job_id deadline (d :: rest) db.clock p pr).tr
                (batchSim env job_id deadline (d :: rest) db.clock p pr).clock).clock =
                (batchSim env job_id deadline (d :: rest) db.clock p pr).clock := rfl
            rw [runLoop_eq_sim env job_id batch_size total deadline fsid M order horder
              fuel _ (batchSim env job_id deadline (d :: rest) db.clock p pr).progress
              (batchSim env job_id deadline (d :: rest) db.clock p pr).processed
              (rowApply job_id (batchSim env job_id deadline (d :: rest) db.clock p pr).tr j)
              hfind1 hfs1 hmem]
            rw [hclk]
            cases ho2 : (loopSim env job_id batch_size total deadline order fuel
                (batchSim env job_id deadline (d :: rest) db.clock p pr).clock
                (batchSim env job_id deadline (d :: rest) db.clock p pr).progress
                (batchSim env job_id deadline (d :: rest) db.clock p pr).processed).err with
            | some e2 =>
              simp only [ho2, mkDB_mkDB]
            | none =>
              simp only [ho2, mkDB_mkDB]
    · rw [if_neg hc, if_neg hc, mkDB_nil]

/-! ### Facts about one document's event block -/

theorem docEvents_msgs (env : Env) (d : Nat) :
    ∀ ev ∈ docEvents env d, ev.message = "downloading_from_storage" ∨
      ev.message = "uploading_to_gemini_files_api" ∨
      ev.message = "importing_into_file_search_store" ∨
      ev.message = "polling_operation" ∨ ev.message = "indexed_ok" := by
  unfold docEvents
  cases env.download d with
  | error e =>
    intro ev hev
    simp at hev
    subst hev
    simp
  | ok u =>
    cases env.upload d with
    | error e =>
      intro ev hev
      simp at hev
      rcases hev with rfl | rfl <;> simp
    | ok fn =>
      cases env.opImport d with
      | error e =>
        intro ev hev
        simp at hev
        rcases hev with rfl | rfl | rfl <;> simp
      | ok opn =>
        cases env.poll d with
        | error e =>
          intro ev hev
          simp at hev
          rcases hev with rfl | rfl | rfl | rfl <;> simp
        | ok op =>
          rcases hoe : op.error with _ | e
          · simp only [hoe]
            intro ev hev
            simp at hev
            rcases hev with rfl | rfl | rfl | rfl | rfl <;> simp
          · simp only [hoe]
            intro ev hev
            simp at hev
            rcases hev with rfl | rfl | rfl | rfl <;> simp

theorem docEvents_lookup (env : Env) (d : Nat) :
    ∀ ev ∈ docEvents env d, ev.data.lookup "document_id" = some (JVal.n d) := by
  unfold docEvents
  cases env.download d with
  | error e =>
    intro ev hev
    simp at hev
    subst hev
    rfl
  | ok u =>
    cases env.upload d with
    | error e =>
      intro ev hev
      simp at hev
      rcases hev with rfl | rfl <;> rfl
    | ok fn =>
      cases env.opImport d with
      | error e =>
        intro ev hev
        simp at hev
        rcases hev with rfl | rfl | rfl <;> rfl
      | ok opn =>
        cases env.poll d with
        | error e =>
          intro ev hev
          simp at hev
          rcases hev with rfl | rfl | rfl | rfl <;> rfl
        | ok op =>
          rcases hoe : op.error with _ | e
          · simp only [hoe]
            intro ev hev
            simp at hev
            rcases hev with rfl | rfl | rfl | rfl | rfl <;> rfl
          · simp only [hoe]
            intro ev hev
            simp at hev
            rcases hev with rfl | rfl | rfl | rfl <;> rfl

theorem docEvents_fail_no_ok (env : Env) (d : Nat) (e : String)
    (hres : docResult env d = some e) :
    ∀ ev ∈ docEvents env d, ev.message ≠ "indexed_ok" := by
  unfold docResult at hres
  unfold docEvents
  revert hres
  cases env.download d with
  | error e2 =>
    intro _ ev hev
    simp at hev
    subst hev
    simp
  | ok u =>
    cases env.upload d with
    | error e2 =>
      intro _ ev hev
      simp at hev
      rcases hev with rfl | rfl <;> simp
    | ok fn =>
      cases env.opImport d with
      | error e2 =>
        intro _ ev hev
        simp at hev
        rcases hev with rfl | rfl | rfl <;> simp
      | ok opn =>
        cases env.poll d with
        | error e2 =>
          intro _ ev hev
          simp at hev
          rcases hev with rfl | rfl | rfl | rfl <;> simp
        | ok op =>
          rcases hoe : op.error with _ | e2
          · simp only [hoe]
            intro h
            simp at h
          · simp only [hoe]
            intro _ ev hev
            simp at hev
            rcases hev with rfl | rfl | rfl | rfl <;> simp

theorem docEvents_ok_shape (env : Env) (d : Nat) (hres : docResult env d = none) :
    ∃ pre fn, docEvents env d =
      pre ++ [⟨"info", "indexed_ok", docData d ++ [("file_name", JVal.s fn)]⟩] ∧
      ∀ ev ∈ pre, ev.message ≠ "indexed_ok" := by
  unfold docResult at hres
  unfold docEvents
  revert hres
  cases env.download d with
  | error e2 => intro h; simp at h
  | ok u =>
    cases env.upload d with
    | error e2 => intro h; simp at h
    | ok fn =>
      cases env.opImport d with
      | error e2 => intro h; simp at h
      | ok opn =>
        cases env.poll d with
        | error e2 => intro h; simp at h
        | ok op =>
          rcases hoe : op.error with _ | e2
          · simp only [hoe]
            intro _
            refine ⟨[⟨"info", "downloading_from_storage", docData d⟩,
              ⟨"info", "uploading_to_gemini_files_api", docData d⟩,
              ⟨"info", "importing_into_file_search_store", docData d⟩,
              ⟨"info", "polling_operation", docData d ++ [("operation", JVal.s opn)]⟩],
              fn, rfl, ?_⟩
            intro ev hev
            simp at hev
            rcases hev with rfl | rfl | rfl | rfl <;> simp
          · simp only [hoe]
            intro h
            simp at h

/-! ### Trace-segment helpers -/

theorem progValues_append (a b : List Entry) :
    progValues (a ++ b) = progValues a ++ progValues b :=
  List.filterMap_append a b wrProg

theorem wrStatuses_append (a b : List Entry) :
    wrStatuses (a ++ b) = wrStatuses a ++ wrStatuses b :=
  List.filterMap_append a b wrStat

theorem progValues_evs (j c : Nat) (evs : List Event) :
    progValues (evs.map (Entry.ev j c)) = [] := by
  induction evs with
  | nil => rfl
  | cons e evs ih => simpa [progValues, wrProg] using ih

theorem wrStatuses_evs (j c : Nat) (evs : List Event) :
    wrStatuses (evs.map (Entry.ev j c)) = [] := by
  induction evs with
  | nil => rfl
  | cons e evs ih => simpa [wrStatuses, wrStat] using ih

theorem rowApply_evs (k j c : Nat) (evs : List Event) (x : Job) :
    rowApply k (evs.map (Entry.ev j c)) x = x := by
  induction evs with
  | nil => rfl
  | cons e evs ih => simpa [rowApply_cons] using ih

theorem parseOk_skip (j : Nat) :
    ∀ (tr1 : List Entry), (∀ ent ∈ tr1, isOkEv ent = false) →
      ∀ (p : Nat) (tr2 : List Entry), parseOk j p (tr1 ++ tr2) = parseOk j p tr2
  | [], _, p, tr2 => rfl
  | x :: rest, h, p, tr2 => by
    have hx : isOkEv x = false := h x (List.mem_cons_self x rest)
    rw [List.cons_append, parseOk.eq_def]
    simp only [hx, Bool.false_eq_true, if_false]
    exact parseOk_skip j rest (fun ent hent => h ent (List.mem_cons_of_mem x hent)) p tr2

theorem parseOk_no_ok (j : Nat) (tr : List Entry)
    (h : ∀ ent ∈ tr, isOkEv ent = false) (p : Nat) : parseOk j p tr = some p := by
  have := parseOk_skip j tr h p []
  simpa using this

theorem parseOk_append (j : Nat) :
    ∀ (tr1 : List Entry) (p q : Nat) (tr2 : List Entry),
      parseOk j p tr1 = some q → parseOk j p (tr1 ++ tr2) = parseOk j q tr2
  | [], p, q, tr2 => by
    intro h
    simp [parseOk] at h
    subst h
    rfl
  | x :: rest, p, q, tr2 => by
    intro h
    rw [parseOk.eq_def] at h
    rw [List.cons_append, parseOk.eq_def]
    by_cases hok : isOkEv x = true
    · simp only [hok, if_true] at h ⊢
      cases rest with
      | nil => simp at h
      | cons y rest2 =>
        rw [List.cons_append]
        dsimp only at h ⊢
        by_cases hrw : isRunWrite j (p + 1) y = true
        · simp only [hrw, if_true] at h ⊢
          exact parseOk_append j rest2 (p + 1) q tr2 h
        · rw [if_neg hrw] at h
          exact Option.noConfusion h
    · simp only [hok, Bool.false_eq_true, if_false] at h ⊢
      exact parseOk_append j rest p q tr2 h

/-! ### Properties of the pure batch mirror -/

theorem batchSim_ts (env : Env) (job_id deadline : Nat) :
    ∀ (docs : List Nat) (c p pr : Nat),
      ∀ ent ∈ (batchSim env job_id deadline docs c p pr).tr, entryTs ent < deadline
  | [], c, p, pr => by simp [batchSim]
  | d :: rest, c, p, pr => by
    rw [batchSim]
    by_cases hdl : deadline ≤ c
    · rw [if_pos hdl]
      simp
    · rw [if_neg hdl]
      cases hdr : docResult env d with
      | some e =>
        intro ent hent
        rcases List.mem_append.mp hent with hmem | hmem
        · rcases List.mem_map.mp hmem with ⟨ev, _, rfl⟩
          simp only [entryTs]
          omega
        · simp at hmem
          rcases hmem with rfl | rfl | rfl <;> (simp only [entryTs]; omega)
      | none =>
        intro ent hent
        rcases List.mem_append.mp hent with hmem | hmem
        · rcases List.mem_map.mp hmem with ⟨ev, _, rfl⟩
          simp only [entryTs]
          omega
        · rcases List.mem_cons.mp hmem with rfl | hmem
          · simp only [entryTs]
            omega
          · exact batchSim_ts env job_id deadline rest (c + env.dur d) (p + 1) (pr + 1)
              ent hmem

theorem batchSim_docIds (env : Env) (job_id deadline : Nat) :
    ∀ (docs : List Nat) (c p pr : Nat),
      ∀ ent ∈ (batchSim env job_id deadline docs c p pr).tr,
        ∀ dd, evDocId ent = some dd → dd ∈ docs
  | [], c, p, pr => by simp [batchSim]
  | d :: rest, c, p, pr => by
    rw [batchSim]
    by_cases hdl : deadline ≤ c
    · rw [if_pos hdl]
      simp
    · rw [if_neg hdl]
      have hmapped : ∀ ev ∈ docEvents env d, ∀ dd : Nat,
          evDocId (Entry.ev job_id c ev) = some dd → dd ∈ (d :: rest) := by
        intro ev hev dd hdd
        have hl := docEvents_lookup env d ev hev
        simp only [evDocId, hl] at hdd
        simp only [Option.some.injEq] at hdd
        subst hdd
        exact List.mem_cons_self d rest
      cases hdr : docResult env d with
      | some e =>
        intro ent hent
        rcases List.mem_append.mp hent with hmem | hmem
        · rcases List.mem_map.mp hmem with ⟨ev, hev, rfl⟩
          exact hmapped _ hev
        · simp at hmem
          rcases hmem with rfl | rfl | rfl
          · intro dd hdd
            have hl : List.lookup "document_id"
                (docData d ++ [("error", JVal.s e)]) = some (JVal.n d) := rfl
            simp only [evDocId, hl, Option.some.injEq] at hdd
            subst hdd
            exact List.mem_cons_self d rest
          · intro dd hdd
            simp [evDocId] at hdd
          · intro dd hdd
            have hl : List.lookup "document_id" [("error", JVal.s e)] = none := rfl
            simp only [evDocId, hl] at hdd
            exact Option.noConfusion hdd
      | none =>
        intro ent hent
        rcases List.mem_append.mp hent with hmem | hmem
        · rcases List.mem_map.mp hmem with ⟨ev, hev, rfl⟩
          exact hmapped _ hev
        · rcases List.mem_cons.mp hmem with rfl | hmem
          · intro dd hdd
            simp [evDocId] at hdd
          · intro dd hdd
            exact List.mem_cons_of_mem d
              (batchSim_docIds env job_id deadline rest (c + env.dur d) (p + 1) (pr + 1)
                ent hmem dd hdd)

theorem batchSim_msgs (env : Env) (job_id deadline : Nat) :
    ∀ (docs : List Nat) (c p pr : Nat),
      ∀ ent ∈ (batchSim env job_id deadline docs c p pr).tr,
        evMsg ent ≠ some "job_succeeded"
  | [], c, p, pr => by simp [batchSim]
  | d :: rest, c, p, pr => by
    rw [batchSim]
    by_cases hdl : deadline ≤ c
    · rw [if_pos hdl]
      simp
    · rw [if_neg hdl]
      have hmapped : ∀ ev ∈ docEvents env d,
          evMsg (Entry.ev job_id c ev) ≠ some "job_succeeded" := by
        intro ev hev
        have := docEvents_msgs env d ev hev
        simp only [evMsg]
        rcases this with h | h | h | h | h <;> simp [h]
      cases hdr : docResult env d with
      | some e =>
        intro ent hent
        rcases List.mem_append.mp hent with hmem | hmem
        · rcases List.mem_map.mp hmem with ⟨ev, hev, rfl⟩
          exact hmapped _ hev
        · simp at hmem
          rcases hmem with rfl | rfl | rfl <;> simp [evMsg]
      | none =>
        intro ent hent
        rcases List.mem_append.mp hent with hmem | hmem
        · rcases List.mem_map.mp hmem with ⟨ev, hev, rfl⟩
          exact hmapped _ hev
        · rcases List.mem_cons.mp hmem with rfl | hmem
          · simp [evMsg]
          · exact batchSim_msgs env job_id deadline rest (c + env.dur d) (p + 1) (pr + 1)
              ent hmem

theorem batchSim_prog_le (env : Env) (job_id deadline : Nat) :
    ∀ (docs : List Nat) (c p pr : Nat),
      p ≤ (batchSim env job_id deadline docs c p pr).progress
  | [], c, p, pr => Nat.le_refl p
  | d :: rest, c, p, pr => by
    rw [batchSim]
    by_cases hdl : deadline ≤ c
    · rw [if_pos hdl]
    · rw [if_neg hdl]
      cases hdr : docResult env d with
      | some e => exact Nat.le_refl p
      | none =>
        have := batchSim_prog_le env job_id deadline rest (c + env.dur d) (p + 1) (pr + 1)
        dsimp only
        omega

theorem batchSim_fail_all_non_ok (env : Env) (job_id deadline c : Nat) (d : Nat) (e : String)
    (hdr : docResult env d = some e) :
    ∀ ent ∈ (docEvents env d).map (Entry.ev job_id c) ++
      [Entry.ev job_id c ⟨"error", "indexed_failed", docData d ++ [("error", JVal.s e)]⟩,
       Entry.wr job_id c ⟨Status.failed, some e, none⟩,
       Entry.ev job_id c ⟨"error", "job_failed", [("error", JVal.s e)]⟩],
      isOkEv ent = false := by
  intro ent hent
  rcases List.mem_append.mp hent with hmem | hmem
  · rcases List.mem_map.mp hmem with ⟨ev, hev, rfl⟩
    have := docEvents_fail_no_ok env d e hdr ev hev
    simp [isOkEv, this]
  · simp at hmem
    rcases hmem with rfl | rfl | rfl <;> simp [isOkEv]

theorem batchSim_progValues (env : Env) (job_id deadline : Nat) :
    ∀ (docs : List Nat) (c p pr : Nat),
      progValues (batchSim env job_id deadline docs c p pr).tr =
        List.range' (p + 1) ((batchSim env job_id deadline docs c p pr).progress - p)
  | [], c, p, pr => by simp [batchSim, progValues]
  | d :: rest, c, p, pr => by
    rw [batchSim]
    by_cases hdl : deadline ≤ c
    · rw [if_pos hdl]
      simp [progValues]
    · rw [if_neg hdl]
      cases hdr : docResult env d with
      | some e =>
        dsimp only
        rw [progValues_append, progValues_evs]
        simp [progValues, wrProg]
      | none =>
        dsimp only
        rw [progValues_append, progValues_evs]
        have hle := batchSim_prog_le env job_id deadline rest (c + env.dur d) (p + 1) (pr + 1)
        have ih := batchSim_progValues env job_id deadline rest (c + env.dur d) (p + 1) (pr + 1)
        have hn : (batchSim env job_id deadline rest (c + env.dur d) (p + 1) (pr + 1)).progress
            - p = ((batchSim env job_id deadline rest (c + env.dur d) (p + 1)
              (pr + 1)).progress - (p + 1)) + 1 := by omega
        rw [hn, List.range'_succ]
        simp only [List.nil_append, progValues, List.filterMap_cons]
        rw [show wrProg (Entry.wr job_id c ⟨Status.running, none, some (p + 1)⟩) =
          some (p + 1) from rfl]
        rw [show (p + 1) + 1 = p + 2 from rfl] at ih ⊢
        rw [← ih]
        rfl

theorem batchSim_parse (env : Env) (job_id deadline : Nat) :
    ∀ (docs : List Nat) (c p pr : Nat),
      parseOk job_id p (batchSim env job_id deadline docs c p pr).tr =
        some (batchSim env job_id deadline docs c p pr).progress
  | [], c, p, pr => by simp [batchSim, parseOk]
  | d :: rest, c, p, pr => by
    rw [batchSim]
    by_cases hdl : deadline ≤ c
    · rw [if_pos hdl]
      simp [parseOk]
    · rw [if_neg hdl]
      cases hdr : docResult env d with
      | some e =>
        dsimp only
        exact parseOk_no_ok job_id _ (batchSim_fail_all_non_ok env job_id deadline c d e hdr) p
      | none =>
        dsimp only
        obtain ⟨pre, fn, hpre, hpreok⟩ := docEvents_ok_shape env d hdr
        rw [hpre, List.map_append]
        simp only [List.map_cons, List.map_nil]
        have hsw : ∀ ent ∈ pre.map (Entry.ev job_id c), isOkEv ent = false := by
          intro ent hent
          rcases List.mem_map.mp hent with ⟨ev, hev, rfl⟩
          simp [isOkEv, hpreok ev hev]
        have hassoc : (pre.map (Entry.ev job_id c) ++
            [Entry.ev job_id c ⟨"info", "indexed_ok", docData d ++ [("file_name", JVal.s fn)]⟩])
            ++ (Entry.wr job_id c ⟨Status.running, none, some (p + 1)⟩ ::
              (batchSim env job_id deadline rest (c + env.dur d) (p + 1) (pr + 1)).tr) =
            pre.map (Entry.ev job_id c) ++
            (Entry.ev job_id c ⟨"info", "indexed_ok", docData d ++ [("file_name", JVal.s fn)]⟩ ::
              Entry.wr job_id c ⟨Status.running, none, some (p + 1)⟩ ::
              (batchSim env job_id deadline rest (c + env.dur d) (p + 1) (pr + 1)).tr) := by
          simp [List.append_assoc]
        rw [hassoc, parseOk_skip job_id _ hsw]
        rw [parseOk.eq_def]
        dsimp only
        rw [if_pos (by simp [isOkEv] : isOkEv (Entry.ev job_id c
          ⟨"info", "indexed_ok", docData d ++ [("file_name", JVal.s fn)]⟩) = true)]
        rw [if_pos (by simp [isRunWrite] : isRunWrite job_id (p + 1)
          (Entry.wr job_id c ⟨Status.running, none, some (p + 1)⟩) = true)]
        exact batchSim_parse env job_id deadline rest (c + env.dur d) (p + 1) (pr + 1)

theorem batchSim_statuses (env : Env) (job_id deadline : Nat) :
    ∀ (docs : List Nat) (c p pr : Nat),
      wrStatuses (batchSim env job_id deadline docs c p pr).tr =
        List.replicate ((batchSim env job_id deadline docs c p pr).progress - p)
          Status.running ++
        (match (batchSim env job_id deadline docs c p pr).err with
          | some _ => [Status.failed]
          | none => [])
  | [], c, p, pr => by simp [batchSim, wrStatuses]
  | d :: rest, c, p, pr => by
    rw [batchSim]
    by_cases hdl : deadline ≤ c
    · rw [if_pos hdl]
      simp [wrStatuses]
    · rw [if_neg hdl]
      cases hdr : docResult env d with
      | some e =>
        dsimp only
        rw [wrStatuses_append, wrStatuses_evs]
        simp [wrStatuses, wrStat]
      | none =>
        dsimp only
        rw [wrStatuses_append, wrStatuses_evs]
        have hle := batchSim_prog_le env job_id deadline rest (c + env.dur d) (p + 1) (pr + 1)
        have ih := batchSim_statuses env job_id deadline rest (c + env.dur d) (p + 1) (pr + 1)
        have hn : (batchSim env job_id deadline rest (c + env.dur d) (p + 1) (pr + 1)).progress
            - p = ((batchSim env job_id deadline rest (c + env.dur d) (p + 1)
              (pr + 1)).progress - (p + 1)) + 1 := by omega
        rw [hn, List.replicate_succ, List.cons_append]
        simp only [List.nil_append, wrStatuses, List.filterMap_cons]
        rw [show wrStat (Entry.wr job_id c ⟨Status.running, none, some (p + 1)⟩) =
          some Status.running from rfl]
        rw [← ih]
        rfl

theorem batchSim_rowProgress (env : Env) (job_id deadline : Nat) :
    ∀ (docs : List Nat) (c p pr : Nat) (x : Job), x.progress = p →
      (rowApply job_id (batchSim env job_id deadline docs c p pr).tr x).progress =
        (batchSim env job_id deadline docs c p pr).progress
  | [], c, p, pr, x => by
    intro hx
    simpa [batchSim, rowApply] using hx
  | d :: rest, c, p, pr, x => by
    intro hx
    rw [batchSim]
    by_cases hdl : deadline ≤ c
    · rw [if_pos hdl]
      simpa [rowApply] using hx
    · rw [if_neg hdl]
      cases hdr : docResult env d with
      | some e =>
        dsimp only
        rw [rowApply_append, rowApply_evs]
        simp [rowApply_cons, rowApply, applyWrite, hx]
      | none =>
        dsimp only
        rw [rowApply_append, rowApply_evs, rowApply_cons]
        have := batchSim_rowProgress env job_id deadline rest (c + env.dur d) (p + 1) (pr + 1)
          (applyWrite x Status.running none (some (p + 1))) (by simp [applyWrite])
        simpa using this

theorem batchSim_rowAbort (env : Env) (job_id deadline : Nat) :
    ∀ (docs : List Nat) (c p pr : Nat) (x : Job) (e : String),
      (batchSim env job_id deadline docs c p pr).err = some e → x.progress = p →
      rowApply job_id (batchSim env job_id deadline docs c p pr).tr x =
        { x with
          status := Status.failed,
          error := some e,
          progress := (batchSim env job_id deadline docs c p pr).progress }
  | [], c, p, pr, x, e => by
    intro he
    simp [batchSim] at he
  | d :: rest, c, p, pr, x, e => by
    intro he hx
    rw [batchSim] at he ⊢
    by_cases hdl : deadline ≤ c
    · rw [if_pos hdl] at he
      simp at he
    · rw [if_neg hdl] at he ⊢
      cases hdr : docResult env d with
      | some e2 =>
        rw [hdr] at he
        dsimp only at he ⊢
        obtain rfl : e2 = e := by simpa using he
        rw [rowApply_append, rowApply_evs]
        obtain ⟨xs, xf, xp, xt, xe⟩ := x
        simp only [Job.mk.injEq] at hx
        simp [rowApply_cons, rowApply, applyWrite, hx]
      | none =>
        rw [hdr] at he
        dsimp only at he ⊢
        rw [rowApply_append, rowApply_evs, rowApply_cons]
        have := batchSim_rowAbort env job_id deadline rest (c + env.dur d) (p + 1) (pr + 1)
          (applyWrite x Status.running none (some (p + 1))) e he (by simp [applyWrite])
        simp only [beq_self_eq_true, if_true] at this ⊢
        rw [this]
        obtain ⟨xs, xf, xp, xt, xe⟩ := x
        simp [applyWrite]

theorem batchSim_clock_bound (env : Env) (job_id deadline P : Nat) :
    ∀ (docs : List Nat) (c p pr : Nat),
      (∀ d ∈ docs, env.dur d ≤ P) → c ≤ deadline + P →
      (batchSim env job_id deadline docs c p pr).clock ≤ deadline + P
  | [], c, p, pr => by
    intro _ hc
    simpa [batchSim] using hc
  | d :: rest, c, p, pr => by
    intro hdur hc
    rw [batchSim]
    by_cases hdl : deadline ≤ c
    · rw [if_pos hdl]
      exact hc
    · rw [if_neg hdl]
      cases hdr : docResult env d with
      | some e => exact hc
      | none =>
        dsimp only
        refine batchSim_clock_bound env job_id deadline P rest (c + env.dur d) (p + 1)
          (pr + 1) (fun d2 h2 => hdur d2 (List.mem_cons_of_mem d h2)) ?_
        have := hdur d (List.mem_cons_self d rest)
        omega

theorem mem_take_mono {α : Type} (x : α) :
    ∀ (l : List α) (n m : Nat), n ≤ m → x ∈ l.take n → x ∈ l.take m
  | [], n, m => by simp
  | a :: l, 0, m => by simp
  | a :: l, n + 1, m => by
    intro hnm hx
    obtain ⟨m2, rfl⟩ : ∃ m2, m = m2 + 1 := ⟨m - 1, by omega⟩
    rw [List.take_succ_cons] at hx ⊢
    rcases List.mem_cons.mp hx with rfl | hx
    · exact List.mem_cons_self x _
    · exact List.mem_cons_of_mem a (mem_take_mono x l n m2 (by omega) hx)

theorem mem_drop_take {α : Type} (x : α) :
    ∀ (l : List α) (a b : Nat), x ∈ (l.drop a).take b → x ∈ l.take (a + b)
  | [], a, b => by simp
  | y :: l, 0, b => by
    intro hx
    simpa using hx
  | y :: l, a + 1, b => by
    intro hx
    have := mem_drop_take x l a b hx
    have hab : a + 1 + b = (a + b) + 1 := by omega
    rw [hab, List.take_succ_cons]
    exact List.mem_cons_of_mem y this

theorem sumDur_append (env : Env) (a b : List Nat) :
    sumDur env (a ++ b) = sumDur env a + sumDur env b := by
  simp [sumDur]

theorem sumDur_cons (env : Env) (d : Nat) (l : List Nat) :
    sumDur env (d :: l) = env.dur d + sumDur env l := by
  simp [sumDur]

theorem sumDur_take_add_drop (env : Env) (l : List Nat) (n : Nat) :
    sumDur env (l.take n) + sumDur env (l.drop n) = sumDur env l := by
  rw [← sumDur_append, List.take_append_drop]

theorem sumDur_take_le (env : Env) (l : List Nat) (n : Nat) :
    sumDur env (l.take n) ≤ sumDur env l := by
  have := sumDur_take_add_drop env l n
  omega

theorem batchSim_abort_lt (env : Env) (job_id deadline : Nat) :
    ∀ (docs : List Nat) (c p pr : Nat) (e : String),
      (batchSim env job_id deadline docs c p pr).err = some e →
      (batchSim env job_id deadline docs c p pr).progress < p + docs.length
  | [], c, p, pr, e => by
    intro he
    simp [batchSim] at he
  | d :: rest, c, p, pr, e => by
    intro he
    rw [batchSim] at he ⊢
    by_cases hdl : deadline ≤ c
    · rw [if_pos hdl] at he
      simp at he
    · rw [if_neg hdl] at he ⊢
      cases hdr : docResult env d with
      | some e2 =>
        dsimp only
        simp [List.length_cons]
      | none =>
        rw [hdr] at he
        dsimp only at he ⊢
        have := batchSim_abort_lt env job_id deadline rest (c + env.dur d) (p + 1)
          (pr + 1) e he
        simp only [List.length_cons]
        omega

theorem batchSim_docIds_take (env : Env) (job_id deadline : Nat) :
    ∀ (docs : List Nat) (c p pr : Nat),
      ∀ ent ∈ (batchSim env job_id deadline docs c p pr).tr,
        ∀ dd, evDocId ent = some dd →
          dd ∈ docs.take ((batchSim env job_id deadline docs c p pr).progress - p + 1)
  | [], c, p, pr => by simp [batchSim]
  | d :: rest, c, p, pr => by
    rw [batchSim]
    by_cases hdl : deadline ≤ c
    · rw [if_pos hdl]
      simp
    · rw [if_neg hdl]
      have hmapped : ∀ (q : Nat) (ev : Event), ev ∈ docEvents env d →
          evDocId (Entry.ev job_id c ev) = some q → q = d := by
        intro q ev hev hdd
        have hl := docEvents_lookup env d ev hev
        simp only [evDocId, hl] at hdd
        simp only [Option.some.injEq] at hdd
        omega
      cases hdr : docResult env d with
      | some e =>
        intro ent hent
        dsimp only at hent ⊢
        rcases List.mem_append.mp hent with hmem | hmem
        · rcases List.mem_map.mp hmem with ⟨ev, hev, rfl⟩
          intro dd hdd
          obtain rfl := hmapped dd ev hev hdd
          simp
        · simp at hmem
          rcases hmem with rfl | rfl | rfl
          · intro dd hdd
            have hl : List.lookup "document_id"
                (docData d ++ [("error", JVal.s e)]) = some (JVal.n d) := rfl
            simp only [evDocId, hl, Option.some.injEq] at hdd
            subst hdd
            simp
          · intro dd hdd
            simp [evDocId] at hdd
          · intro dd hdd
            have hl : List.lookup "document_id" [("error", JVal.s e)] = none := rfl
            simp only [evDocId, hl] at hdd
            exact Option.noConfusion hdd
      | none =>
        intro ent hent
        dsimp only at hent ⊢
        have hle := batchSim_prog_le env job_id deadline rest (c + env.dur d) (p + 1) (pr + 1)
        have hn : (batchSim env job_id deadline rest (c + env.dur d) (p + 1) (pr + 1)).progress
            - p + 1 = ((batchSim env job_id deadline rest (c + env.dur d) (p + 1)
              (pr + 1)).progress - (p + 1) + 1) + 1 := by omega
        rw [hn, List.take_succ_cons]
        rcases List.mem_append.mp hent with hmem | hmem
        · rcases List.mem_map.mp hmem with ⟨ev, hev, rfl⟩
          intro dd hdd
          obtain rfl := hmapped dd ev hev hdd
          exact List.mem_cons_self dd _
        · rcases List.mem_cons.mp hmem with rfl | hmem
          · intro dd hdd
            simp [evDocId] at hdd
          · intro dd hdd
            exact List.mem_cons_of_mem d
              (batchSim_docIds_take env job_id deadline rest (c + env.dur d) (p + 1) (pr + 1)
                ent hmem dd hdd)

theorem batchSim_rowRun (env : Env) (job_id deadline : Nat) :
    ∀ (docs : List Nat) (c p pr : Nat) (x : Job),
      (batchSim env job_id deadline docs c p pr).err = none → x.progress = p →
      x.status = Status.running →
      rowApply job_id (batchSim env job_id deadline docs c p pr).tr x =
        { x with progress := (batchSim env job_id deadline docs c p pr).progress }
  | [], c, p, pr, x => by
    intro _ hx _
    obtain ⟨xs, xf, xp, xt, xe⟩ := x
    simp only [Job.mk.injEq] at hx ⊢
    simp [batchSim, rowApply, hx]
  | d :: rest, c, p, pr, x => by
    intro he hx hst
    rw [batchSim] at he ⊢
    by_cases hdl : deadline ≤ c
    · rw [if_pos hdl] at he ⊢
      obtain ⟨xs, xf, xp, xt, xe⟩ := x
      simp only [Job.mk.injEq] at hx ⊢
      simp [rowApply, hx]
    · rw [if_neg hdl] at he ⊢
      cases hdr : docResult env d with
      | some e2 =>
        rw [hdr] at he
        dsimp only at he
        exact Option.noConfusion he
      | none =>
        rw [hdr] at he
        dsimp only at he ⊢
        rw [rowApply_append, rowApply_evs, rowApply_cons]
        have := batchSim_rowRun env job_id deadline rest (c + env.dur d) (p + 1) (pr + 1)
          (applyWrite x Status.running none (some (p + 1))) he (by simp [applyWrite])
          (by simp [applyWrite])
        simp only [beq_self_eq_true, if_true] at this ⊢
        rw [this]
        obtain ⟨xs, xf, xp, xt, xe⟩ := x
        simp only [Job.mk.injEq] at hst
        simp [applyWrite, hst]

theorem batchSim_ok (env : Env) (job_id deadline : Nat) :
    ∀ (docs : List Nat) (c p pr : Nat),
      (∀ x ∈ docs, docResult env x = none) →
      (∀ i, i < docs.length → c + sumDur env (docs.take i) < deadline) →
      (batchSim env job_id deadline docs c p pr).err = none ∧
      (batchSim env job_id deadline docs c p pr).broke = false ∧
      (batchSim env job_id deadline docs c p pr).progress = p + docs.length ∧
      (batchSim env job_id deadline docs c p pr).processed = pr + docs.length ∧
      (batchSim env job_id deadline docs c p pr).clock = c + sumDur env docs
  | [], c, p, pr => by
    intro _ _
    simp [batchSim, sumDur]
  | d :: rest, c, p, pr => by
    intro hall hdead
    have hc : c < deadline := by
      have := hdead 0 (by simp)
      simpa [sumDur] using this
    rw [batchSim, if_neg (by omega : ¬ deadline ≤ c)]
    rw [hall d (List.mem_cons_self d rest)]
    dsimp only
    have hdead2 : ∀ i, i < rest.length →
        (c + env.dur d) + sumDur env (rest.take i) < deadline := by
      intro i hi
      have := hdead (i + 1) (by simp; omega)
      rw [List.take_succ_cons, sumDur_cons] at this
      omega
    have ih := batchSim_ok env job_id deadline rest (c + env.dur d) (p + 1) (pr + 1)
      (fun x hxm => hall x (List.mem_cons_of_mem d hxm)) hdead2
    refine ⟨ih.1, ih.2.1, ?_, ?_, ?_⟩
    · rw [ih.2.2.1, List.length_cons]
      omega
    · rw [ih.2.2.2.1, List.length_cons]
      omega
    · rw [ih.2.2.2.2, sumDur_cons]
      omega

theorem batchSim_fail (env : Env) (job_id deadline : Nat) :
    ∀ (pre : List Nat) (d : Nat) (post : List Nat) (c p pr : Nat) (e : String),
      (∀ x ∈ pre, docResult env x = none) → docResult env d = some e →
      c + sumDur env pre < deadline →
      (batchSim env job_id deadline (pre ++ d :: post) c p pr).err = some e ∧
      (batchSim env job_id deadline (pre ++ d :: post) c p pr).progress = p + pre.length ∧
      (batchSim env job_id deadline (pre ++ d :: post) c p pr).broke = false ∧
      (batchSim env job_id deadline (pre ++ d :: post) c p pr).clock = c + sumDur env pre ∧
      ∃ tl, (batchSim env job_id deadline (pre ++ d :: post) c p pr).tr = tl ++
        [Entry.ev job_id (c + sumDur env pre)
          ⟨"error", "indexed_failed", docData d ++ [("error", JVal.s e)]⟩,
         Entry.wr job_id (c + sumDur env pre) ⟨Status.failed, some e, none⟩,
         Entry.ev job_id (c + sumDur env pre) ⟨"error", "job_failed", [("error", JVal.s e)]⟩]
  | [], d, post, c, p, pr, e => by
    intro _ hd hdead
    have h0 : sumDur env ([] : List Nat) = 0 := rfl
    rw [h0] at hdead ⊢
    rw [List.nil_append, batchSim, if_neg (by omega : ¬ deadline ≤ c), hd]
    dsimp only
    refine ⟨rfl, by simp, rfl, by omega, ?_⟩
    rw [Nat.add_zero]
    exact ⟨_, rfl⟩
  | x :: pre2, d, post, c, p, pr, e => by
    intro hall hd hdead
    rw [sumDur_cons] at hdead
    have hc : c < deadline := by omega
    rw [List.cons_append, batchSim, if_neg (by omega : ¬ deadline ≤ c)]
    rw [hall x (List.mem_cons_self x pre2)]
    dsimp only
    have ih := batchSim_fail env job_id deadline pre2 d post (c + env.dur x) (p + 1)
      (pr + 1) e (fun y hym => hall y (List.mem_cons_of_mem x hym)) hd (by omega)
    have hts : c + env.dur x + sumDur env pre2 = c + sumDur env (x :: pre2) := by
      rw [sumDur_cons]
      omega
    obtain ⟨tl2, htl2⟩ := ih.2.2.2.2
    refine ⟨ih.1, ?_, ih.2.2.1, ?_, ?_⟩
    · rw [ih.2.1, List.length_cons]
      omega
    · rw [ih.2.2.2.1]
      exact hts
    · rw [htl2, hts]
      refine ⟨(docEvents env x).map (Entry.ev job_id c) ++
        (Entry.wr job_id c ⟨Status.running, none, some (p + 1)⟩ :: tl2), ?_⟩
      simp [List.append_assoc]

theorem loopSim_prog_le (env : Env) (job_id batch_size total deadline : Nat)
    (order : List Nat) :
    ∀ (fuel c p pr : Nat),
      p ≤ (loopSim env job_id batch_size total deadline order fuel c p pr).progress
  | 0, c, p, pr => Nat.le_refl p
  | fuel + 1, c, p, pr => by
    rw [loopSim]
    by_cases hc : c < deadline ∧ p < total
    · rw [if_pos hc]
      cases hdocs : (order.drop p).take (min batch_size (total - p)) with
      | nil => exact Nat.le_refl p
      | cons d rest =>
        dsimp only
        cases ho : (batchSim env job_id deadline (d :: rest) c p pr).err with
        | some e =>
          simp only [ho]
          exact batchSim_prog_le env job_id deadline (d :: rest) c p pr
        | none =>
          simp only [ho]
          cases hbroke : (batchSim env job_id deadline (d :: rest) c p pr).broke with
          | true =>
            rw [if_pos rfl]
            exact batchSim_prog_le env job_id deadline (d :: rest) c p pr
          | false =>
            rw [if_neg Bool.false_ne_true]
            dsimp only
            have h1 := batchSim_prog_le env job_id deadline (d :: rest) c p pr
            have h2 := loopSim_prog_le env job_id batch_size total deadline order fuel
              (batchSim env job_id deadline (d :: rest) c p pr).clock
              (batchSim env job_id deadline (d :: rest) c p pr).progress
              (batchSim env job_id deadline (d :: rest) c p pr).processed
            omega
    · rw [if_neg hc]

theorem loopSim_parse (env : Env) (job_id batch_size total deadline : Nat)
    (order : List Nat) :
    ∀ (fuel c p pr : Nat),
      parseOk job_id p (loopSim env job_id batch_size total deadline order fuel c p pr).tr =
        some (loopSim env job_id batch_size total deadline order fuel c p pr).progress
  | 0, c, p, pr => by simp [loopSim, parseOk]
  | fuel + 1, c, p, pr => by
    rw [loopSim]
    by_cases hc : c < deadline ∧ p < total
    · rw [if_pos hc]
      cases hdocs : (order.drop p).take (min batch_size (total - p)) with
      | nil => simp [parseOk]
      | cons d rest =>
        dsimp only
        cases ho : (batchSim env job_id deadline (d :: rest) c p pr).err with
        | some e =>
          simp only [ho]
          exact batchSim_parse env job_id deadline (d :: rest) c p pr
        | none =>
          simp only [ho]
          cases hbroke : (batchSim env job_id deadline (d :: rest) c p pr).broke with
          | true =>
            rw [if_pos rfl]
            exact batchSim_parse env job_id deadline (d :: rest) c p pr
          | false =>
            rw [if_neg Bool.false_ne_true]
            dsimp only
            rw [parseOk_append job_id _ p
              (batchSim env job_id deadline (d :: rest) c p pr).progress _
              (batchSim_parse env job_id deadline (d :: rest) c p pr)]
            exact loopSim_parse env job_id batch_size total deadline order fuel
              (batchSim env job_id deadline (d :: rest) c p pr).clock
              (batchSim env job_id deadline (d :: rest) c p pr).progress
              (batchSim env job_id deadline (d :: rest) c p pr).processed
    · rw [if_neg hc]
      simp [parseOk]

theorem loopSim_progValues (env : Env) (job_id batch_size total deadline : Nat)
    (order : List Nat) :
    ∀ (fuel c p pr : Nat),
      progValues (loopSim env job_id batch_size total deadline order fuel c p pr).tr =
        List.range' (p + 1)
          ((loopSim env job_id batch_size total deadline order fuel c p pr).progress - p)
  | 0, c, p, pr => by simp [loopSim, progValues]
  | fuel + 1, c, p, pr => by
    rw [loopSim]
    by_cases hc : c < deadline ∧ p < total
    · rw [if_pos hc]
      cases hdocs : (order.drop p).take (min batch_size (total - p)) with
      | nil => simp [progValues]
      | cons d rest =>
        dsimp only
        cases ho : (batchSim env job_id deadline (d :: rest) c p pr).err with
        | some e =>
          simp only [ho]
          exact batchSim_progValues env job_id deadline (d :: rest) c p pr
        | none =>
          simp only [ho]
          cases hbroke : (batchSim env job_id deadline (d :: rest) c p pr).broke with
          | true =>
            rw [if_pos rfl]
            exact batchSim_progValues env job_id deadline (d :: rest) c p pr
          | false =>
            rw [if_neg Bool.false_ne_true]
            dsimp only
            rw [progValues_append, batchSim_progValues,
              loopSim_progValues env job_id batch_size total deadline order fuel
                (batchSim env job_id deadline (d :: rest) c p pr).clock
                (batchSim env job_id deadline (d :: rest) c p pr).progress
                (batchSim env job_id deadline (d :: rest) c p pr).processed]
            have h1 := batchSim_prog_le env job_id deadline (d :: rest) c p pr
            have h2 := loopSim_prog_le env job_id batch_size total deadline order fuel
              (batchSim env job_id deadline (d :: rest) c p pr).clock
              (batchSim env job_id deadline (d :: rest) c p pr).progress
              (batchSim env job_id deadline (d :: rest) c p pr).processed
            have e1 : (batchSim env job_id deadline (d :: rest) c p pr).progress + 1 =
                (p + 1) + ((batchSim env job_id deadline (d :: rest) c p pr).progress - p) := by
              omega
            rw [e1, List.range'_append_1]
            have e2 : (loopSim env job_id batch_size total deadline order fuel
                  (batchSim env job_id deadline (d :: rest) c p pr).clock
                  (batchSim env job_id deadline (d :: rest) c p pr).progress
                  (batchSim env job_id deadline (d :: rest) c p pr).processed).progress -
                  (batchSim env job_id deadline (d :: rest) c p pr).progress +
                ((batchSim env job_id deadline (d :: rest) c p pr).progress - p) =
                (loopSim env job_id batch_size total deadline order fuel
                  (batchSim env job_id deadline (d :: rest) c p pr).clock
                  (batchSim env job_id deadline (d :: rest) c p pr).progress
                  (batchSim env job_id deadline (d :: rest) c p pr).processed).progress - p := by
              omega
            rw [e2]
    · rw [if_neg hc]
      simp [progValues]

theorem loopSim_statuses (env : Env) (job_id batch_size total deadline : Nat)
    (order : List Nat) :
    ∀ (fuel c p pr : Nat),
      wrStatuses (loopSim env job_id batch_size total deadline order fuel c p pr).tr =
        List.replicate
          ((loopSim env job_id batch_size total deadline order fuel c p pr).progress - p)
          Status.running ++
        (match (loopSim env job_id batch_size total deadline order fuel c p pr).err with
          | some _ => [Status.failed]
          | none => [])
  | 0, c, p, pr => by simp [loopSim, wrStatuses]
  | fuel + 1, c, p, pr => by
    rw [loopSim]
    by_cases hc : c < deadline ∧ p < total
    · rw [if_pos hc]
      cases hdocs : (order.drop p).take (min batch_size (total - p)) with
      | nil => simp [wrStatuses]
      | cons d rest =>
        dsimp only
        cases ho : (batchSim env job_id deadline (d :: rest) c p pr).err with
        | some e =>
          simp only [ho]
          have hb := batchSim_statuses env job_id deadline (d :: rest) c p pr
          simp only [ho] at hb
          exact hb
        | none =>
          simp only [ho]
          cases hbroke : (batchSim env job_id deadline (d :: rest) c p pr).broke with
          | true =>
            rw [if_pos rfl]
            simp only [ho]
            have hb := batchSim_statuses env job_id deadline (d :: rest) c p pr
            simp only [ho] at hb
            exact hb
          | false =>
            rw [if_neg Bool.false_ne_true]
            dsimp only
            rw [wrStatuses_append]
            have hb := batchSim_statuses env job_id deadline (d :: rest) c p pr
            simp only [ho, List.append_nil] at hb
            rw [hb, loopSim_statuses env job_id batch_size total deadline order fuel
                (batchSim env job_id deadline (d :: rest) c p pr).clock
                (batchSim env job_id deadline (d :: rest) c p pr).progress
                (batchSim env job_id deadline (d :: rest) c p pr).processed]
            have h1 := batchSim_prog_le env job_id deadline (d :: rest) c p pr
            have h2 := loopSim_prog_le env job_id batch_size total deadline order fuel
              (batchSim env job_id deadline (d :: rest) c p pr).clock
              (batchSim env job_id deadline (d :: rest) c p pr).progress
              (batchSim env job_id deadline (d :: rest) c p pr).processed
            have e2 : (loopSim env job_id batch_size total deadline order fuel
                  (batchSim env job_id deadline (d :: rest) c p pr).clock
                  (batchSim env job_id deadline (d :: rest) c p pr).progress
                  (batchSim env job_id deadline (d :: rest) c p pr).processed).progress - p =
                ((batchSim env job_id deadline (d :: rest) c p pr).progress - p) +
                ((loopSim env job_id batch_size total deadline order fuel
                  (batchSim env job_id deadline (d :: rest) c p pr).clock
                  (batchSim env job_id deadline (d :: rest) c p pr).progress
                  (batchSim env job_id deadline (d :: rest) c p pr).processed).progress -
                  (batchSim env job_id deadline (d :: rest) c p pr).progress) := by
              omega
            rw [e2, List.replicate_add, List.append_assoc]
    · rw [if_neg hc]
      simp [wrStatuses]

theorem loopSim_ts (env : Env) (job_id batch_size total deadline : Nat)
    (order : List Nat) :
    ∀ (fuel c p pr : Nat),
      ∀ ent ∈ (loopSim env job_id batch_size total deadline order fuel c p pr).tr,
        entryTs ent < deadline
  | 0, c, p, pr => by simp [loopSim]
  | fuel + 1, c, p, pr => by
    rw [loopSim]
    by_cases hc : c < deadline ∧ p < total
    · rw [if_pos hc]
      cases hdocs : (order.drop p).take (min batch_size (total - p)) with
      | nil => simp
      | cons d rest =>
        dsimp only
        cases ho : (batchSim env job_id deadline (d :: rest) c p pr).err with
        | some e =>
          simp only [ho]
          exact batchSim_ts env job_id deadline (d :: rest) c p pr
        | none =>
          simp only [ho]
          cases hbroke : (batchSim env job_id deadline (d :: rest) c p pr).broke with
          | true =>
            rw [if_pos rfl]
            exact batchSim_ts env job_id deadline (d :: rest) c p pr
          | false =>
            rw [if_neg Bool.false_ne_true]
            dsimp only
            intro ent hent
            rcases List.mem_append.mp hent with hmem | hmem
            · exact batchSim_ts env job_id deadline (d :: rest) c p pr ent hmem
            · exact loopSim_ts env job_id batch_size total deadline order fuel
                (batchSim env job_id deadline (d :: rest) c p pr).clock
                (batchSim env job_id deadline (d :: rest) c p pr).progress
                (batchSim env job_id deadline (d :: rest) c p pr).processed ent hmem
    · rw [if_neg hc]
      simp

theorem loopSim_msgs (env : Env) (job_id batch_size total deadline : Nat)
    (order : List Nat) :
    ∀ (fuel c p pr : Nat),
      ∀ ent ∈ (loopSim env job_id batch_size total deadline order fuel c p pr).tr,
        evMsg ent ≠ some "job_succeeded"
  | 0, c, p, pr => by simp [loopSim]
  | fuel + 1, c, p, pr => by
    rw [loopSim]
    by_cases hc : c < deadline ∧ p < total
    · rw [if_pos hc]
      cases hdocs : (order.drop p).take (min batch_size (total - p)) with
      | nil => simp
      | cons d rest =>
        dsimp only
        cases ho : (batchSim env job_id deadline (d :: rest) c p pr).err with
        | some e =>
          simp only [ho]
          exact batchSim_msgs env job_id deadline (d :: rest) c p pr
        | none =>
          simp only [ho]
          cases hbroke : (batchSim env job_id deadline (d :: rest) c p pr).broke with
          | true =>
            rw [if_pos rfl]
            exact batchSim_msgs env job_id deadline (d :: rest) c p pr
          | false =>
            rw [if_neg Bool.false_ne_true]
            dsimp only
            intro ent hent
            rcases List.mem_append.mp hent with hmem | hmem
            · exact batchSim_msgs env job_id deadline (d :: rest) c p pr ent hmem
            · exact loopSim_msgs env job_id batch_size total deadline order fuel
                (batchSim env job_id deadline (d :: rest) c p pr).clock
                (batchSim env job_id deadline (d :: rest) c p pr).progress
                (batchSim env job_id deadline (d :: rest) c p pr).processed ent hmem
    · rw [if_neg hc]
      simp

theorem loopSim_docIds (env : Env) (job_id batch_size total deadline : Nat)
    (order : List Nat) :
    ∀ (fuel c p pr : Nat),
      ∀ ent ∈ (loopSim env job_id batch_size total deadline order fuel c p pr).tr,
        ∀ dd, evDocId ent = some dd →
          dd ∈ order.take
            ((loopSim env job_id batch_size total deadline order fuel c p pr).progress + 1)
  | 0, c, p, pr => by simp [loopSim]
  | fuel + 1, c, p, pr => by
    rw [loopSim]
    by_cases hc : c < deadline ∧ p < total
    · rw [if_pos hc]
      cases hdocs : (order.drop p).take (min batch_size (total - p)) with
      | nil => simp
      | cons d rest =>
        dsimp only
        have hbatch : ∀ ent ∈ (batchSim env job_id deadline (d :: rest) c p pr).tr,
            ∀ dd, evDocId ent = some dd → dd ∈ order.take
              ((batchSim env job_id deadline (d :: rest) c p pr).progress + 1) := by
          intro ent hent dd hdd
          have h1 := batchSim_docIds_take env job_id deadline (d :: rest) c p pr ent hent dd hdd
          obtain ⟨q, hq⟩ : ∃ q,
              (batchSim env job_id deadline (d :: rest) c p pr).progress - p + 1 = q :=
            ⟨_, rfl⟩
          rw [hq, ← hdocs, List.take_take] at h1
          have h2 := mem_take_mono dd (order.drop p) _ _ inf_le_left h1
          have h3 := mem_drop_take dd order p _ h2
          have hle := batchSim_prog_le env job_id deadline (d :: rest) c p pr
          have e1 : p + q =
              (batchSim env job_id deadline (d :: rest) c p pr).progress + 1 := by omega
          rw [e1] at h3
          exact h3
        cases ho : (batchSim env job_id deadline (d :: rest) c p pr).err with
        | some e =>
          simp only [ho]
          exact hbatch
        | none =>
          simp only [ho]
          cases hbroke : (batchSim env job_id deadline (d :: rest) c p pr).broke with
          | true =>
            rw [if_pos rfl]
            exact hbatch
          | false =>
            rw [if_neg Bool.false_ne_true]
            dsimp only
            intro ent hent dd hdd
            have hle1 := batchSim_prog_le env job_id deadline (d :: rest) c p pr
            have hle2 := loopSim_prog_le env job_id batch_size total deadline order fuel
              (batchSim env job_id deadline (d :: rest) c p pr).clock
              (batchSim env job_id deadline (d :: rest) c p pr).progress
              (batchSim env job_id deadline (d :: rest) c p pr).processed
            rcases List.mem_append.mp hent with hmem | hmem
            · exact mem_take_mono dd order _ _ (by omega) (hbatch ent hmem dd hdd)
            · exact loopSim_docIds env job_id batch_size total deadline order fuel
                (batchSim env job_id deadline (d :: rest) c p pr).clock
                (batchSim env job_id deadline (d :: rest) c p pr).progress
                (batchSim env job_id deadline (d :: rest) c p pr).processed ent hmem dd hdd
    · rw [if_neg hc]
      simp

theorem loopSim_clock_bound (env : Env) (job_id batch_size total deadline P : Nat)
    (order : List Nat) (hdur : ∀ x ∈ order, env.dur x ≤ P) :
    ∀ (fuel c p pr : Nat), c ≤ deadline + P →
      (loopSim env job_id batch_size total deadline order fuel c p pr).clock ≤ deadline + P
  | 0, c, p, pr => by
    intro h
    simpa [loopSim] using h
  | fuel + 1, c, p, pr => by
    intro hcb
    rw [loopSim]
    by_cases hc : c < deadline ∧ p < total
    · rw [if_pos hc]
      cases hdocs : (order.drop p).take (min batch_size (total - p)) with
      | nil =>
        dsimp only
        exact hcb
      | cons d rest =>
        dsimp only
        have hdur2 : ∀ x ∈ (d :: rest), env.dur x ≤ P := by
          intro x hx
          rw [← hdocs] at hx
          exact hdur x (List.mem_of_mem_drop (List.mem_of_mem_take hx))
        have hb := batchSim_clock_bound env job_id deadline P (d :: rest) c p pr hdur2 hcb
        cases ho : (batchSim env job_id deadline (d :: rest) c p pr).err with
        | some e =>
          simp only [ho]
          exact hb
        | none =>
          simp only [ho]
          cases hbroke : (batchSim env job_id deadline (d :: rest) c p pr).broke with
          | true =>
            rw [if_pos rfl]
            exact hb
          | false =>
            rw [if_neg Bool.false_ne_true]
            dsimp only
            exact loopSim_clock_bound env job_id batch_size total deadline P order hdur fuel
              (batchSim env job_id deadline (d :: rest) c p pr).clock
              (batchSim env job_id deadline (d :: rest) c p pr).progress
              (batchSim env job_id deadline (d :: rest) c p pr).processed hb
    · rw [if_neg hc]
      exact hcb

theorem loopSim_abort_lt (env : Env) (job_id batch_size total deadline : Nat)
    (order : List Nat) :
    ∀ (fuel c p pr : Nat) (e : String),
      (loopSim env job_id batch_size total deadline order fuel c p pr).err = some e →
      (loopSim env job_id batch_size total deadline order fuel c p pr).progress < total
  | 0, c, p, pr, e => by
    intro he
    simp [loopSim] at he
  | fuel + 1, c, p, pr, e => by
    intro he
    rw [loopSim] at he ⊢
    by_cases hc : c < deadline ∧ p < total
    · rw [if_pos hc] at he ⊢
      cases hdocs : (order.drop p).take (min batch_size (total - p)) with
      | nil =>
        rw [hdocs] at he
        simp at he
      | cons d rest =>
        rw [hdocs] at he
        dsimp only at he ⊢
        cases ho : (batchSim env job_id deadline (d :: rest) c p pr).err with
        | some e2 =>
          simp only [ho]
          have h1 := batchSim_abort_lt env job_id deadline (d :: rest) c p pr e2 ho
          have hlen : (d :: rest).length ≤ min batch_size (total - p) := by
            rw [← hdocs, List.length_take]
            exact inf_le_left
          have hmr : min batch_size (total - p) ≤ total - p := Nat.min_le_right _ _
          omega
        | none =>
          simp only [ho] at he
          cases hbroke : (batchSim env job_id deadline (d :: rest) c p pr).broke with
          | true =>
            rw [hbroke] at he
            rw [if_pos rfl] at he
            rw [ho] at he
            exact Option.noConfusion he
          | false =>
            rw [hbroke] at he
            rw [if_neg Bool.false_ne_true] at he
            dsimp only at he
            simp only [ho]
            rw [if_neg Bool.false_ne_true]
            dsimp only
            exact loopSim_abort_lt env job_id batch_size total deadline order fuel
              (batchSim env job_id deadline (d :: rest) c p pr).clock
              (batchSim env job_id deadline (d :: rest) c p pr).progress
              (batchSim env job_id deadline (d :: rest) c p pr).processed e he
    · rw [if_neg hc] at he
      simp at he

theorem loopSim_rowRun (env : Env) (job_id batch_size total deadline : Nat)
    (order : List Nat) :
    ∀ (fuel c p pr : Nat) (x : Job),
      (loopSim env job_id batch_size total deadline order fuel c p pr).err = none →
      x.progress = p → x.status = Status.running →
      rowApply job_id (loopSim env job_id batch_size total deadline order fuel c p pr).tr x =
        { x with progress :=
            (loopSim env job_id batch_size total deadline order fuel c p pr).progress }
  | 0, c, p, pr, x => by
    intro _ hx _
    obtain ⟨xs, xf, xp, xt, xe⟩ := x
    simp only [Job.mk.injEq] at hx ⊢
    simp [loopSim, rowApply, hx]
  | fuel + 1, c, p, pr, x => by
    intro he hx hst
    rw [loopSim] at he ⊢
    by_cases hc : c < deadline ∧ p < total
    · rw [if_pos hc] at he ⊢
      cases hdocs : (order.drop p).take (min batch_size (total - p)) with
      | nil =>
        dsimp only
        obtain ⟨xs, xf, xp, xt, xe⟩ := x
        simp only [Job.mk.injEq] at hx ⊢
        simp [rowApply, hx]
      | cons d rest =>
        rw [hdocs] at he
        dsimp only at he ⊢
        cases ho : (batchSim env job_id deadline (d :: rest) c p pr).err with
        | some e =>
          simp only [ho] at he
          exact Option.noConfusion he
        | none =>
          simp only [ho] at he ⊢
          cases hbroke : (batchSim env job_id deadline (d :: rest) c p pr).broke with
          | true =>
            rw [if_pos rfl]
            exact batchSim_rowRun env job_id deadline (d :: rest) c p pr x ho hx hst
          | false =>
            rw [hbroke] at he
            rw [if_neg Bool.false_ne_true] at he ⊢
            dsimp only at he ⊢
            rw [rowApply_append]
            rw [batchSim_rowRun env job_id deadline (d :: rest) c p pr x ho hx hst]
            rw [loopSim_rowRun env job_id batch_size total deadline order fuel
              (batchSim env job_id deadline (d :: rest) c p pr).clock
              (batchSim env job_id deadline (d :: rest) c p pr).progress
              (batchSim env job_id deadline (d :: rest) c p pr).processed
              { x with progress := (batchSim env job_id deadline (d :: rest) c p pr).progress }
              he rfl hst]
    · rw [if_neg hc]
      dsimp only
      obtain ⟨xs, xf, xp, xt, xe⟩ := x
      simp only [Job.mk.injEq] at hx ⊢
      simp [rowApply, hx]

theorem loopSim_rowAbort (env : Env) (job_id batch_size total deadline : Nat)
    (order : List Nat) :
    ∀ (fuel c p pr : Nat) (x : Job) (e : String),
      (loopSim env job_id batch_size total deadline order fuel c p pr).err = some e →
      x.progress = p → x.status = Status.running →
      rowApply job_id (loopSim env job_id batch_size total deadline order fuel c p pr).tr x =
        { x with
          status := Status.failed,
          error := some e,
          progress :=
            (loopSim env job_id batch_size total deadline order fuel c p pr).progress }
  | 0, c, p, pr, x, e => by
    intro he
    simp [loopSim] at he
  | fuel + 1, c, p, pr, x, e => by
    intro he hx hst
    rw [loopSim] at he ⊢
    by_cases hc : c < deadline ∧ p < total
    · rw [if_pos hc] at he ⊢
      cases hdocs : (order.drop p).take (min batch_size (total - p)) with
      | nil =>
        rw [hdocs] at he
        simp at he
      | cons d rest =>
        rw [hdocs] at he
        dsimp only at he ⊢
        cases ho : (batchSim env job_id deadline (d :: rest) c p pr).err with
        | some e2 =>
          simp only [ho] at he
          simp only [ho]
          exact batchSim_rowAbort env job_id deadline (d :: rest) c p pr x e (ho.trans he) hx
        | none =>
          simp only [ho] at he ⊢
          cases hbroke : (batchSim env job_id deadline (d :: rest) c p pr).broke with
          | true =>
            rw [hbroke] at he
            rw [if_pos rfl] at he
            rw [ho] at he
            exact Option.noConfusion he
          | false =>
            rw [hbroke] at he
            rw [if_neg Bool.false_ne_true] at he ⊢
            dsimp only at he ⊢
            rw [rowApply_append]
            rw [batchSim_rowRun env job_id deadline (d :: rest) c p pr x ho hx hst]
            rw [loopSim_rowAbort env job_id batch_size total deadline order fuel
              (batchSim env job_id deadline (d :: rest) c p pr).clock
              (batchSim env job_id deadline (d :: rest) c p pr).progress
              (batchSim env job_id deadline (d :: rest) c p pr).processed
              { x with progress := (batchSim env job_id deadline (d :: rest) c p pr).progress }
              e he rfl hst]
    · rw [if_neg hc] at he
      simp at he

theorem loopSim_fail (env : Env) (job_id batch_size total deadline : Nat)
    (pre post : List Nat) (d : Nat) (e : String)
    (hpre : ∀ x ∈ pre, docResult env x = none)
    (hd : docResult env d = some e) (hbs : 0 < batch_size)
    (hk : pre.length < total) :
    ∀ (fuel c p pr : Nat), p ≤ pre.length → pre.length - p < fuel →
      c + sumDur env (pre.drop p) < deadline →
      (loopSim env job_id batch_size total deadline (pre ++ d :: post) fuel c p pr).err =
        some e ∧
      (loopSim env job_id batch_size total deadline (pre ++ d :: post) fuel c p pr).progress =
        pre.length ∧
      ∃ ts tl,
        (loopSim env job_id batch_size total deadline (pre ++ d :: post) fuel c p pr).tr =
          tl ++
          [Entry.ev job_id ts ⟨"error", "indexed_failed", docData d ++ [("error", JVal.s e)]⟩,
           Entry.wr job_id ts ⟨Status.failed, some e, none⟩,
           Entry.ev job_id ts ⟨"error", "job_failed", [("error", JVal.s e)]⟩]
  | 0, c, p, pr => by
    intro hp hfuel hdead
    exact absurd hfuel (Nat.not_lt_zero _)
  | fuel + 1, c, p, pr => by
    intro hp hfuel hdead
    have hc1 : c < deadline := by omega
    have hc2 : p < total := by omega
    rw [loopSim, if_pos ⟨hc1, hc2⟩]
    have hm1 : 1 ≤ min batch_size (total - p) := Nat.le_min.mpr ⟨hbs, by omega⟩
    have hdrop : (pre ++ d :: post).drop p = pre.drop p ++ d :: post :=
      List.drop_append_of_le_length hp
    have hdlen : (pre.drop p).length = pre.length - p := List.length_drop p pre
    by_cases hcase : pre.length - p < min batch_size (total - p)
    · obtain ⟨j, hj⟩ : ∃ j, min batch_size (total - p) = (pre.length - p) + (j + 1) :=
        ⟨min batch_size (total - p) - (pre.length - p) - 1, by omega⟩
      have hs : ((pre ++ d :: post).drop p).take (min batch_size (total - p)) =
          pre.drop p ++ d :: post.take j := by
        rw [hdrop, hj, ← hdlen, List.take_append, List.take_succ_cons]
      have hfail := batchSim_fail env job_id deadline (pre.drop p) d (post.take j) c p pr e
        (fun x hx => hpre x (List.mem_of_mem_drop hx)) hd hdead
      cases hsl : ((pre ++ d :: post).drop p).take (min batch_size (total - p)) with
      | nil =>
        rw [hsl] at hs
        have hlen0 : (0 : Nat) = (pre.drop p ++ d :: post.take j).length := by
          rw [← hs]
          rfl
        rw [List.length_append, List.length_cons] at hlen0
        omega
      | cons d2 rest2 =>
        have hseq : (d2 :: rest2 : List Nat) = pre.drop p ++ d :: post.take j :=
          hsl.symm.trans hs
        dsimp only
        rw [hseq]
        simp only [hfail.1]
        refine ⟨trivial, ?_, ?_⟩
        · rw [hfail.2.1, hdlen]
          omega
        · exact ⟨c + sumDur env (pre.drop p), hfail.2.2.2.2⟩
    · push_neg at hcase
      have hs : ((pre ++ d :: post).drop p).take (min batch_size (total - p)) =
          (pre.drop p).take (min batch_size (total - p)) := by
        rw [hdrop]
        exact List.take_append_of_le_length (by omega)
      have hok := batchSim_ok env job_id deadline
        ((pre.drop p).take (min batch_size (total - p))) c p pr
        (fun x hx => hpre x (List.mem_of_mem_drop (List.mem_of_mem_take hx)))
        (by
          intro i hi
          have h1 : sumDur env
              ((((pre.drop p).take (min batch_size (total - p)))).take i) ≤
              sumDur env (pre.drop p) := by
            rw [List.take_take]
            exact sumDur_take_le env (pre.drop p) _
          omega)
      have hslen : (((pre.drop p).take (min batch_size (total - p)))).length =
          min batch_size (total - p) := by
        rw [List.length_take, hdlen]
        exact min_eq_left hcase
      cases hsl : ((pre ++ d :: post).drop p).take (min batch_size (total - p)) with
      | nil =>
        rw [hsl] at hs
        have hlen0 : (0 : Nat) =
            (((pre.drop p).take (min batch_size (total - p)))).length := by
          rw [← hs]
          rfl
        rw [hslen] at hlen0
        omega
      | cons d2 rest2 =>
        have hseq : (d2 :: rest2 : List Nat) =
            (pre.drop p).take (min batch_size (total - p)) := hsl.symm.trans hs
        dsimp only
        rw [hseq]
        simp only [hok.1]
        rw [hok.2.1, if_neg Bool.false_ne_true]
        dsimp only
        have hih := loopSim_fail env job_id batch_size total deadline pre post d e
          hpre hd hbs hk fuel
          (batchSim env job_id deadline
            ((pre.drop p).take (min batch_size (total - p))) c p pr).clock
          (batchSim env job_id deadline
            ((pre.drop p).take (min batch_size (total - p))) c p pr).progress
          (batchSim env job_id deadline
            ((pre.drop p).take (min batch_size (total - p))) c p pr).processed
          (by
            rw [hok.2.2.1, hslen]
            omega)
          (by
            rw [hok.2.2.1, hslen]
            omega)
          (by
            rw [hok.2.2.2.2, hok.2.2.1, hslen, ← List.drop_drop]
            have hsum := sumDur_take_add_drop env (pre.drop p) (min batch_size (total - p))
            omega)
        obtain ⟨ts2, tl2, htr2⟩ := hih.2.2
        refine ⟨hih.1, hih.2.1, ts2,
          (batchSim env job_id deadline
            ((pre.drop p).take (min batch_size (total - p))) c p pr).tr ++ tl2, ?_⟩
        rw [htr2, ← List.append_assoc]

theorem jobProgress_eq (db : DB) (job_id : Nat) (job : Job)
    (hfind : fetch_job db job_id = some job) : jobProgress db job_id = job.progress := by
  unfold jobProgress
  rw [hfind]
  rfl

theorem jobRank_eq (db : DB) (job_id : Nat) (job : Job)
    (hfind : fetch_job db job_id = some job) : jobRank db job_id = statusRank job.status := by
  unfold jobRank
  rw [hfind]
  rfl

theorem fetch_job_dbDOf (db : DB) (job_id : Nat) (job : Job) (fs : FileStore)
    (hfind : fetch_job db job_id = some job) :
    fetch_job (dbDOf db job_id job fs) job_id = some (jStart db job) := by
  unfold dbDOf jStart totalOf
  by_cases htz : job.total = 0
  · rw [if_pos htz, if_pos htz, fetch_job_set_total, if_pos rfl, fetch_job_preDB,
      if_pos rfl, hfind]
    obtain ⟨xs, xf, xp, xt, xe⟩ := job
    simp only at htz
    simp [applyWrite, htz]
  · rw [if_neg htz, if_neg htz, fetch_job_preDB, if_pos rfl, hfind]
    obtain ⟨xs, xf, xp, xt, xe⟩ := job
    simp only at htz
    simp [applyWrite, htz]

theorem dbDOf_trace (db : DB) (job_id : Nat) (job : Job) (fs : FileStore) :
    (dbDOf db job_id job fs).trace = db.trace ++ preTrace db job_id fs := by
  unfold dbDOf
  by_cases htz : job.total = 0
  · rw [if_pos htz]
    simp [set_total, preDB, log_event, set_job_status, preTrace]
  · rw [if_neg htz]
    simp [preDB, log_event, set_job_status, preTrace]

theorem dbDOf_clock (db : DB) (job_id : Nat) (job : Job) (fs : FileStore) :
    (dbDOf db job_id job fs).clock = db.clock := by
  unfold dbDOf
  split <;> rfl

theorem dbDOf_memberships (db : DB) (job_id : Nat) (job : Job) (fs : FileStore) :
    (dbDOf db job_id job fs).memberships = db.memberships := by
  unfold dbDOf
  split <;> rfl

theorem jobDocOrder_eq (db : DB) (job_id : Nat) (job : Job)
    (hfind : fetch_job db job_id = some job) :
    jobDocOrder db job_id = (sortRows (db.memberships.filter
      (fun r => r.file_store_id == job.file_store_id))).map (fun r => r.document_id) := by
  unfold jobDocOrder
  rw [hfind]

theorem run_sim (env : Env) (db : DB) (job_id time_budget_s batch_size : Nat)
    (job : Job) (fs : FileStore)
    (hfind : fetch_job db job_id = some job)
    (hnt : ¬(job.status = Status.succeeded ∨ job.status = Status.failed))
    (hfs : fetch_file_store db job.file_store_id = some fs) :
    run_ingestion_job env db job_id time_budget_s batch_size =
      Except.ok (afterLoop job_id (totalOf db job)
        (match (simOut env db job_id time_budget_s batch_size job).err with
         | some _ => LoopResult.aborted
             (mkDB (dbDOf db job_id job fs)
               (simOut env db job_id time_budget_s batch_size job).tr
               (simOut env db job_id time_budget_s batch_size job).clock)
         | none => LoopResult.finished
             (mkDB (dbDOf db job_id job fs)
               (simOut env db job_id time_budget_s batch_size job).tr
               (simOut env db job_id time_budget_s batch_size job).clock)
             (simOut env db job_id time_budget_s batch_size job).progress
             (simOut env db job_id time_budget_s batch_size job).processed)) := by
  rw [run_shape env db job_id time_budget_s batch_size job fs (totalOf db job)
    (dbDOf db job_id job fs) hfind hnt hfs rfl rfl]
  rw [runLoop_eq_sim env job_id batch_size (totalOf db job) (db.clock + time_budget_s)
    job.file_store_id db.memberships (jobDocOrder db job_id)
    (jobDocOrder_eq db job_id job hfind)
    ((totalOf db job - job.progress) + 1) (dbDOf db job_id job fs) job.progress 0
    (jStart db job) (fetch_job_dbDOf db job_id job fs hfind) rfl
    (dbDOf_memberships db job_id job fs)]
  rw [dbDOf_clock db job_id job fs]
  rfl

theorem run_final_abort (env : Env) (db : DB) (job_id time_budget_s batch_size : Nat)
    (job : Job) (fs : FileStore) (e : String)
    (hfind : fetch_job db job_id = some job)
    (hnt : ¬(job.status = Status.succeeded ∨ job.status = Status.failed))
    (hfs : fetch_file_store db job.file_store_id = some fs)
    (he : (simOut env db job_id time_budget_s batch_size job).err = some e) :
    run_ingestion_job env db job_id time_budget_s batch_size =
      Except.ok
        (mkDB (dbDOf db job_id job fs)
          (simOut env db job_id time_budget_s batch_size job).tr
          (simOut env db job_id time_budget_s batch_size job).clock,
         some { jStart db job with
           status := Status.failed,
           error := some e,
           progress := (simOut env db job_id time_budget_s batch_size job).progress }) := by
  rw [run_sim env db job_id time_budget_s batch_size job fs hfind hnt hfs]
  simp only [he]
  simp only [afterLoop]
  rw [fetch_job_mkDB, fetch_job_dbDOf db job_id job fs hfind]
  simp only [Option.map_some']
  unfold simOut at he ⊢
  rw [loopSim_rowAbort env job_id batch_size (totalOf db job) (db.clock + time_budget_s)
    (jobDocOrder db job_id) ((totalOf db job - job.progress) + 1) db.clock job.progress 0
    (jStart db job) e he rfl rfl]

theorem run_final_succ (env : Env) (db : DB) (job_id time_budget_s batch_size : Nat)
    (job : Job) (fs : FileStore)
    (hfind : fetch_job db job_id = some job)
    (hnt : ¬(job.status = Status.succeeded ∨ job.status = Status.failed))
    (hfs : fetch_file_store db job.file_store_id = some fs)
    (he : (simOut env db job_id time_budget_s batch_size job).err = none)
    (hge : totalOf db job ≤ (simOut env db job_id time_budget_s batch_size job).progress) :
    run_ingestion_job env db job_id time_budget_s batch_size =
      Except.ok
        (log_event (set_job_status
            (mkDB (dbDOf db job_id job fs)
              (simOut env db job_id time_budget_s batch_size job).tr
              (simOut env db job_id time_budget_s batch_size job).clock)
            job_id Status.succeeded none
            (some (simOut env db job_id time_budget_s batch_size job).progress))
          job_id "job_succeeded" "info"
          [("processed", JVal.n (simOut env db job_id time_budget_s batch_size job).processed)],
         some { jStart db job with
           status := Status.succeeded,
           progress := (simOut env db job_id time_budget_s batch_size job).progress }) := by
  rw [run_sim env db job_id time_budget_s batch_size job fs hfind hnt hfs]
  simp only [he]
  simp only [afterLoop]
  rw [if_pos hge]
  rw [fetch_job_log_event, fetch_job_set_job_status, if_pos rfl, fetch_job_mkDB,
    fetch_job_dbDOf db job_id job fs hfind]
  simp only [Option.map_some']
  unfold simOut at he ⊢
  rw [loopSim_rowRun env job_id batch_size (totalOf db job) (db.clock + time_budget_s)
    (jobDocOrder db job_id) ((totalOf db job - job.progress) + 1) db.clock job.progress 0
    (jStart db job) he rfl rfl]
  unfold jStart
  obtain ⟨xs, xf, xp, xt, xe⟩ := job
  simp [applyWrite]

theorem run_final_running (env : Env) (db : DB) (job_id time_budget_s batch_size : Nat)
    (job : Job) (fs : FileStore)
    (hfind : fetch_job db job_id = some job)
    (hnt : ¬(job.status = Status.succeeded ∨ job.status = Status.failed))
    (hfs : fetch_file_store db job.file_store_id = some fs)
    (he : (simOut env db job_id time_budget_s batch_size job).err = none)
    (hlt : ¬ totalOf db job ≤ (simOut env db job_id time_budget_s batch_size job).progress) :
    run_ingestion_job env db job_id time_budget_s batch_size =
      Except.ok
        (set_job_status
          (mkDB (dbDOf db job_id job fs)
            (simOut env db job_id time_budget_s batch_size job).tr
            (simOut env db job_id time_budget_s batch_size job).clock)
          job_id Status.running none
          (some (simOut env db job_id time_budget_s batch_size job).progress),
         some { jStart db job with
           progress := (simOut env db job_id time_budget_s batch_size job).progress }) := by
  rw [run_sim env db job_id time_budget_s batch_size job fs hfind hnt hfs]
  simp only [he]
  simp only [afterLoop]
  rw [if_neg hlt]
  rw [fetch_job_set_job_status, if_pos rfl, fetch_job_mkDB,
    fetch_job_dbDOf db job_id job fs hfind]
  simp only [Option.map_some']
  unfold simOut at he ⊢
  rw [loopSim_rowRun env job_id batch_size (totalOf db job) (db.clock + time_budget_s)
    (jobDocOrder db job_id) ((totalOf db job - job.progress) + 1) db.clock job.progress 0
    (jStart db job) he rfl rfl]
  unfold jStart
  obtain ⟨xs, xf, xp, xt, xe⟩ := job
  simp [applyWrite]

theorem newTrace_of_append (db db2 : DB) (X : List Entry)
    (h : db2.trace = db.trace ++ X) : newTrace db db2 = X := by
  unfold newTrace
  rw [h]
  exact List.drop_left _ _

theorem preTrace_no_ok (db : DB) (job_id : Nat) (fs : FileStore) :
    ∀ ent ∈ preTrace db job_id fs, isOkEv ent = false := by
  intro ent hent
  simp only [preTrace, List.mem_cons, List.not_mem_nil, or_false] at hent
  rcases hent with rfl | rfl | rfl <;> rfl

theorem wrStatuses_preTrace (db : DB) (job_id : Nat) (fs : FileStore) :
    wrStatuses (preTrace db job_id fs) = [Status.running] := rfl

theorem progValues_preTrace (db : DB) (job_id : Nat) (fs : FileStore) :
    progValues (preTrace db job_id fs) = [] := rfl

theorem no_wr_all : ∀ tr : List Entry, wrStatuses tr = [] →
    tr.all (fun x => ! isWr x) = true
  | [] => by
    intro _
    rfl
  | Entry.ev j t e :: rest => by
    intro h
    have hr := no_wr_all rest h
    rw [List.all_cons, hr]
    rfl
  | Entry.wr j t w :: rest => by
    intro h
    exfalso
    simp [wrStatuses, List.filterMap_cons, wrStat] at h

theorem nwat_of_no_wr : ∀ tr : List Entry, wrStatuses tr = [] →
    noWriteAfterTerminal tr = true
  | [] => by
    intro _
    rfl
  | Entry.ev j t e :: rest => by
    intro h
    simp only [noWriteAfterTerminal]
    exact nwat_of_no_wr rest h
  | Entry.wr j t w :: rest => by
    intro h
    exfalso
    simp [wrStatuses, List.filterMap_cons, wrStat] at h

theorem nwat_of_statuses : ∀ (tr : List Entry) (n : Nat) (t : List Status), t.length ≤ 1 →
    wrStatuses tr = List.replicate n Status.running ++ t →
    noWriteAfterTerminal tr = true
  | [], n, t => by
    intro _ _
    rfl
  | Entry.ev j ts0 e :: rest, n, t => by
    intro ht h
    simp only [noWriteAfterTerminal]
    exact nwat_of_statuses rest n t ht h
  | Entry.wr j ts0 w :: rest, n, t => by
    intro ht h
    have hw : wrStatuses (Entry.wr j ts0 w :: rest) = w.status :: wrStatuses rest := by
      simp [wrStatuses, List.filterMap_cons, wrStat]
    rw [hw] at h
    cases n with
    | zero =>
      rw [List.replicate_zero, List.nil_append] at h
      cases t with
      | nil => exact absurd h (by simp)
      | cons s t2 =>
        have hlen : t2 = [] := by
          simp only [List.length_cons] at ht
          exact List.length_eq_zero.mp (by omega)
        subst hlen
        injection h with h1 h2
        simp only [noWriteAfterTerminal]
        rw [no_wr_all rest h2, nwat_of_no_wr rest h2]
        simp
    | succ n2 =>
      rw [List.replicate_succ, List.cons_append] at h
      injection h with h1 h2
      simp only [noWriteAfterTerminal]
      rw [nwat_of_statuses rest n2 t ht h2]
      simp [h1, isTerminal]

theorem statusRanks_eq_map (tr : List Entry) :
    statusRanks tr = (wrStatuses tr).map statusRank := by
  unfold statusRanks wrStatuses
  rw [List.map_filterMap]

theorem chain_progress : ∀ (m p : Nat) (t : List Nat), (∀ x ∈ t, p + m ≤ x) →
    t.length ≤ 1 → List.Chain' (fun a b => a ≤ b) (p :: (List.range' (p + 1) m ++ t))
  | 0, p, t => by
    intro hx ht
    cases t with
    | nil => simp
    | cons x t2 =>
      have hlen : t2 = [] := by
        simp only [List.length_cons] at ht
        exact List.length_eq_zero.mp (by omega)
      subst hlen
      have := hx x (List.mem_cons_self x [])
      simp [List.chain'_cons]
      omega
  | m + 1, p, t => by
    intro hx ht
    rw [List.range'_succ, List.cons_append]
    rw [List.chain'_cons]
    refine ⟨by omega, ?_⟩
    have := chain_progress m (p + 1) t (fun x hxm => by have := hx x hxm; omega) ht
    exact this

theorem chain_ranks : ∀ (n : Nat) (r0 : Nat) (t : List Nat), r0 ≤ 1 →
    (∀ x ∈ t, 1 ≤ x) → t.length ≤ 1 →
    List.Chain' (fun a b => a ≤ b) (r0 :: (List.replicate n 1 ++ t))
  | 0, r0, t => by
    intro hr hx ht
    cases t with
    | nil => simp
    | cons x t2 =>
      have hlen : t2 = [] := by
        simp only [List.length_cons] at ht
        exact List.length_eq_zero.mp (by omega)
      subst hlen
      have := hx x (List.mem_cons_self x [])
      simp [List.chain'_cons]
      omega
  | n + 1, r0, t => by
    intro hr hx ht
    rw [List.replicate_succ, List.cons_append, List.chain'_cons]
    exact ⟨hr, chain_ranks n 1 t (Nat.le_refl 1) hx ht⟩

theorem preTrace_not_msg (db : DB) (job_id : Nat) (fs : FileStore) (m : String)
    (hm1 : m ≠ "job_started") (hm2 : m ≠ "gemini_store_ready") :
    ∀ ent ∈ preTrace db job_id fs, evMsg ent ≠ some m := by
  intro ent hent
  simp only [preTrace, List.mem_cons, List.not_mem_nil, or_false] at hent
  rcases hent with rfl | rfl | rfl
  · simp [evMsg]
  · intro hh
    injection hh with hh2
    exact hm1 hh2.symm
  · intro hh
    injection hh with hh2
    exact hm2 hh2.symm

/-- C5: one run of a non-terminal job whose store resolves is
time-budget-respecting.  The deadline `db.clock + time_budget_s` is fixed once
at entry; every `downloading_from_storage` event — the start of one document
pipeline — is stamped strictly before that deadline, so no new document is
begun at or past it; the final clock exceeds the deadline by at most one
in-flight document's duration `P`; and after the loop the returned record is
`succeeded` — with a `job_succeeded` event emitted — exactly when `progress`
reached the run's `total`, every other non-aborting outcome being persisted as
`running` with the current progress for the caller to re-invoke. -/
theorem C5_time_budget (env : Env) (db : DB) (job_id time_budget_s batch_size P : Nat)
    (job : Job) (fs : FileStore) (db2 : DB) (j2 : Job)
    (hfind : fetch_job db job_id = some job)
    (hnt : ¬(job.status = Status.succeeded ∨ job.status = Status.failed))
    (hfs : fetch_file_store db job.file_store_id = some fs)
    (hdur : ∀ dd ∈ jobDocOrder db job_id, env.dur dd ≤ P)
    (hrun : run_ingestion_job env db job_id time_budget_s batch_size =
      Except.ok (db2, some j2)) :
    (∀ ent ∈ newTrace db db2, evMsg ent = some "downloading_from_storage" →
      entryTs ent < db.clock + time_budget_s) ∧
    db2.clock ≤ db.clock + time_budget_s + P ∧
    (j2.status = Status.succeeded ↔ totalOf db job ≤ j2.progress) ∧
    (j2.status = Status.succeeded ↔
      ∃ ent ∈ newTrace db db2, evMsg ent = some "job_succeeded") ∧
    (j2.status = Status.failed ∨ j2.status = Status.succeeded ∨
      (j2.status = Status.running ∧ j2.progress < totalOf db job)) := by
  have hts : ∀ ent ∈ (simOut env db job_id time_budget_s batch_size job).tr,
      entryTs ent < db.clock + time_budget_s :=
    loopSim_ts env job_id batch_size (totalOf db job) (db.clock + time_budget_s)
      (jobDocOrder db job_id) ((totalOf db job - job.progress) + 1) db.clock job.progress 0
  have hmsgs : ∀ ent ∈ (simOut env db job_id time_budget_s batch_size job).tr,
      evMsg ent ≠ some "job_succeeded" :=
    loopSim_msgs env job_id batch_size (totalOf db job) (db.clock + time_budget_s)
      (jobDocOrder db job_id) ((totalOf db job - job.progress) + 1) db.clock job.progress 0
  have hclk : (simOut env db job_id time_budget_s batch_size job).clock ≤
      db.clock + time_budget_s + P :=
    loopSim_clock_bound env job_id batch_size (totalOf db job) (db.clock + time_budget_s) P
      (jobDocOrder db job_id) hdur ((totalOf db job - job.progress) + 1) db.clock
      job.progress 0 (by omega)
  have hpredl := preTrace_not_msg db job_id fs "downloading_from_storage"
    (by decide) (by decide)
  have hpresc := preTrace_not_msg db job_id fs "job_succeeded" (by decide) (by decide)
  cases ho : (simOut env db job_id time_budget_s batch_size job).err with
  | some e =>
    have hsh := run_final_abort env db job_id time_budget_s batch_size job fs e
      hfind hnt hfs ho
    have h2 := Except.ok.inj (hsh.symm.trans hrun)
    have hdb2 : db2 = mkDB (dbDOf db job_id job fs)
        (simOut env db job_id time_budget_s batch_size job).tr
        (simOut env db job_id time_budget_s batch_size job).clock :=
      (congrArg Prod.fst h2).symm
    have hj2 : j2 = { jStart db job with
        status := Status.failed,
        error := some e,
        progress := (simOut env db job_id time_budget_s batch_size job).progress } :=
      (Option.some.inj (congrArg Prod.snd h2)).symm
    have habort : (simOut env db job_id time_budget_s batch_size job).progress <
        totalOf db job :=
      loopSim_abort_lt env job_id batch_size (totalOf db job) (db.clock + time_budget_s)
        (jobDocOrder db job_id) ((totalOf db job - job.progress) + 1) db.clock
        job.progress 0 e ho
    have htrdb2 : db2.trace = db.trace ++ (preTrace db job_id fs ++
        (simOut env db job_id time_budget_s batch_size job).tr) := by
      rw [hdb2]
      show (dbDOf db job_id job fs).trace ++ _ = _
      rw [dbDOf_trace, List.append_assoc]
    have hntr := newTrace_of_append db db2 _ htrdb2
    rw [hntr]
    refine ⟨?_, ?_, ?_, ?_, ?_⟩
    · intro ent hent hm
      rcases List.mem_append.mp hent with hmem | hmem
      · exact absurd hm (hpredl ent hmem)
      · exact hts ent hmem
    · rw [hdb2]
      exact hclk
    · rw [hj2]
      constructor
      · intro hcon
        exact Status.noConfusion hcon
      · intro hle
        have hle2 : totalOf db job ≤
            (simOut env db job_id time_budget_s batch_size job).progress := hle
        exfalso
        omega
    · rw [hj2]
      constructor
      · intro hcon
        exact Status.noConfusion hcon
      · rintro ⟨ent, hent, hm⟩
        rcases List.mem_append.mp hent with hmem | hmem
        · exact absurd hm (hpresc ent hmem)
        · exact absurd hm (hmsgs ent hmem)
    · rw [hj2]
      left
      rfl
  | none =>
    by_cases hge : totalOf db job ≤ (simOut env db job_id time_budget_s batch_size job).progress
    · have hsh := run_final_succ env db job_id time_budget_s batch_size job fs
        hfind hnt hfs ho hge
      have h2 := Except.ok.inj (hsh.symm.trans hrun)
      have hdb2 : db2 = log_event (set_job_status
          (mkDB (dbDOf db job_id job fs)
            (simOut env db job_id time_budget_s batch_size job).tr
            (simOut env db job_id time_budget_s batch_size job).clock)
          job_id Status.succeeded none
          (some (simOut env db job_id time_budget_s batch_size job).progress))
          job_id "job_succeeded" "info"
          [("processed", JVal.n (simOut env db job_id time_budget_s batch_size job).processed)] :=
        (congrArg Prod.fst h2).symm
      have hj2 : j2 = { jStart db job with
          status := Status.succeeded,
          progress := (simOut env db job_id time_budget_s batch_size job).progress } :=
        (Option.some.inj (congrArg Prod.snd h2)).symm
      have htrdb2 : db2.trace = db.trace ++ (preTrace db job_id fs ++
          ((simOut env db job_id time_budget_s batch_size job).tr ++
            [Entry.wr job_id (simOut env db job_id time_budget_s batch_size job).clock
              ⟨Status.succeeded, none,
                some (simOut env db job_id time_budget_s batch_size job).progress⟩,
             Entry.ev job_id (simOut env db job_id time_budget_s batch_size job).clock
              ⟨"info", "job_succeeded",
                [("processed",
                  JVal.n (simOut env db job_id time_budget_s batch_size job).processed)]⟩])) := by
        rw [hdb2]
        show ((((dbDOf db job_id job fs).trace ++
            (simOut env db job_id time_budget_s batch_size job).tr) ++
            [Entry.wr job_id (simOut env db job_id time_budget_s batch_size job).clock
              ⟨Status.succeeded, none,
                some (simOut env db job_id time_budget_s batch_size job).progress⟩]) ++
            [Entry.ev job_id (simOut env db job_id time_budget_s batch_size job).clock
              ⟨"info", "job_succeeded",
                [("processed",
                  JVal.n (simOut env db job_id time_budget_s batch_size job).processed)]⟩]) = _
        rw [dbDOf_trace]
        simp [List.append_assoc]
      have hntr := newTrace_of_append db db2 _ htrdb2
      rw [hntr]
      refine ⟨?_, ?_, ?_, ?_, ?_⟩
      · intro ent hent hm
        rcases List.mem_append.mp hent with hmem | hmem
        · exact absurd hm (hpredl ent hmem)
        · rcases List.mem_append.mp hmem with hmem2 | hmem2
          · exact hts ent hmem2
          · simp only [List.mem_cons, List.not_mem_nil, or_false] at hmem2
            rcases hmem2 with rfl | rfl <;> simp [evMsg] at hm
      · rw [hdb2]
        exact hclk
      · rw [hj2]
        constructor
        · intro _
          exact hge
        · intro _
          rfl
      · rw [hj2]
        constructor
        · intro _
          refine ⟨Entry.ev job_id (simOut env db job_id time_budget_s batch_size job).clock
            ⟨"info", "job_succeeded",
              [("processed",
                JVal.n (simOut env db job_id time_budget_s batch_size job).processed)]⟩,
            ?_, rfl⟩
          simp
        · intro _
          rfl
      · rw [hj2]
        right
        left
        rfl
    · have hsh := run_final_running env db job_id time_budget_s batch_size job fs
        hfind hnt hfs ho hge
      have h2 := Except.ok.inj (hsh.symm.trans hrun)
      have hdb2 : db2 = set_job_status
          (mkDB (dbDOf db job_id job fs)
            (simOut env db job_id time_budget_s batch_size job).tr
            (simOut env db job_id time_budget_s batch_size job).clock)
          job_id Status.running none
          (some (simOut env db job_id time_budget_s batch_size job).progress) :=
        (congrArg Prod.fst h2).symm
      have hj2 : j2 = { jStart db job with
          progress := (simOut env db job_id time_budget_s batch_size job).progress } :=
        (Option.some.inj (congrArg Prod.snd h2)).symm
      have htrdb2 : db2.trace = db.trace ++ (preTrace db job_id fs ++
          ((simOut env db job_id time_budget_s batch_size job).tr ++
            [Entry.wr job_id (simOut env db job_id time_budget_s batch_size job).clock
              ⟨Status.running, none,
                some (simOut env db job_id time_budget_s batch_size job).progress⟩])) := by
        rw [hdb2]
        show (((dbDOf db job_id job fs).trace ++
            (simOut env db job_id time_budget_s batch_size job).tr) ++
            [Entry.wr job_id (simOut env db job_id time_budget_s batch_size job).clock
              ⟨Status.running, none,
                some (simOut env db job_id time_budget_s batch_size job).progress⟩]) = _
        rw [dbDOf_trace]
        simp [List.append_assoc]
      have hntr := newTrace_of_append db db2 _ htrdb2
      rw [hntr]
      refine ⟨?_, ?_, ?_, ?_, ?_⟩
      · intro ent hent hm
        rcases List.mem_append.mp hent with hmem | hmem
        · exact absurd hm (hpredl ent hmem)
        · rcases List.mem_append.mp hmem with hmem2 | hmem2
          · exact hts ent hmem2
          · simp only [List.mem_cons, List.not_mem_nil, or_false] at hmem2
            rcases hmem2 with rfl
            simp [evMsg] at hm
      · rw [hdb2]
        exact hclk
      · rw [hj2]
        constructor
        · intro hcon
          exact Status.noConfusion hcon
        · intro hle
          exact absurd hle hge
      · rw [hj2]
        constructor
        · intro hcon
          exact Status.noConfusion hcon
        · rintro ⟨ent, hent, hm⟩
          rcases List.mem_append.mp hent with hmem | hmem
          · exact absurd hm (hpresc ent hmem)
          · rcases List.mem_append.mp hmem with hmem2 | hmem2
            · exact absurd hm (hmsgs ent hmem2)
            · simp only [List.mem_cons, List.not_mem_nil, or_false] at hmem2
              rcases hmem2 with rfl
              simp [evMsg] at hm
      · rw [hj2]
        right
        right
        refine ⟨rfl, ?_⟩
        have hge2 : ¬ totalOf db job ≤
            (simOut env db job_id time_budget_s batch_size job).progress := hge
        show (simOut env db job_id time_budget_s batch_size job).progress < totalOf db job
        omega

theorem preTrace_no_docid (db : DB) (job_id : Nat) (fs : FileStore) :
    ∀ ent ∈ preTrace db job_id fs, evDocId ent = none := by
  intro ent hent
  simp only [preTrace, List.mem_cons, List.not_mem_nil, or_false] at hent
  rcases hent with rfl | rfl | rfl <;> rfl

/-- C2: fail-fast.  Resuming from `progress = job.progress`, if every document
of the processing order strictly before position `k = pre.length` succeeds and
the document `d` at position `k` raises with error text `e` — at any pipeline
step, all of which `docResult` folds over — then the run emits
`indexed_failed` carrying that document's id and the error text, persists the
job `failed` with the error message, emits `job_failed` and returns at once:
the returned record (also the stored row) has `progress = k`, and every
document id mentioned by any event of the run lies among the first `k + 1`
documents of the order — no document after position `k` is attempted. -/
theorem C2_fail_fast (env : Env) (db : DB) (job_id time_budget_s batch_size : Nat)
    (job : Job) (fs : FileStore) (pre post : List Nat) (d : Nat) (e : String)
    (hfind : fetch_job db job_id = some job)
    (hnt : ¬(job.status = Status.succeeded ∨ job.status = Status.failed))
    (hfs : fetch_file_store db job.file_store_id = some fs)
    (horder : jobDocOrder db job_id = pre ++ d :: post)
    (hpre : ∀ x ∈ pre, docResult env x = none)
    (hd : docResult env d = some e)
    (hbs : 0 < batch_size)
    (hp0 : job.progress ≤ pre.length)
    (hk : pre.length < totalOf db job)
    (hbudget : sumDur env (pre.drop job.progress) < time_budget_s) :
    ∃ db2,
      run_ingestion_job env db job_id time_budget_s batch_size =
        Except.ok (db2, some { jStart db job with
          status := Status.failed,
          error := some e,
          progress := pre.length }) ∧
      fetch_job db2 job_id = some { jStart db job with
        status := Status.failed,
        error := some e,
        progress := pre.length } ∧
      (∃ ts tl, newTrace db db2 = tl ++
        [Entry.ev job_id ts ⟨"error", "indexed_failed", docData d ++ [("error", JVal.s e)]⟩,
         Entry.wr job_id ts ⟨Status.failed, some e, none⟩,
         Entry.ev job_id ts ⟨"error", "job_failed", [("error", JVal.s e)]⟩]) ∧
      (∀ ent ∈ newTrace db db2, ∀ dd, evDocId ent = some dd → dd ∈ pre ++ [d]) := by
  have hfail := loopSim_fail env job_id batch_size (totalOf db job)
    (db.clock + time_budget_s) pre post d e hpre hd hbs hk
    ((totalOf db job - job.progress) + 1) db.clock job.progress 0
    hp0 (by omega) (by omega)
  rw [← horder] at hfail
  have he : (simOut env db job_id time_budget_s batch_size job).err = some e := hfail.1
  have hprog : (simOut env db job_id time_budget_s batch_size job).progress =
      pre.length := hfail.2.1
  have htail : ∃ ts tl,
      (simOut env db job_id time_budget_s batch_size job).tr = tl ++
        [Entry.ev job_id ts ⟨"error", "indexed_failed", docData d ++ [("error", JVal.s e)]⟩,
         Entry.wr job_id ts ⟨Status.failed, some e, none⟩,
         Entry.ev job_id ts ⟨"error", "job_failed", [("error", JVal.s e)]⟩] := hfail.2.2
  have hsh := run_final_abort env db job_id time_budget_s batch_size job fs e
    hfind hnt hfs he
  refine ⟨mkDB (dbDOf db job_id job fs)
    (simOut env db job_id time_budget_s batch_size job).tr
    (simOut env db job_id time_budget_s batch_size job).clock, ?_, ?_, ?_, ?_⟩
  · rw [hsh, hprog]
  · rw [fetch_job_mkDB, fetch_job_dbDOf db job_id job fs hfind]
    simp only [Option.map_some']
    have hrow : rowApply job_id (simOut env db job_id time_budget_s batch_size job).tr
        (jStart db job) = { jStart db job with
          status := Status.failed,
          error := some e,
          progress := (simOut env db job_id time_budget_s batch_size job).progress } :=
      loopSim_rowAbort env job_id batch_size (totalOf db job) (db.clock + time_budget_s)
        (jobDocOrder db job_id) ((totalOf db job - job.progress) + 1) db.clock job.progress 0
        (jStart db job) e he rfl rfl
    rw [hrow, hprog]
  · have htrdb2 : (mkDB (dbDOf db job_id job fs)
        (simOut env db job_id time_budget_s batch_size job).tr
        (simOut env db job_id time_budget_s batch_size job).clock).trace =
        db.trace ++ (preTrace db job_id fs ++
          (simOut env db job_id time_budget_s batch_size job).tr) := by
      show (dbDOf db job_id job fs).trace ++ _ = _
      rw [dbDOf_trace, List.append_assoc]
    have hntr := newTrace_of_append db _ _ htrdb2
    rw [hntr]
    obtain ⟨ts, tl, htl⟩ := htail
    refine ⟨ts, preTrace db job_id fs ++ tl, ?_⟩
    rw [htl, ← List.append_assoc]
  · have htrdb2 : (mkDB (dbDOf db job_id job fs)
        (simOut env db job_id time_budget_s batch_size job).tr
        (simOut env db job_id time_budget_s batch_size job).clock).trace =
        db.trace ++ (preTrace db job_id fs ++
          (simOut env db job_id time_budget_s batch_size job).tr) := by
      show (dbDOf db job_id job fs).trace ++ _ = _
      rw [dbDOf_trace, List.append_assoc]
    have hntr := newTrace_of_append db _ _ htrdb2
    rw [hntr]
    have htake : (jobDocOrder db job_id).take (pre.length + 1) = pre ++ [d] := by
      rw [horder, List.take_append]
      rfl
    intro ent hent dd hdd
    rcases List.mem_append.mp hent with hmem | hmem
    · have h0 := preTrace_no_docid db job_id fs ent hmem
      rw [h0] at hdd
      exact Option.noConfusion hdd
    · have h1 : dd ∈ (jobDocOrder db job_id).take
          ((simOut env db job_id time_budget_s batch_size job).progress + 1) :=
        loopSim_docIds env job_id batch_size (totalOf db job) (db.clock + time_budget_s)
          (jobDocOrder db job_id) ((totalOf db job - job.progress) + 1) db.clock
          job.progress 0 ent hmem dd hdd
      rw [hprog, htake] at h1
      exact h1

theorem C5_witness :
    fetch_job dbTwoDocs 0 = some jobFresh ∧
    ¬(jobFresh.status = Status.succeeded ∨ jobFresh.status = Status.failed) ∧
    fetch_file_store dbTwoDocs jobFresh.file_store_id = some fsW ∧
    (∀ dd ∈ jobDocOrder dbTwoDocs 0, envAllOk.dur dd ≤ 1) ∧
    run_ingestion_job envAllOk dbTwoDocs 0 20 5 = Except.ok (db7out, some jRunOut) ∧
    ((∀ ent ∈ newTrace dbTwoDocs db7out,
        evMsg ent = some "downloading_from_storage" →
        entryTs ent < dbTwoDocs.clock + 20) ∧
      db7out.clock ≤ dbTwoDocs.clock + 20 + 1 ∧
      (jRunOut.status = Status.succeeded ↔ totalOf dbTwoDocs jobFresh ≤ jRunOut.progress) ∧
      (jRunOut.status = Status.succeeded ↔
        ∃ ent ∈ newTrace dbTwoDocs db7out, evMsg ent = some "job_succeeded") ∧
      (jRunOut.status = Status.failed ∨ jRunOut.status = Status.succeeded ∨
        (jRunOut.status = Status.running ∧
          jRunOut.progress < totalOf dbTwoDocs jobFresh))) :=
  ⟨rfl, by decide, rfl, by decide, rfl,
    C5_time_budget envAllOk dbTwoDocs 0 20 5 1 jobFresh fsW db7out jRunOut rfl
      (by decide) rfl (by decide) rfl⟩

theorem C2_witness :
    fetch_job dbTwoDocs 0 = some jobFresh ∧
    ¬(jobFresh.status = Status.succeeded ∨ jobFresh.status = Status.failed) ∧
    fetch_file_store dbTwoDocs jobFresh.file_store_id = some fsW ∧
    jobDocOrder dbTwoDocs 0 = [11] ++ 10 :: [] ∧
    (∀ x ∈ [11], docResult envFailDoc10 x = none) ∧
    docResult envFailDoc10 10 = some "boom" ∧
    0 < 5 ∧
    jobFresh.progress ≤ [11].length ∧
    [11].length < totalOf dbTwoDocs jobFresh ∧
    sumDur envFailDoc10 ([11].drop jobFresh.progress) < 20 ∧
    ∃ db2,
      run_ingestion_job envFailDoc10 dbTwoDocs 0 20 5 =
        Except.ok (db2, some { jStart dbTwoDocs jobFresh with
          status := Status.failed,
          error := some "boom",
          progress := [11].length }) ∧
      fetch_job db2 0 = some { jStart dbTwoDocs jobFresh with
        status := Status.failed,
        error := some "boom",
        progress := [11].length } ∧
      (∃ ts tl, newTrace dbTwoDocs db2 = tl ++
        [Entry.ev 0 ts ⟨"error", "indexed_failed",
          docData 10 ++ [("error", JVal.s "boom")]⟩,
         Entry.wr 0 ts ⟨Status.failed, some "boom", none⟩,
         Entry.ev 0 ts ⟨"error", "job_failed", [("error", JVal.s "boom")]⟩]) ∧
      (∀ ent ∈ newTrace dbTwoDocs db2, ∀ dd, evDocId ent = some dd → dd ∈ [11] ++ [10]) :=
  ⟨rfl, by decide, rfl, by decide, by decide, rfl, by decide, by decide, by decide,
    by decide,
    C2_fail_fast envFailDoc10 dbTwoDocs 0 20 5 jobFresh fsW [11] [] 10 "boom" rfl
      (by decide) rfl (by decide) (by decide) rfl (by decide) (by decide) (by decide)
      (by decide)⟩

theorem statusRank_le_one (s : Status)
    (h : ¬(s = Status.succeeded ∨ s = Status.failed)) : statusRank s ≤ 1 := by
  cases s with
  | queued => decide
  | running => decide
  | succeeded => exact absurd (Or.inl rfl) h
  | failed => exact absurd (Or.inr rfl) h

theorem parseOk_preTrace (db : DB) (job_id : Nat) (fs : FileStore) (p : Nat)
    (rest : List Entry) :
    parseOk job_id p (preTrace db job_id fs ++ rest) = parseOk job_id p rest :=
  parseOk_skip job_id _ (preTrace_no_ok db job_id fs) p rest

theorem run_monotone (env : Env) (db : DB) (job_id time_budget_s batch_size : Nat)
    (db2 : DB) (r : Option Job)
    (hrun : run_ingestion_job env db job_id time_budget_s batch_size =
      Except.ok (db2, r)) :
    jobProgress db job_id ≤ jobProgress db2 job_id ∧
    jobRank db job_id ≤ jobRank db2 job_id ∧
    List.Chain' (fun a b => a ≤ b)
      (jobProgress db job_id :: progValues (newTrace db db2)) ∧
    parseOk job_id (jobProgress db job_id) (newTrace db db2) =
      some (jobProgress db2 job_id) ∧
    noWriteAfterTerminal (newTrace db db2) = true ∧
    List.Chain' (fun a b => a ≤ b)
      (jobRank db job_id :: statusRanks (newTrace db db2)) := by
  cases hjob : fetch_job db job_id with
  | none =>
    exfalso
    unfold run_ingestion_job at hrun
    rw [hjob] at hrun
    exact Except.noConfusion hrun
  | some job =>
    have hprog1 := jobProgress_eq db job_id job hjob
    have hrank1 := jobRank_eq db job_id job hjob
    by_cases hterm : job.status = Status.succeeded ∨ job.status = Status.failed
    · have hsh : run_ingestion_job env db job_id time_budget_s batch_size =
          Except.ok (db, some job) := by
        unfold run_ingestion_job
        rw [hjob]
        simp only [if_pos hterm]
      have h2 := Except.ok.inj (hsh.symm.trans hrun)
      have hdb2 : db2 = db := (congrArg Prod.fst h2).symm
      rw [hdb2]
      have hnew : newTrace db db = [] := by
        unfold newTrace
        exact List.drop_length _
      rw [hnew]
      refine ⟨Nat.le_refl _, Nat.le_refl _, ?_, rfl, rfl, ?_⟩
      · simp [progValues]
      · simp [statusRanks]
    · have hrle := statusRank_le_one job.status hterm
      cases hfs : fetch_file_store db job.file_store_id with
      | none =>
        have hsh := run_shape_nostore env db job_id time_budget_s batch_size job
          hjob hterm hfs
        have h2 := Except.ok.inj (hsh.symm.trans hrun)
        have hdb2 : db2 = failDB db job_id := (congrArg Prod.fst h2).symm
        subst hdb2
        have htr : (failDB db job_id).trace = db.trace ++
            [Entry.wr job_id db.clock ⟨Status.running, none, none⟩,
             Entry.ev job_id db.clock ⟨"info", "job_started", []⟩,
             Entry.wr job_id db.clock ⟨Status.failed, some "File store not found", none⟩,
             Entry.ev job_id db.clock ⟨"error", "job_failed",
               [("error", JVal.s "File store not found")]⟩] := by
          simp [failDB, log_event, set_job_status, List.append_assoc]
        have hnew := newTrace_of_append db _ _ htr
        rw [hnew]
        have hprog2 : jobProgress (failDB db job_id) job_id = job.progress := by
          unfold jobProgress
          rw [fetch_job_failDB, if_pos rfl, hjob]
          rfl
        have hrank2 : jobRank (failDB db job_id) job_id = 2 := by
          unfold jobRank
          rw [fetch_job_failDB, if_pos rfl, hjob]
          rfl
        have hnok : ∀ ent ∈
            [Entry.wr job_id db.clock (⟨Status.running, none, none⟩ : JobWrite),
             Entry.ev job_id db.clock ⟨"info", "job_started", []⟩,
             Entry.wr job_id db.clock ⟨Status.failed, some "File store not found", none⟩,
             Entry.ev job_id db.clock ⟨"error", "job_failed",
               [("error", JVal.s "File store not found")]⟩],
            isOkEv ent = false := by
          intro ent hent
          simp only [List.mem_cons, List.not_mem_nil, or_false] at hent
          rcases hent with rfl | rfl | rfl | rfl <;> rfl
        refine ⟨?_, ?_, ?_, ?_, ?_, ?_⟩
        · rw [hprog1, hprog2]
        · rw [hrank1, hrank2]
          omega
        · simp [progValues, wrProg]
        · rw [parseOk_no_ok job_id _ hnok, hprog1, hprog2]
        · exact nwat_of_statuses _ 1 [Status.failed] (by simp) rfl
        · have hsr : statusRanks
              [Entry.wr job_id db.clock (⟨Status.running, none, none⟩ : JobWrite),
               Entry.ev job_id db.clock ⟨"info", "job_started", []⟩,
               Entry.wr job_id db.clock ⟨Status.failed, some "File store not found", none⟩,
               Entry.ev job_id db.clock ⟨"error", "job_failed",
                 [("error", JVal.s "File store not found")]⟩] = [1, 2] := rfl
          rw [hsr, hrank1]
          exact List.chain'_cons.mpr ⟨hrle,
            List.chain'_cons.mpr ⟨by omega, List.chain'_singleton _⟩⟩
      | some fs =>
        have hparse : parseOk job_id job.progress
            (simOut env db job_id time_budget_s batch_size job).tr =
            some (simOut env db job_id time_budget_s batch_size job).progress :=
          loopSim_parse env job_id batch_size (totalOf db job) (db.clock + time_budget_s)
            (jobDocOrder db job_id) ((totalOf db job - job.progress) + 1) db.clock
            job.progress 0
        have hpv : progValues (simOut env db job_id time_budget_s batch_size job).tr =
            List.range' (job.progress + 1)
              ((simOut env db job_id time_budget_s batch_size job).progress -
                job.progress) :=
          loopSim_progValues env job_id batch_size (totalOf db job)
            (db.clock + time_budget_s) (jobDocOrder db job_id)
            ((totalOf db job - job.progress) + 1) db.clock job.progress 0
        have hple : job.progress ≤
            (simOut env db job_id time_budget_s batch_size job).progress :=
          loopSim_prog_le env job_id batch_size (totalOf db job) (db.clock + time_budget_s)
            (jobDocOrder db job_id) ((totalOf db job - job.progress) + 1) db.clock
            job.progress 0
        have hstat : wrStatuses (simOut env db job_id time_budget_s batch_size job).tr =
            List.replicate
              ((simOut env db job_id time_budget_s batch_size job).progress -
                job.progress) Status.running ++
            (match (simOut env db job_id time_budget_s batch_size job).err with
              | some _ => [Status.failed]
              | none => []) :=
          loopSim_statuses env job_id batch_size (totalOf db job) (db.clock + time_budget_s)
            (jobDocOrder db job_id) ((totalOf db job - job.progress) + 1) db.clock
            job.progress 0
        cases ho : (simOut env db job_id time_budget_s batch_size job).err with
        | some e =>
          simp only [ho] at hstat
          have hsh := run_final_abort env db job_id time_budget_s batch_size job fs e
            hjob hterm hfs ho
          have h2 := Except.ok.inj (hsh.symm.trans hrun)
          have hdb2 : db2 = mkDB (dbDOf db job_id job fs)
              (simOut env db job_id time_budget_s batch_size job).tr
              (simOut env db job_id time_budget_s batch_size job).clock :=
            (congrArg Prod.fst h2).symm
          subst hdb2
          have htrdb2 : (mkDB (dbDOf db job_id job fs)
              (simOut env db job_id time_budget_s batch_size job).tr
              (simOut env db job_id time_budget_s batch_size job).clock).trace =
              db.trace ++ (preTrace db job_id fs ++
                (simOut env db job_id time_budget_s batch_size job).tr) := by
            show (dbDOf db job_id job fs).trace ++ _ = _
            rw [dbDOf_trace, List.append_assoc]
          have hnew := newTrace_of_append db _ _ htrdb2
          rw [hnew]
          have hrow : rowApply job_id
              (simOut env db job_id time_budget_s batch_size job).tr (jStart db job) =
              { jStart db job with
                status := Status.failed,
                error := some e,
                progress := (simOut env db job_id time_budget_s batch_size job).progress } :=
            loopSim_rowAbort env job_id batch_size (totalOf db job)
              (db.clock + time_budget_s) (jobDocOrder db job_id)
              ((totalOf db job - job.progress) + 1) db.clock job.progress 0
              (jStart db job) e ho rfl rfl
          have hprog2 : jobProgress (mkDB (dbDOf db job_id job fs)
              (simOut env db job_id time_budget_s batch_size job).tr
              (simOut env db job_id time_budget_s batch_size job).clock) job_id =
              (simOut env db job_id time_budget_s batch_size job).progress := by
            unfold jobProgress
            rw [fetch_job_mkDB, fetch_job_dbDOf db job_id job fs hjob]
            simp only [Option.map_some']
            rw [hrow]
            rfl
          have hrank2 : jobRank (mkDB (dbDOf db job_id job fs)
              (simOut env db job_id time_budget_s batch_size job).tr
              (simOut env db job_id time_budget_s batch_size job).clock) job_id = 2 := by
            unfold jobRank
            rw [fetch_job_mkDB, fetch_job_dbDOf db job_id job fs hjob]
            simp only [Option.map_some']
            rw [hrow]
            rfl
          have hws : wrStatuses (preTrace db job_id fs ++
              (simOut env db job_id time_budget_s batch_size job).tr) =
              List.replicate
                (((simOut env db job_id time_budget_s batch_size job).progress -
                  job.progress) + 1) Status.running ++ [Status.failed] := by
            rw [wrStatuses_append, wrStatuses_preTrace, hstat]
            simp [List.replicate_succ]
          refine ⟨?_, ?_, ?_, ?_, ?_, ?_⟩
          · rw [hprog1, hprog2]
            exact hple
          · rw [hrank1, hrank2]
            omega
          · rw [hprog1, progValues_append, progValues_preTrace, List.nil_append, hpv]
            have hch := chain_progress
              ((simOut env db job_id time_budget_s batch_size job).progress -
                job.progress) job.progress [] (by simp) (by simp)
            rw [List.append_nil] at hch
            exact hch
          · rw [hprog1, parseOk_preTrace, hparse, hprog2]
          · exact nwat_of_statuses _ _ [Status.failed] (by simp) hws
          · rw [statusRanks_eq_map, hws, List.map_append, List.map_replicate, hrank1]
            exact chain_ranks _ (statusRank job.status) [2] hrle (by simp) (by simp)
        | none =>
          simp only [ho, List.append_nil] at hstat
          by_cases hge : totalOf db job ≤
              (simOut env db job_id time_budget_s batch_size job).progress
          · have hsh := run_final_succ env db job_id time_budget_s batch_size job fs
              hjob hterm hfs ho hge
            have h2 := Except.ok.inj (hsh.symm.trans hrun)
            have hdb2 : db2 = log_event (set_job_status
                (mkDB (dbDOf db job_id job fs)
                  (simOut env db job_id time_budget_s batch_size job).tr
                  (simOut env db job_id time_budget_s batch_size job).clock)
                job_id Status.succeeded none
                (some (simOut env db job_id time_budget_s batch_size job).progress))
                job_id "job_succeeded" "info"
                [("processed",
                  JVal.n (simOut env db job_id time_budget_s batch_size job).processed)] :=
              (congrArg Prod.fst h2).symm
            subst hdb2
            have htrdb2 : (log_event (set_job_status
                (mkDB (dbDOf db job_id job fs)
                  (simOut env db job_id time_budget_s batch_size job).tr
                  (simOut env db job_id time_budget_s batch_size job).clock)
                job_id Status.succeeded none
                (some (simOut env db job_id time_budget_s batch_size job).progress))
                job_id "job_succeeded" "info"
                [("processed",
                  JVal.n (simOut env db job_id time_budget_s batch_size job).processed)]).trace =
                db.trace ++ (preTrace db job_id fs ++
                  ((simOut env db job_id time_budget_s batch_size job).tr ++
                    [Entry.wr job_id (simOut env db job_id time_budget_s batch_size job).clock
                      ⟨Status.succeeded, none,
                        some (simOut env db job_id time_budget_s batch_size job).progress⟩,
                     Entry.ev job_id (simOut env db job_id time_budget_s batch_size job).clock
                      ⟨"info", "job_succeeded",
                        [("processed",
                          JVal.n (simOut env db job_id time_budget_s batch_size
                            job).processed)]⟩])) := by
              show ((((dbDOf db job_id job fs).trace ++
                  (simOut env db job_id time_budget_s batch_size job).tr) ++
                  [Entry.wr job_id (simOut env db job_id time_budget_s batch_size job).clock
                    ⟨Status.succeeded, none,
                      some (simOut env db job_id time_budget_s batch_size job).progress⟩]) ++
                  [Entry.ev job_id (simOut env db job_id time_budget_s batch_size job).clock
                    ⟨"info", "job_succeeded",
                      [("processed",
                        JVal.n (simOut env db job_id time_budget_s batch_size
                          job).processed)]⟩]) = _
              rw [dbDOf_trace]
              simp [List.append_assoc]
            have hnew := newTrace_of_append db _ _ htrdb2
            rw [hnew]
            have hrow : rowApply job_id
                (simOut env db job_id time_budget_s batch_size job).tr (jStart db job) =
                { jStart db job with
                  progress := (simOut env db job_id time_budget_s batch_size job).progress } :=
              loopSim_rowRun env job_id batch_size (totalOf db job)
                (db.clock + time_budget_s) (jobDocOrder db job_id)
                ((totalOf db job - job.progress) + 1) db.clock job.progress 0
                (jStart db job) ho rfl rfl
            have hprog2 : jobProgress (log_event (set_job_status
                (mkDB (dbDOf db job_id job fs)
                  (simOut env db job_id time_budget_s batch_size job).tr
                  (simOut env db job_id time_budget_s batch_size job).clock)
                job_id Status.succeeded none
                (some (simOut env db job_id time_budget_s batch_size job).progress))
                job_id "job_succeeded" "info"
                [("processed",
                  JVal.n (simOut env db job_id time_budget_s batch_size job).processed)])
                job_id = (simOut env db job_id time_budget_s batch_size job).progress := by
              unfold jobProgress
              rw [fetch_job_log_event, fetch_job_set_job_status, if_pos rfl, fetch_job_mkDB,
                fetch_job_dbDOf db job_id job fs hjob]
              simp only [Option.map_some']
              rw [hrow]
              rfl
            have hrank2 : jobRank (log_event (set_job_status
                (mkDB (dbDOf db job_id job fs)
                  (simOut env db job_id time_budget_s batch_size job).tr
                  (simOut env db job_id time_budget_s batch_size job).clock)
                job_id Status.succeeded none
                (some (simOut env db job_id time_budget_s batch_size job).progress))
                job_id "job_succeeded" "info"
                [("processed",
                  JVal.n (simOut env db job_id time_budget_s batch_size job).processed)])
                job_id = 2 := by
              unfold jobRank
              rw [fetch_job_log_event, fetch_job_set_job_status, if_pos rfl, fetch_job_mkDB,
                fetch_job_dbDOf db job_id job fs hjob]
              simp only [Option.map_some']
              rw [hrow]
              rfl
            have hws : wrStatuses (preTrace db job_id fs ++
                ((simOut env db job_id time_budget_s batch_size job).tr ++
                  [Entry.wr job_id (simOut env db job_id time_budget_s batch_size job).clock
                    ⟨Status.succeeded, none,
                      some (simOut env db job_id time_budget_s batch_size job).progress⟩,
                   Entry.ev job_id (simOut env db job_id time_budget_s batch_size job).clock
                    ⟨"info", "job_succeeded",
                      [("processed",
                        JVal.n (simOut env db job_id time_budget_s batch_size
                          job).processed)]⟩])) =
                List.replicate
                  (((simOut env db job_id time_budget_s batch_size job).progress -
                    job.progress) + 1) Status.running ++ [Status.succeeded] := by
              rw [wrStatuses_append, wrStatuses_preTrace, wrStatuses_append, hstat]
              simp [List.replicate_succ, wrStatuses, List.filterMap_cons, wrStat]
            refine ⟨?_, ?_, ?_, ?_, ?_, ?_⟩
            · rw [hprog1, hprog2]
              exact hple
            · rw [hrank1, hrank2]
              omega
            · rw [hprog1, progValues_append, progValues_preTrace, List.nil_append,
                progValues_append, hpv]
              have hpvpost : progValues
                  [Entry.wr job_id (simOut env db job_id time_budget_s batch_size job).clock
                    ⟨Status.succeeded, none,
                      some (simOut env db job_id time_budget_s batch_size job).progress⟩,
                   Entry.ev job_id (simOut env db job_id time_budget_s batch_size job).clock
                    ⟨"info", "job_succeeded",
                      [("processed",
                        JVal.n (simOut env db job_id time_budget_s batch_size
                          job).processed)]⟩] =
                  [(simOut env db job_id time_budget_s batch_size job).progress] := rfl
              rw [hpvpost]
              refine chain_progress _ job.progress _ ?_ (by simp)
              intro x hx
              simp only [List.mem_cons, List.not_mem_nil, or_false] at hx
              subst hx
              omega
            · rw [hprog1, parseOk_preTrace,
                parseOk_append job_id _ job.progress
                  (simOut env db job_id time_budget_s batch_size job).progress _ hparse,
                hprog2]
              rfl
            · exact nwat_of_statuses _ _ [Status.succeeded] (by simp) hws
            · rw [statusRanks_eq_map, hws, List.map_append, List.map_replicate, hrank1]
              exact chain_ranks _ (statusRank job.status) [2] hrle (by simp) (by simp)
          · have hsh := run_final_running env db job_id time_budget_s batch_size job fs
              hjob hterm hfs ho hge
            have h2 := Except.ok.inj (hsh.symm.trans hrun)
            have hdb2 : db2 = set_job_status
                (mkDB (dbDOf db job_id job fs)
                  (simOut env db job_id time_budget_s batch_size job).tr
                  (simOut env db job_id time_budget_s batch_size job).clock)
                job_id Status.running none
                (some (simOut env db job_id time_budget_s batch_size job).progress) :=
              (congrArg Prod.fst h2).symm
            subst hdb2
            have htrdb2 : (set_job_status
                (mkDB (dbDOf db job_id job fs)
                  (simOut env db job_id time_budget_s batch_size job).tr
                  (simOut env db job_id time_budget_s batch_size job).clock)
                job_id Status.running none
                (some (simOut env db job_id time_budget_s batch_size job).progress)).trace =
                db.trace ++ (preTrace db job_id fs ++
                  ((simOut env db job_id time_budget_s batch_size job).tr ++
                    [Entry.wr job_id
                      (simOut env db job_id time_budget_s batch_size job).clock
                      ⟨Status.running, none,
                        some (simOut env db job_id time_budget_s batch_size
                          job).progress⟩])) := by
              show (((dbDOf db job_id job fs).trace ++
                  (simOut env db job_id time_budget_s batch_size job).tr) ++
                  [Entry.wr job_id (simOut env db job_id time_budget_s batch_size job).clock
                    ⟨Status.running, none,
                      some (simOut env db job_id time_budget_s batch_size
                        job).progress⟩]) = _
              rw [dbDOf_trace]
              simp [List.append_assoc]
            have hnew := newTrace_of_append db _ _ htrdb2
            rw [hnew]
            have hrow : rowApply job_id
                (simOut env db job_id time_budget_s batch_size job).tr (jStart db job) =
                { jStart db job with
                  progress := (simOut env db job_id time_budget_s batch_size job).progress } :=
              loopSim_rowRun env job_id batch_size (totalOf db job)
                (db.clock + time_budget_s) (jobDocOrder db job_id)
                ((totalOf db job - job.progress) + 1) db.clock job.progress 0
                (jStart db job) ho rfl rfl
            have hprog2 : jobProgress (set_job_status
                (mkDB (dbDOf db job_id job fs)
                  (simOut env db job_id time_budget_s batch_size job).tr
                  (simOut env db job_id time_budget_s batch_size job).clock)
                job_id Status.running none
                (some (simOut env db job_id time_budget_s batch_size job).progress))
                job_id = (simOut env db job_id time_budget_s batch_size job).progress := by
              unfold jobProgress
              rw [fetch_job_set_job_status, if_pos rfl, fetch_job_mkDB,
                fetch_job_dbDOf db job_id job fs hjob]
              simp only [Option.map_some']
              rw [hrow]
              rfl
            have hrank2 : jobRank (set_job_status
                (mkDB (dbDOf db job_id job fs)
                  (simOut env db job_id time_budget_s batch_size job).tr
                  (simOut env db job_id time_budget_s batch_size job).clock)
                job_id Status.running none
                (some (simOut env db job_id time_budget_s batch_size job).progress))
                job_id = 1 := by
              unfold jobRank
              rw [fetch_job_set_job_status, if_pos rfl, fetch_job_mkDB,
                fetch_job_dbDOf db job_id job fs hjob]
              simp only [Option.map_some']
              rw [hrow]
              rfl
            have hws : wrStatuses (preTrace db job_id fs ++
                ((simOut env db job_id time_budget_s batch_size job).tr ++
                  [Entry.wr job_id (simOut env db job_id time_budget_s batch_size job).clock
                    ⟨Status.running, none,
                      some (simOut env db job_id time_budget_s batch_size
                        job).progress⟩])) =
                List.replicate
                  (((simOut env db job_id time_budget_s batch_size job).progress -
                    job.progress) + 1) Status.running ++ [Status.running] := by
              rw [wrStatuses_append, wrStatuses_preTrace, wrStatuses_append, hstat]
              simp [List.replicate_succ, wrStatuses, List.filterMap_cons, wrStat]
            refine ⟨?_, ?_, ?_, ?_, ?_, ?_⟩
            · rw [hprog1, hprog2]
              exact hple
            · rw [hrank1, hrank2]
              omega
            · rw [hprog1, progValues_append, progValues_preTrace, List.nil_append,
                progValues_append, hpv]
              have hpvpost : progValues
                  [Entry.wr job_id (simOut env db job_id time_budget_s batch_size job).clock
                    ⟨Status.running, none,
                      some (simOut env db job_id time_budget_s batch_size
                        job).progress⟩] =
                  [(simOut env db job_id time_budget_s batch_size job).progress] := rfl
              rw [hpvpost]
              refine chain_progress _ job.progress _ ?_ (by simp)
              intro x hx
              simp only [List.mem_cons, List.not_mem_nil, or_false] at hx
              subst hx
              omega
            · rw [hprog1, parseOk_preTrace,
                parseOk_append job_id _ job.progress
                  (simOut env db job_id time_budget_s batch_size job).progress _ hparse,
                hprog2]
              rfl
            · exact nwat_of_statuses _ _ [Status.running] (by simp) hws
            · rw [statusRanks_eq_map, hws, List.map_append, List.map_replicate, hrank1]
              exact chain_ranks _ (statusRank job.status) [1] hrle (by simp) (by simp)

theorem runStep_monotone (env : Env) (db : DB) (job_id time_budget_s batch_size w : Nat) :
    jobProgress db job_id ≤
      jobProgress (runStep env job_id time_budget_s batch_size w db) job_id ∧
    jobRank db job_id ≤
      jobRank (runStep env job_id time_budget_s batch_size w db) job_id := by
  unfold runStep
  dsimp only
  cases hr : run_ingestion_job env { db with clock := db.clock + w } job_id
      time_budget_s batch_size with
  | error s =>
    exact ⟨Nat.le_refl _, Nat.le_refl _⟩
  | ok pair =>
    obtain ⟨db2, r⟩ := pair
    have h := run_monotone env { db with clock := db.clock + w } job_id time_budget_s
      batch_size db2 r hr
    exact ⟨h.1, h.2.1⟩

/-- C1: monotone convergence and resumability.  Any returning invocation of
`run_ingestion_job` never decreases the stored `progress` or moves the stored
status backward (ranking `queued < running < terminal`); within the
invocation the persisted `progress` values form a non-decreasing chain
starting from the stored value; every `indexed_ok` event is immediately
followed by the UPDATE persisting `progress` one higher — progress is written
per document, not batched, and replaying these pairs from the old stored
progress yields exactly the new stored progress; no job-row UPDATE ever
follows an UPDATE to a terminal status; and the persisted status ranks form a
non-decreasing chain.  Consequently arbitrary repeated invocations with
arbitrary gaps (`runSeq`) never decrease the stored progress or status rank. -/
theorem C1_monotone_resumable (env : Env) (db : DB)
    (job_id time_budget_s batch_size : Nat) :
    (∀ (db2 : DB) (r : Option Job),
      run_ingestion_job env db job_id time_budget_s batch_size = Except.ok (db2, r) →
      jobProgress db job_id ≤ jobProgress db2 job_id ∧
      jobRank db job_id ≤ jobRank db2 job_id ∧
      List.Chain' (fun a b => a ≤ b)
        (jobProgress db job_id :: progValues (newTrace db db2)) ∧
      parseOk job_id (jobProgress db job_id) (newTrace db db2) =
        some (jobProgress db2 job_id) ∧
      noWriteAfterTerminal (newTrace db db2) = true ∧
      List.Chain' (fun a b => a ≤ b)
        (jobRank db job_id :: statusRanks (newTrace db db2))) ∧
    (∀ waits : List Nat,
      jobProgress db job_id ≤
        jobProgress (runSeq env job_id time_budget_s batch_size waits db) job_id ∧
      jobRank db job_id ≤
        jobRank (runSeq env job_id time_budget_s batch_size waits db) job_id) := by
  refine ⟨fun db2 r hrun =>
    run_monotone env db job_id time_budget_s batch_size db2 r hrun, ?_⟩
  intro waits
  induction waits generalizing db with
  | nil => exact ⟨Nat.le_refl _, Nat.le_refl _⟩
  | cons w ws ih =>
    have hstep := runStep_monotone env db job_id time_budget_s batch_size w
    have hrest := ih (runStep env job_id time_budget_s batch_size w db)
    exact ⟨Nat.le_trans hstep.1 hrest.1, Nat.le_trans hstep.2 hrest.2⟩

theorem C1_witness :
    run_ingestion_job envAllOk dbTwoDocs 0 20 5 = Except.ok (db7out, j7out) ∧
    (jobProgress dbTwoDocs 0 ≤ jobProgress db7out 0 ∧
     jobRank dbTwoDocs 0 ≤ jobRank db7out 0 ∧
     List.Chain' (fun a b => a ≤ b)
       (jobProgress dbTwoDocs 0 :: progValues (newTrace dbTwoDocs db7out)) ∧
     parseOk 0 (jobProgress dbTwoDocs 0) (newTrace dbTwoDocs db7out) =
       some (jobProgress db7out 0) ∧
     noWriteAfterTerminal (newTrace dbTwoDocs db7out) = true ∧
     List.Chain' (fun a b => a ≤ b)
       (jobRank dbTwoDocs 0 :: statusRanks (newTrace dbTwoDocs db7out))) ∧
    (jobProgress dbTwoDocs 0 ≤ jobProgress (runSeq envAllOk 0 20 5 [0, 3] dbTwoDocs) 0 ∧
     jobRank dbTwoDocs 0 ≤ jobRank (runSeq envAllOk 0 20 5 [0, 3] dbTwoDocs) 0) :=
  ⟨rfl,
    (C1_monotone_resumable envAllOk dbTwoDocs 0 20 5).1 db7out j7out rfl,
    (C1_monotone_resumable envAllOk dbTwoDocs 0 20 5).2 [0, 3]⟩

/-! ### The general templating theorem (C9) -/

theorem noLB_chars (s : String) (h : noLB s = true) : ∀ c ∈ s.data, c ≠ '\x7b' := by
  intro c hc
  have := (List.all_eq_true.mp h) c hc
  simpa using this

theorem braceFree_chars (s : String) (h : braceFree s = true) :
    ∀ c ∈ s.data, c ≠ '\x7b' ∧ c ≠ '\x7d' := by
  intro c hc
  have := (List.all_eq_true.mp h) c hc
  simpa using this

theorem data_ne_of_ne (a b : String) (h : a ≠ b) : a.data ≠ b.data := by
  intro hd
  apply h
  cases a
  cases b
  exact congrArg String.mk hd

theorem joinTokens_data_cons (t : Tok) (rest : List Tok) :
    (joinTokens (t :: rest)).data = (tokStr t).data ++ (joinTokens rest).data := by
  show (tokStr t ++ joinTokens rest).data = _
  rw [String.data_append]

theorem replaceAll_skip (pat rep : List Char) :
    ∀ (a b : List Char), (∀ c ∈ a, c ≠ '\x7b') →
      replaceAll ('\x7b' :: pat) rep (a ++ b) = a ++ replaceAll ('\x7b' :: pat) rep b
  | [], b => by
    intro _
    rfl
  | c :: a2, b => by
    intro h
    have hc : c ≠ '\x7b' := h c (List.mem_cons_self c a2)
    rw [List.cons_append, replaceAll, dif_neg]
    · rw [replaceAll_skip pat rep a2 b (fun x hx => h x (List.mem_cons_of_mem c hx))]
      rfl
    · rintro ⟨-, hs⟩
      simp [startsWith, Ne.symm hc] at hs

theorem replaceAll_skip_braced (k : String) (rep a b : List Char)
    (ha : ∀ c ∈ a, c ≠ '\x7b') :
    replaceAll (braced k).data rep (a ++ b) = a ++ replaceAll (braced k).data rep b := by
  rw [braced_data k]
  exact replaceAll_skip ('\x7b' :: (k.data ++ ['\x7d', '\x7d'])) rep a b ha

theorem startsWith_key_ne :
    ∀ (k k2 t b : List Char), k ≠ k2 →
      (∀ c ∈ k, c ≠ '\x7d') → (∀ c ∈ k2, c ≠ '\x7d') →
      startsWith (k ++ '\x7d' :: t) (k2 ++ '\x7d' :: b) = false
  | [], [], t, b => by
    intro hne _ _
    exact absurd rfl hne
  | [], c2 :: k2, t, b => by
    intro _ _ h2
    have hc2 : c2 ≠ '\x7d' := h2 c2 (List.mem_cons_self c2 k2)
    simp [startsWith, List.cons_append, Ne.symm hc2]
  | c :: k, [], t, b => by
    intro _ h1 _
    have hc : c ≠ '\x7d' := h1 c (List.mem_cons_self c k)
    simp [startsWith, List.cons_append, hc]
  | c :: k, c2 :: k2, t, b => by
    intro hne h1 h2
    by_cases hcc : c = c2
    · subst hcc
      have hne2 : k ≠ k2 := by
        intro hh
        exact hne (by rw [hh])
      have ih := startsWith_key_ne k k2 t b hne2
        (fun x hx => h1 x (List.mem_cons_of_mem c hx))
        (fun x hx => h2 x (List.mem_cons_of_mem c hx))
      simp [startsWith, List.cons_append, ih]
    · simp [startsWith, List.cons_append, hcc]

theorem replaceAll_skip_ph (k k2 : String) (rep b : List Char)
    (hk : braceFree k = true) (hk2 : braceFree k2 = true) (hne : k ≠ k2) :
    replaceAll (braced k).data rep ((braced k2).data ++ b) =
      (braced k2).data ++ replaceAll (braced k).data rep b := by
  have hkc := braceFree_chars k hk
  have hk2c := braceFree_chars k2 hk2
  rw [braced_data k, braced_data k2]
  rw [List.cons_append, List.cons_append, replaceAll, dif_neg]
  swap
  · rintro ⟨-, hs⟩
    simp only [startsWith, Bool.and_eq_true, decide_eq_true_eq] at hs
    have hs2 := hs.2.2
    simp only [List.append_assoc, List.cons_append, List.nil_append] at hs2
    rw [startsWith_key_ne k.data k2.data ['\x7d'] ('\x7d' :: b)
      (data_ne_of_ne k k2 hne) (fun c hc => (hkc c hc).2)
      (fun c hc => (hk2c c hc).2)] at hs2
    exact Bool.false_ne_true hs2
  rw [replaceAll, dif_neg]
  swap
  · rintro ⟨-, hs⟩
    simp only [startsWith, Bool.and_eq_true, decide_eq_true_eq] at hs
    have hs2 := hs.2
    cases hk2d : k2.data with
    | nil =>
      rw [hk2d] at hs2
      simp [startsWith] at hs2
    | cons c2 k2t =>
      rw [hk2d] at hs2
      have hc2 : c2 ≠ '\x7b' := (hk2c c2 (by rw [hk2d]; exact List.mem_cons_self _ _)).1
      simp [startsWith, List.cons_append, Ne.symm hc2] at hs2
  rw [List.cons_append, List.cons_append]
  rw [replaceAll_skip ('\x7b' :: (k.data ++ ['\x7d', '\x7d'])) rep
    (k2.data ++ ['\x7d', '\x7d']) b ?ha]
  case ha =>
    intro c hc
    rcases List.mem_append.mp hc with hmem | hmem
    · exact (hk2c c hmem).1
    · simp only [List.mem_cons, List.not_mem_nil, or_false] at hmem
      rcases hmem with rfl | rfl <;> decide

theorem replaceAll_tokens (k rep : String) (hk : braceFree k = true)
    (hrep : noLB rep = true) :
    ∀ toks : List Tok, toks.all tokOk = true →
      replaceAll (braced k).data rep.data (joinTokens toks).data =
        (joinTokens (toks.map (substTok k rep))).data
  | [] => by
    intro _
    simp [joinTokens, replaceAll_nil]
  | Tok.lit s :: rest => by
    intro hall
    rw [List.all_cons, Bool.and_eq_true] at hall
    have hs : noLB s = true := hall.1
    rw [joinTokens_data_cons, List.map_cons, joinTokens_data_cons]
    simp only [tokStr, substTok]
    rw [replaceAll_skip_braced k rep.data s.data _ (noLB_chars s hs)]
    rw [replaceAll_tokens k rep hk hrep rest hall.2]
  | Tok.ph k2 :: rest => by
    intro hall
    rw [List.all_cons, Bool.and_eq_true] at hall
    have hk2 : braceFree k2 = true := hall.1
    rw [joinTokens_data_cons, List.map_cons, joinTokens_data_cons]
    simp only [tokStr, substTok]
    by_cases hkk : k2 = k
    · subst hkk
      rw [if_pos rfl]
      rw [replaceAll_head _ _ _ (braced_ne_nil k2)]
      rw [replaceAll_tokens k2 rep hk hrep rest hall.2]
    · rw [if_neg hkk]
      simp only [tokStr]
      rw [replaceAll_skip_ph k k2 rep.data _ hk hk2 (fun hh => hkk hh.symm)]
      rw [replaceAll_tokens k rep hk hrep rest hall.2]

theorem pyReplace_tokens (k rep : String) (toks : List Tok)
    (hk : braceFree k = true) (hrep : noLB rep = true)
    (hall : toks.all tokOk = true) :
    pyReplace (joinTokens toks) (braced k) rep =
      joinTokens (toks.map (substTok k rep)) := by
  unfold pyReplace
  rw [replaceAll_tokens k rep hk hrep toks hall]

theorem tokOk_substTok (k rep : String) (hrep : noLB rep = true) :
    ∀ t : Tok, tokOk t = true → tokOk (substTok k rep t) = true
  | Tok.lit s => fun h => h
  | Tok.ph k2 => fun h => by
    by_cases hkk : k2 = k
    · simp [substTok, hkk, tokOk, hrep]
    · simp [substTok, hkk, tokOk]
      have hh : braceFree k2 = true := h
      simpa using hh

theorem all_tokOk_subst (k rep : String) (hrep : noLB rep = true) (toks : List Tok)
    (hall : toks.all tokOk = true) : (toks.map (substTok k rep)).all tokOk = true := by
  rw [List.all_eq_true] at hall ⊢
  intro t ht
  rcases List.mem_map.mp ht with ⟨t0, ht0, rfl⟩
  exact tokOk_substTok k rep hrep t0 (hall t0 ht0)

theorem map_specRenderTok_nil : ∀ toks : List Tok, toks.map (specRenderTok []) = toks
  | [] => rfl
  | t :: rest => by
    rw [List.map_cons, map_specRenderTok_nil rest]
    cases t <;> rfl

theorem specRenderTok_step (k : String) (v : Option String)
    (rest : List (String × Option String)) :
    ∀ t : Tok, specRenderTok rest (substTok k (v.getD "") t) =
      specRenderTok ((k, v) :: rest) t
  | Tok.lit s => rfl
  | Tok.ph k2 => by
    by_cases hkk : k2 = k
    · subst hkk
      simp [substTok, specRenderTok, List.lookup]
    · have hbe : (k2 == k) = false := beq_eq_false_iff_ne.mpr hkk
      simp [substTok, specRenderTok, List.lookup, hkk, hbe]

theorem render_prompt_tokens :
    ∀ (context : List (String × Option String)) (toks : List Tok),
      toks.all tokOk = true → ctxOk context = true →
      render_prompt (joinTokens toks) context =
        joinTokens (toks.map (specRenderTok context))
  | [], toks => by
    intro _ _
    rw [render_prompt_empty_context, map_specRenderTok_nil]
  | (k, v) :: rest, toks => by
    intro hall hctx
    unfold ctxOk at hctx
    rw [List.all_cons, Bool.and_eq_true, Bool.and_eq_true] at hctx
    obtain ⟨⟨hk, hv⟩, hrest⟩ := hctx
    show render_prompt (pyReplace (joinTokens toks) (braced k) (v.getD "")) rest = _
    rw [pyReplace_tokens k (v.getD "") toks hk hv hall]
    rw [render_prompt_tokens rest (toks.map (substTok k (v.getD "")))
      (all_tokOk_subst k (v.getD "") hv toks hall) hrest]
    rw [List.map_map]
    have hfun : specRenderTok rest ∘ substTok k (v.getD "") =
        specRenderTok ((k, v) :: rest) := by
      funext t
      exact specRenderTok_step k v rest t
    rw [hfun]

/-- C9 (amended): prompt templating is a pure, occurrence-wise function over
named placeholders.  For every template — presented as an arbitrary
interleaving of literal chunks (text that opens no placeholder) and
placeholders with brace-free keys — and every context whose keys are
brace-free and whose values open no placeholder, `render_prompt` replaces
every occurrence of every context-bound placeholder by that key's value,
reading a `None` value as the empty string, leaves every placeholder whose
key is unbound verbatim in the output, and leaves literal text untouched. -/
theorem C9_render_prompt (toks : List Tok) (context : List (String × Option String))
    (htoks : toks.all tokOk = true) (hctx : ctxOk context = true) :
    render_prompt (joinTokens toks) context =
      joinTokens (toks.map (specRenderTok context)) :=
  render_prompt_tokens context toks htoks hctx

theorem C9_witness :
    ([Tok.lit "Hello ", Tok.ph "name", Tok.lit ", welcome to ", Tok.ph "place",
      Tok.lit "; bye ", Tok.ph "name", Tok.ph "missing"].all tokOk = true) ∧
    (ctxOk [("name", some "Ada"), ("place", none), ("extra", some "zzz")] = true) ∧
    render_prompt
      (joinTokens [Tok.lit "Hello ", Tok.ph "name", Tok.lit ", welcome to ",
        Tok.ph "place", Tok.lit "; bye ", Tok.ph "name", Tok.ph "missing"])
      [("name", some "Ada"), ("place", none), ("extra", some "zzz")] =
      joinTokens ([Tok.lit "Hello ", Tok.ph "name", Tok.lit ", welcome to ",
        Tok.ph "place", Tok.lit "; bye ", Tok.ph "name", Tok.ph "missing"].map
        (specRenderTok [("name", some "Ada"), ("place", none), ("extra", some "zzz")])) ∧
    joinTokens ([Tok.lit "Hello ", Tok.ph "name", Tok.lit ", welcome to ",
        Tok.ph "place", Tok.lit "; bye ", Tok.ph "name", Tok.ph "missing"].map
        (specRenderTok [("name", some "Ada"), ("place", none), ("extra", some "zzz")])) =
      "Hello Ada, welcome to ; bye Ada\x7b\x7bmissing\x7d\x7d" :=
  ⟨by decide, by decide,
    C9_render_prompt
      [Tok.lit "Hello ", Tok.ph "name", Tok.lit ", welcome to ", Tok.ph "place",
        Tok.lit "; bye ", Tok.ph "name", Tok.ph "missing"]
      [("name", some "Ada"), ("place", none), ("extra", some "zzz")]
      (by decide) (by decide),
    rfl⟩

end PitchPages
